import Mathlib

/-!
SuperChase: task intake, classification and lifecycle dispatch

A shallow embedding of `src/central-command-poller.js` (class `CentralCommandPoller`),
of the classifier `analyzeTask` of `src/server.js` and of `src/coordinator.js`, and of
the cached speech request `getVoiceClip` of `src/frontend/utils/elevenlabs.js`,
followed by the properties established about them.

Conventions of the embedding

* A JavaScript string is a Lean `String` (a sequence of Unicode characters);
  `includes` is the contiguous-substring test.  `toLowerCase` maps every character
  whose lower-case form has an ASCII character in it (the ASCII capitals, U+212A and
  U+0130); the keywords of this program are ASCII words.  The length of a string is
  counted in UTF-16 code units.
* A JavaScript number is the rational value of a double; `NaN` is `none` in
  `JsNum = Option ℚ`.  Where the source computes (`calculateCost`,
  `estimateTokenUsage`, the elapsed seconds), every product, sum and quotient and every
  decimal literal that enters the computation is rounded to the nearest double by `fl`,
  a tie going to the even neighbour; `Math.round` is exact.  A decimal literal that is
  only stored and passed on (a confidence) is written as the literal.  The infinities
  are not values of the embedding.
* A missing (`undefined`) record field is `none`; the `task_id` of a record and the
  answer object of the executor are always present.
* The lookups `priorityOrder[p]`, `baseCost[agent]` and `agentMultiplier[agent]` find
  the entries written in the source and, under the names `inheritedNames`, the members
  that every object inherits from `Object.prototype`.  The lookups in the tables of
  default deliverables, of priority names and of voices find the entries written in the
  source.
* `Array.prototype.sort` is the procedure of the engine for arrays of fewer than 64
  elements (a run is counted, then the remaining elements are placed by binary
  insertion); with a comparator that is the difference of a numeric key every longer
  array is arranged in the same way, the stable arrangement by the key.
* The collaborators reached over the network (record store, ledger store, executor,
  clock) are an `Env` of oracles; each oracle sees the whole history of the run, so
  every outcome that a real collaborator can produce is covered.  Every interaction is
  appended to a chronological `Trace`.
* The callers of `stopPolling` are outside the poller; whether one of them runs while
  the poller is suspended is an oracle on the history as well.
* The cache directory of `getVoiceClip` is a list of files with their bytes, and the
  speech service is a function from the request to its answer.
* Console output has no effect on control flow and is left out.
-/

namespace JS

/-- The test `hay.includes(needle)` on character lists: `needle` occurs in `hay` as a
contiguous block. -/
def includesChars : List Char → List Char → Bool
  | [], needle => needle.isPrefixOf []
  | c :: hay, needle => needle.isPrefixOf (c :: hay) || includesChars hay needle

/-- The method `String.prototype.includes`. -/
def includes (s needle : String) : Bool :=
  includesChars s.data needle.data

/-- The lower-case form of one character, as far as ASCII is concerned: an ASCII
capital gives its small letter, the Kelvin sign U+212A gives `k`, and the dotted
capital I U+0130 gives `i` followed by the combining dot U+0307.  These are the only
characters whose lower-case form contains an ASCII character; every other character
that Unicode lower-cases goes to characters outside ASCII and is left in place here. -/
def lowerChar (c : Char) : List Char :=
  if c.toNat = 0x212A then ['k']
  else if c.toNat = 0x130 then ['i', Char.ofNat 0x307]
  else [c.toLower]

/-- The lower-case form of a list of characters. -/
def lowerChars : List Char → List Char
  | [] => []
  | c :: cs => lowerChar c ++ lowerChars cs

/-- The method `String.prototype.toLowerCase`.  The result has the ASCII characters of
the result of the method at the same places between the same numbers of other
characters, so a test for an ASCII word or for a blank has the same outcome. -/
def toLowerCase (s : String) : String :=
  ⟨lowerChars s.data⟩

/-- The pieces of `s.split(' ')` on character lists: a string with `k` blanks has
`k + 1` pieces. -/
def splitSpaceChars : List Char → List (List Char)
  | [] => [[]]
  | c :: cs =>
    if c = ' ' then [] :: splitSpaceChars cs
    else
      match splitSpaceChars cs with
      | [] => [[c]]
      | w :: ws => (c :: w) :: ws

/-- The call `s.split(' ')`. -/
def splitSpace (s : String) : List String :=
  (splitSpaceChars s.data).map String.mk

/-- The exponent of the spacing of the doubles around `x`: a double carries 53 binary
digits, and below `2^-1022` the spacing stays `2^-1074`. -/
def ulpExponent (x : ℚ) : ℤ :=
  max (Int.log 2 |x|) (-1022) - 52

/-- The integer nearest to `x`, a tie going to the even neighbour. -/
def roundHalfEven (x : ℚ) : ℤ :=
  if x - ⌊x⌋ < 1 / 2 then ⌊x⌋
  else if 1 / 2 < x - ⌊x⌋ then ⌊x⌋ + 1
  else if ⌊x⌋ % 2 = 0 then ⌊x⌋
  else ⌊x⌋ + 1

/-- The double nearest to the exact number `x`, a tie going to the double with an even
last digit: the value of an arithmetic operation whose exact result is `x`, and of a
decimal literal `x` of the source. -/
def fl (x : ℚ) : ℚ :=
  roundHalfEven (x / 2 ^ ulpExponent x) * 2 ^ ulpExponent x

/-- The double `v` carries at most `k` roundings of the exact number `a`: it lies
between `a (1 - 2^-53)^k` and `a (1 + 2^-53)^k`. -/
def Within (k : ℕ) (a v : ℚ) : Prop :=
  a * (1 - 1 / 2 ^ 53) ^ k ≤ v ∧ v ≤ a * (1 + 1 / 2 ^ 53) ^ k

/-- The function `Math.round` applied to the double `x`: the nearest integer, a tie
going up.  The function rounds the value of its argument without a further error, so
the sum `x + 1 / 2` is exact. -/
def mathRound (x : ℚ) : ℤ :=
  ⌊x + 1 / 2⌋

/-- A JavaScript number: `none` is `NaN`. -/
abbrev JsNum := Option ℚ

/-- Values produced by `JSON.parse`. -/
inductive Json where
  | null : Json
  | bool (b : Bool) : Json
  | num (n : ℚ) : Json
  | str (s : String) : Json
  | arr (xs : List Json) : Json
  | obj (kvs : List (String × Json)) : Json

/-- Truthiness of a parsed value, as `||` and `if` test it. -/
def Json.truthy : Json → Bool
  | .null => false
  | .bool b => b
  | .num n => n != 0
  | .str s => s != ""
  | .arr _ => true
  | .obj _ => true

/-- Reading a property `payload.key`: a `TypeError` (`none`) on `null`, otherwise the
value or `undefined` (`some none`).  Only own data properties of parsed objects are
looked up, which is what the keys read by the poller can hit. -/
def Json.getProp (v : Json) (key : String) : Option (Option Json) :=
  match v with
  | .null => none
  | .obj kvs => some (kvs.lookup key)
  | _ => some none

/-- The value of `a || b` where `a` may be `undefined`. -/
def orElse (a : Option Json) (b : Json) : Json :=
  match a with
  | some v => if v.truthy then v else b
  | none => b

/-- The value of `a || b` on optional strings: a missing or empty string is falsy. -/
def strOr (a : Option String) (b : String) : String :=
  match a with
  | some s => if s = "" then b else s
  | none => b

/-- An optional string is falsy when it is missing or empty. -/
def strFalsy (a : Option String) : Bool :=
  match a with
  | some s => s = ""
  | none => true

/-- A thrown error: its `message` and, for an HTTP failure raised by the client
library, the status of the response (`error.response?.status`). -/
structure JsError where
  message : String
  responseStatus : Option Nat
deriving DecidableEq, Repr

/-- The length of a string as `s.length` counts it, in UTF-16 code units: a character
beyond U+FFFF counts twice. -/
def utf16Length (s : String) : ℕ :=
  (s.data.map fun c => if c.toNat < 0x10000 then 1 else 2).sum

/-- The characters of `s.substring(0, n)`: the characters that lie within the first `n`
UTF-16 code units.  When unit `n` is the first half of a character beyond U+FFFF the
engine keeps that half, which is not a character; it is left out here. -/
def takeUnits : ℕ → List Char → List Char
  | _, [] => []
  | n, c :: cs =>
    if (if c.toNat < 0x10000 then 1 else 2) ≤ n then
      c :: takeUnits (n - (if c.toNat < 0x10000 then 1 else 2)) cs
    else []

/-- The names of the members that every object literal inherits from
`Object.prototype`.  A lookup of one of them in a literal table finds a function (for
`__proto__` the prototype object itself): a truthy value that is not a number. -/
def inheritedNames : List String :=
  ["constructor", "__defineGetter__", "__defineSetter__", "hasOwnProperty",
   "__lookupGetter__", "__lookupSetter__", "isPrototypeOf", "propertyIsEnumerable",
   "toString", "valueOf", "__proto__", "toLocaleString"]

/-- What the lookup `table[key]` finds in an object literal whose entries are numbers:
an entry written in the literal, a member that every object inherits from
`Object.prototype`, or nothing (`undefined`). -/
inductive TableEntry (ν : Type) where
  | number (n : ν) : TableEntry ν
  | member : TableEntry ν
  | missing : TableEntry ν
deriving DecidableEq, Repr

/-- The rest of a run, as `CountAndMakeRun` of the engine counts it: the number of
further elements that continue the run ending with `previous`.  `lt a b` is the test
`comparefn(a, b) < 0`.  A descending run goes on while the current element is below
the previous one, an ascending run while it is not. -/
def runTail {α : Type} (lt : α → α → Bool) (descending : Bool) (previous : α) : List α → ℕ
  | [] => 0
  | current :: rest =>
    if descending then
      if lt current previous then 1 + runTail lt descending current rest else 0
    else
      if lt current previous then 0 else 1 + runTail lt descending current rest

/-- The binary search of `BinaryInsertionSort`: the place of `pivot` in the elements
before it, between `left` and `right`, in at most `fuel` halvings. -/
def searchPos {α : Type} (lt : α → α → Bool) (pivot : α) (sorted : List α) : ℕ → ℕ → ℕ → ℕ
  | 0, left, _ => left
  | fuel + 1, left, right =>
    if left < right then
      let mid := left + (right - left) / 2
      match sorted[mid]? with
      | some element =>
        if lt pivot element then searchPos lt pivot sorted fuel left mid
        else searchPos lt pivot sorted fuel (mid + 1) right
      | none => left
    else left

/-- The element `x` put at index `pos`, the later elements moved up by one. -/
def insertAt {α : Type} (pos : ℕ) (x : α) (l : List α) : List α :=
  l.take pos ++ x :: l.drop pos

/-- The loop of `BinaryInsertionSort`: each remaining element is put at the place the
binary search finds among the elements before it. -/
def insertRest {α : Type} (lt : α → α → Bool) : List α → List α → List α
  | sorted, [] => sorted
  | sorted, pivot :: rest =>
    insertRest lt
      (insertAt (searchPos lt pivot sorted sorted.length 0 sorted.length) pivot sorted) rest

/-- The call `array.sort(comparefn)` as the V8 engine of Node carries it out on an
array of fewer than 64 elements: the first run is counted and, when it is strictly
descending, reversed, and the other elements are put in by binary insertion.  For a
consistent comparator the result is the stable sorted arrangement, which the language
standard prescribes and which the engine also reaches on longer arrays, where it
merges several such runs. -/
def arraySort {α : Type} (lt : α → α → Bool) (l : List α) : List α :=
  match l with
  | [] => []
  | [x] => [x]
  | x0 :: x1 :: rest =>
    let descending := lt x1 x0
    let n := 2 + runTail lt descending x1 rest
    insertRest lt (if descending then (l.take n).reverse else l.take n) (l.drop n)

end JS

open JS

namespace Poller

/-- The `fields` of a Work Queue record that the poller reads. -/
structure TaskFields where
  task_id : String
  routing_payload : Option String
  priority : Option String
  system_target : Option String
  assigned_agent : Option String
deriving DecidableEq, Repr

/-- A Work Queue record as returned by the store. -/
structure TaskRecord where
  id : String
  fields : TaskFields
deriving DecidableEq, Repr

/-- The table `priorityOrder` of the sort comparator, as the lookup
`priorityOrder[a.fields.priority]` reads it: the four entries of the literal, and the
inherited members under their names. -/
def priorityOrder : Option String → TableEntry ℤ
  | some "P0" => .number 0
  | some "P1" => .number 1
  | some "P2" => .number 2
  | some "P3" => .number 3
  | some p => if p ∈ inheritedNames then .member else .missing
  | none => .missing

/-- The expression `priorityOrder[p] || 2`: a missing entry and the entry `0` are both
falsy and give `2`; an inherited member is truthy and stays, and it is not a number
(`none`). -/
def priorityOrDefault (p : Option String) : Option ℤ :=
  match priorityOrder p with
  | .number n => if n = 0 then some 2 else some n
  | .member => none
  | .missing => some 2

/-- The comparator handed to `newTasks.sort`: the difference `aPriority - bPriority`,
which is `NaN` (`none`) as soon as one side is not a number. -/
def comparePriority (a b : TaskRecord) : Option ℤ :=
  let aPriority := priorityOrDefault a.fields.priority
  let bPriority := priorityOrDefault b.fields.priority
  match aPriority, bPriority with
  | some x, some y => some (x - y)
  | _, _ => none

/-- The comparison that the sort makes with the comparator (`SortCompare`): the answer
of the comparator as a number, `NaN` counting as `+0`; the sort only asks whether it
is negative. -/
def sortLess (a b : TaskRecord) : Bool :=
  match comparePriority a b with
  | some v => decide (v < 0)
  | none => false

/-- The call `newTasks.sort(comparator)`, as the engine carries it out on an array of
fewer than 64 elements.  For a comparator that is the difference of a numeric key every
correct implementation of `Array.prototype.sort` returns the same arrangement, the
stable one by that key, whatever the length.  When the comparator answers `NaN` the
arrangement depends on the procedure; on 64 elements and more the engine also merges
runs, which is not part of this embedding. -/
def sortByPriority (newTasks : List TaskRecord) : List TaskRecord :=
  arraySort sortLess newTasks

/-- The rank of a priority as the specification orders them: `P0 < P1 < P2 < P3`, a
missing or unrecognised priority ranking as `P2`. -/
def specRank (p : Option String) : ℕ :=
  match p with
  | some "P0" => 0
  | some "P1" => 1
  | some "P2" => 2
  | some "P3" => 3
  | _ => 2

/-- A value written to a field of a stored record. -/
inductive FieldValue where
  | str (s : String) : FieldValue
  | num (n : JsNum) : FieldValue
deriving DecidableEq, Repr

/-- A JavaScript object with string keys, in insertion order. -/
abbrev Fields := List (String × FieldValue)

/-- The assignment `o[key] = value`: an existing key keeps its place and takes the new
value, a new key goes to the end. -/
def setField : Fields → String → FieldValue → Fields
  | [], key, value => [(key, value)]
  | (k, v) :: rest, key, value =>
    if k = key then (k, value) :: rest else (k, v) :: setField rest key value

/-- The read `o[key]`. -/
def getField (o : Fields) (key : String) : Option FieldValue :=
  o.lookup key

/-- The task descriptor handed to the executor. -/
structure TaskData where
  id : String
  goal : Json
  deliverables : Json
  priority : String
  constraints : Json
  system_target : String
  assigned_agent : String
  context : Json
  deadline : Json

/-- What the poller reads of the executor's answer: `result.confidence` and
`result.status`, each possibly missing. -/
structure ExecResult where
  confidence : Option ℚ
  status : Option String
deriving DecidableEq, Repr

/-- The record created in the Agents Ledger. -/
structure LogData where
  execution_id : String
  task_link : List String
  agent_used : String
  tokens_consumed : ℚ
  cost_usd : ℚ
  confidence_score : ℚ
  execution_time_seconds : ℚ
  output_summary : String
deriving DecidableEq, Repr

/-- One interaction of the poller with the outside world. -/
inductive Event where
  | clock (ms : ℤ) : Event
  | fetch (records : Option (List TaskRecord)) : Event
  | patch (recordId : String) (fields : Fields) (failure : Option JsError) : Event
  | exec (taskData : TaskData) (outcome : Except JsError ExecResult) : Event
  | post (logData : LogData) (failure : Option JsError) : Event
  | sleep (ms : ℕ) : Event

/-- The chronological history of interactions. -/
abbrev Trace := List Event

/-- The collaborators.  Each oracle receives the history so far and its request:
`now` is `Date.now()`, `patch` the store's answer to `axios.patch` (`none` is success),
`post` the ledger's answer to `axios.post`, `processIncomingTask` the executor,
`getRecords` the store's answer to the filtered read, `randomSuffix` the text
`Math.random().toString(36).substr(2, 9)`, `toISOString` the formatting of a time
stamp and `parse` the function `JSON.parse` (`none` when it throws). -/
structure Env where
  now : Trace → ℤ
  toISOString : ℤ → String
  randomSuffix : Trace → String
  patch : Trace → String → Fields → Option JsError
  post : Trace → LogData → Option JsError
  processIncomingTask : Trace → TaskData → Except JsError ExecResult
  getRecords : Trace → Except JsError (List TaskRecord)
  parse : String → Option Json

/-- The allow-list `safeFields` of `updateTaskStatus`. -/
def safeFields : List String :=
  ["system_target", "assigned_agent", "started_at", "completed_at", "routed_at",
    "cost_actual", "last_error"]

/-- The object `updateData` built by `updateTaskStatus`: the status, then every
additional entry whose key is in the allow-list. -/
def buildUpdateData (status : String) (additionalFields : Fields) : Fields :=
  additionalFields.foldl
    (fun updateData kv =>
      if kv.1 ∈ safeFields then setField updateData kv.1 kv.2 else updateData)
    [("status", FieldValue.str status)]

/-- The method `updateTaskStatus(recordId, status, additionalFields)` run after the
history `h`: its outcome (`ok` for a normal return, `error` for a raised error) and the
events it emits. -/
def updateTaskStatus (env : Env) (recordId status : String) (additionalFields : Fields)
    (h : Trace) : Except JsError Unit × Trace :=
  let updateData := buildUpdateData status additionalFields
  match env.patch h recordId updateData with
  | none => (.ok (), [Event.patch recordId updateData none])
  | some error =>
    let first := [Event.patch recordId updateData (some error)]
    if error.responseStatus = some 422 then
      let statusOnly : Fields := [("status", FieldValue.str status)]
      match env.patch (h ++ first) recordId statusOnly with
      | none => (.ok (), first ++ [Event.patch recordId statusOnly none])
      | some fallbackError =>
        (.error fallbackError, first ++ [Event.patch recordId statusOnly (some fallbackError)])
    else (.error error, first)

/-- The value of `x || d` on numbers: `undefined`, `NaN` and `0` are falsy. -/
def numOr (x : Option ℚ) (d : ℚ) : ℚ :=
  match x with
  | some v => if v = 0 then d else v
  | none => d

/-- The argument `executionData` of `logExecution`; a field the caller leaves out is
`none`. -/
structure ExecutionData where
  tokensUsed : Option ℚ
  cost : Option ℚ
  confidence : Option ℚ
  executionTime : Option ℚ
  summary : Option String
deriving DecidableEq, Repr

/-- The method `logExecution(taskRecordId, agentUsed, executionData)`: it reads the
clock for the execution id, posts one record and swallows a failure of the post, so
it always returns normally; the result is the list of emitted events. -/
def logExecution (env : Env) (taskRecordId agentUsed : String)
    (executionData : ExecutionData) (h : Trace) : Trace :=
  let t := env.now h
  let read := [Event.clock t]
  let executionId := "exec_" ++ toString t ++ "_" ++ env.randomSuffix (h ++ read)
  let logData : LogData :=
    { execution_id := executionId
      task_link := [taskRecordId]
      agent_used := agentUsed
      tokens_consumed := numOr executionData.tokensUsed 0
      cost_usd := numOr executionData.cost 0
      confidence_score := numOr executionData.confidence 0.8
      execution_time_seconds := numOr executionData.executionTime 0
      output_summary := strOr executionData.summary "Task processed by SuperChase" }
  read ++ [Event.post logData (env.post (h ++ read) logData)]

/-- The result of `analyzeTaskForAgent`. -/
structure Analysis where
  agent : String
  target : String
  confidence : ℚ
deriving DecidableEq, Repr

/-- The method `analyzeTaskForAgent(taskId, routingPayload)`. -/
def analyzeTaskForAgent (taskId routingPayload : String) : Analysis :=
  let content := toLowerCase (taskId ++ " " ++ routingPayload)
  if includes content "architect" || includes content "design" ||
      includes content "technical" || includes content "system" then
    { agent := "claude", target := "superchase", confidence := 0.9 }
  else if includes content "creative" || includes content "content" ||
      includes content "marketing" || includes content "copy" then
    { agent := "gpt4", target := "superchase", confidence := 0.8 }
  else if includes content "analysis" || includes content "data" ||
      includes content "report" || includes content "research" then
    { agent := "multi_agent", target := "superchase", confidence := 0.85 }
  else if includes content "invoice" || includes content "business" ||
      includes content "finance" then
    { agent := "copilot", target := "superchase", confidence := 0.7 }
  else
    { agent := "claude", target := "superchase", confidence := 0.6 }

/-- The table `baseCost` of `calculateCost`, each entry the double of its literal.  A
name outside the table reads `undefined`, and the name of an inherited member reads a
function that `+` turns into text; either way the amount is `NaN` (`none`). -/
def baseCost : String → JsNum
  | "claude" => some (fl 0.015)
  | "gpt4" => some (fl 0.03)
  | "copilot" => some (fl 0.008)
  | "multi_agent" => some (fl 0.05)
  | _ => none

/-- The method `calculateCost(agent, executionTimeSeconds, tokensUsed)`, every product,
sum and quotient rounded to a double as the engine does. -/
def calculateCost (agent : String) (executionTimeSeconds : ℚ) (tokensUsed : JsNum) : JsNum :=
  match baseCost agent, tokensUsed with
  | some base, some tokens =>
    let tokenCost := fl (tokens * fl 0.000002)
    let timeCost := fl (executionTimeSeconds * fl 0.001)
    some (fl ((mathRound (fl (fl (fl (base + tokenCost) + timeCost) * 100)) : ℚ) / 100))
  | _, _ => none

/-- The method `getDefaultDeliverables(agent)`. -/
def getDefaultDeliverables (agent : String) : List String :=
  match agent with
  | "claude" => ["architecture_doc", "implementation_plan"]
  | "gpt4" => ["content", "analysis"]
  | "copilot" => ["code", "documentation"]
  | "multi_agent" => ["comprehensive_report"]
  | _ => ["analysis"]

/-- The method `mapPriority(priority)` on the value read from the payload; only a
string can name an entry of the table. -/
def mapPriority (priority : Option Json) : String :=
  match priority with
  | some (Json.str "P0") => "critical"
  | some (Json.str "P1") => "high"
  | some (Json.str "P2") => "medium"
  | some (Json.str "P3") => "low"
  | _ => "medium"

/-- The expression `agentMultiplier[agent] || 1.2` of `estimateTokenUsage`: the entry
of a listed agent (each is truthy), `1.2` for a name that the lookup does not find, and
for the name of an inherited member that member, which is truthy and is not a number
(`none`). -/
def agentMultiplier (agent : String) : JsNum :=
  match agent with
  | "claude" => some (fl 1.5)
  | "gpt4" => some (fl 1.8)
  | "copilot" => some (fl 1.0)
  | "multi_agent" => some (fl 2.5)
  | other => if other ∈ inheritedNames then none else some (fl 1.2)

/-- The read `goal.length` as the product `goal.length * 4` takes it: the length of a
string or of an array; for an object the entry `length` of its own, where a number
counts as itself, `null` as `0` and a truth value as `0` or `1`; `NaN` (`none`) where
the read finds nothing, which is the case of a number, of a truth value and of an
object without such an entry.  An own entry `length` that is a string, an array or an
object is converted by the engine with rules that are not part of this embedding; it
reads as `NaN` here. -/
def jsLength : Json → JsNum
  | .str s => some (utf16Length s)
  | .arr xs => some xs.length
  | .obj kvs =>
    match kvs.lookup "length" with
    | some (.num n) => some n
    | some .null => some 0
    | some (.bool b) => some (if b then 1 else 0)
    | _ => none
  | _ => none

/-- The method `estimateTokenUsage(goal, agent)`; `NaN` when the length or the
multiplier is not a number. -/
def estimateTokenUsage (goal : Json) (agent : String) : JsNum :=
  match jsLength goal, agentMultiplier agent with
  | some len, some multiplier =>
    let baseTokens := fl (len * 4)
    some (mathRound (fl (baseTokens * multiplier)))
  | _, _ => none

/-- The object returned by `routeToSuperChase`; it has no `cost` field. -/
structure RouteResult where
  tokensUsed : JsNum
  confidence : ℚ
  executionTime : ℤ
  summary : String
  superChaseResult : ExecResult
deriving DecidableEq, Repr

/-- The first statements of `routeToSuperChase`: the goal and the task descriptor read
from the payload.  `none` is the `TypeError` raised by a property read on `null`. -/
def buildTaskData (taskId : String) (payload : Json) (systemTarget agent : String) :
    Option (Json × TaskData) := do
  let pGoal ← payload.getProp "goal"
  let pDescription ← payload.getProp "description"
  let pTask ← payload.getProp "task"
  let goal := orElse pGoal (orElse pDescription (orElse pTask (Json.str taskId)))
  let pDeliverables ← payload.getProp "deliverables"
  let pPriority ← payload.getProp "priority"
  let pConstraints ← payload.getProp "constraints"
  let pContext ← payload.getProp "context"
  let pDeadline ← payload.getProp "deadline"
  pure (goal,
    { id := taskId
      goal := goal
      deliverables :=
        orElse pDeliverables (Json.arr ((getDefaultDeliverables agent).map Json.str))
      priority := mapPriority pPriority
      constraints := orElse pConstraints (Json.arr [])
      system_target := systemTarget
      assigned_agent := agent
      context := orElse pContext (Json.str "")
      deadline := orElse pDeadline Json.null })

/-- The error raised when the payload is `null` and its first property is read. -/
def nullPayloadError : JsError :=
  { message := "Cannot read properties of null (reading 'goal')", responseStatus := none }

/-- The method `routeToSuperChase(taskId, payload, systemTarget, agent)`: its `catch`
logs and raises the same error again. -/
def routeToSuperChase (env : Env) (taskId : String) (payload : Json)
    (systemTarget agent : String) (h : Trace) : Except JsError RouteResult × Trace :=
  match buildTaskData taskId payload systemTarget agent with
  | none => (.error nullPayloadError, [])
  | some (goal, taskData) =>
    let processingStart := env.now h
    let e1 := [Event.clock processingStart]
    match env.processIncomingTask (h ++ e1) taskData with
    | .error error => (.error error, e1 ++ [Event.exec taskData (.error error)])
    | .ok result =>
      let e2 := e1 ++ [Event.exec taskData (.ok result)]
      let finished := env.now (h ++ e2)
      let e3 := e2 ++ [Event.clock finished]
      let processingTime := finished - processingStart
      let estimatedTokens := estimateTokenUsage goal agent
      (.ok
        { tokensUsed := estimatedTokens
          confidence := numOr result.confidence 0.8
          executionTime := mathRound (fl ((processingTime : ℚ) / 1000))
          summary := agent ++ " via " ++ systemTarget ++ ": " ++ strOr result.status "completed"
          superChaseResult := result }, e3)

/-- The auto-assignment at the head of `routeTask`: the pair
`(systemTarget, assignedAgent)` after the `if`. -/
def resolveAssignment (fields : TaskFields) : String × String :=
  let taskId := fields.task_id
  let routingPayload := strOr fields.routing_payload ""
  if strFalsy fields.system_target || strFalsy fields.assigned_agent then
    let analysis := analyzeTaskForAgent taskId routingPayload
    (strOr fields.system_target analysis.target, strOr fields.assigned_agent analysis.agent)
  else
    (fields.system_target.getD "", fields.assigned_agent.getD "")

/-- The statements `let payload = {}; if (routingPayload) { try { payload =
JSON.parse(routingPayload) } catch (e) { warn } }`. -/
def parsePayload (env : Env) (routingPayload : String) : Json :=
  if routingPayload ≠ "" then
    match env.parse routingPayload with
    | some v => v
    | none => Json.obj []
  else Json.obj []

/-- The `try` block of `routeTask`. -/
def routeTaskTry (env : Env) (taskRecord : TaskRecord) (systemTarget assignedAgent : String)
    (startTime : ℤ) (h : Trace) : Except JsError Unit × Trace :=
  let taskId := taskRecord.fields.task_id
  let routingPayload := strOr taskRecord.fields.routing_payload ""
  let startedAt := env.now h
  let e1 := [Event.clock startedAt]
  let routedAt := env.now (h ++ e1)
  let e2 := e1 ++ [Event.clock routedAt]
  match updateTaskStatus env taskRecord.id "in_progress"
      [("started_at", .str (env.toISOString startedAt)),
       ("routed_at", .str (env.toISOString routedAt)),
       ("system_target", .str systemTarget),
       ("assigned_agent", .str assignedAgent)] (h ++ e2) with
  | (.error error, w) => (.error error, e2 ++ w)
  | (.ok (), w) =>
    let e3 := e2 ++ w
    let payload := parsePayload env routingPayload
    match routeToSuperChase env taskId payload systemTarget assignedAgent (h ++ e3) with
    | (.error error, r) => (.error error, e3 ++ r)
    | (.ok result, r) =>
      let e4 := e3 ++ r
      let e5 := e4 ++ logExecution env taskRecord.id assignedAgent
        { tokensUsed := some (numOr result.tokensUsed 0)
          cost := some 0
          confidence := some (numOr (some result.confidence) 0.85)
          executionTime := some (numOr (some (result.executionTime : ℚ)) 30)
          summary := some (strOr (some result.summary)
            ("Task " ++ taskId ++ " completed via " ++ systemTarget)) } (h ++ e4)
      let finished := env.now (h ++ e5)
      let e6 := e5 ++ [Event.clock finished]
      let executionTime := mathRound (fl (((finished - startTime : ℤ) : ℚ) / 1000))
      let estimatedCost := calculateCost assignedAgent executionTime result.tokensUsed
      let completedAt := env.now (h ++ e6)
      let e7 := e6 ++ [Event.clock completedAt]
      match updateTaskStatus env taskRecord.id "done"
          [("completed_at", .str (env.toISOString completedAt)),
           ("cost_actual", .num estimatedCost)] (h ++ e7) with
      | (.error error, d) => (.error error, e7 ++ d)
      | (.ok (), d) => (.ok (), e7 ++ d)

/-- The `catch` block of `routeTask`, entered with the raised `error`. -/
def routeTaskCatch (env : Env) (taskRecord : TaskRecord) (assignedAgent : String)
    (startTime : ℤ) (error : JsError) (h : Trace) : Except JsError Unit × Trace :=
  let failed := env.now h
  let e1 := [Event.clock failed]
  let executionTime := mathRound (fl (((failed - startTime : ℤ) : ℚ) / 1000))
  let completedAt := env.now (h ++ e1)
  let e2 := e1 ++ [Event.clock completedAt]
  match updateTaskStatus env taskRecord.id "error"
      [("last_error", .str error.message),
       ("completed_at", .str (env.toISOString completedAt))] (h ++ e2) with
  | (.error raised, w) => (.error raised, e2 ++ w)
  | (.ok (), w) =>
    let e3 := e2 ++ w
    (.ok (), e3 ++ logExecution env taskRecord.id assignedAgent
      { tokensUsed := none
        cost := none
        confidence := none
        executionTime := some executionTime
        summary := some ("Error after " ++ toString executionTime ++ "s: " ++ error.message) }
      (h ++ e3))

/-- The method `routeTask(taskRecord)` run after the history `h`: its outcome and the
events it emits. -/
def routeTask (env : Env) (taskRecord : TaskRecord) (h : Trace) :
    Except JsError Unit × Trace :=
  let (systemTarget, assignedAgent) := resolveAssignment taskRecord.fields
  let startTime := env.now h
  let e0 := [Event.clock startTime]
  match routeTaskTry env taskRecord systemTarget assignedAgent startTime (h ++ e0) with
  | (.ok (), t) => (.ok (), e0 ++ t)
  | (.error error, t) =>
    match routeTaskCatch env taskRecord assignedAgent startTime error (h ++ e0 ++ t) with
    | (outcome, c) => (outcome, e0 ++ t ++ c)

/-- The method `getNewTasks()`: a failed read is logged and gives the empty list. -/
def getNewTasks (env : Env) (h : Trace) : List TaskRecord × Trace :=
  match env.getRecords h with
  | .ok records => (records, [Event.fetch (some records)])
  | .error _ => ([], [Event.fetch none])

/-- The loop `for (const task of newTasks) { await routeTask(task); await delay(1000) }`
of `startPolling`: an error raised by `routeTask` leaves the loop. -/
def processTasks (env : Env) : List TaskRecord → Trace → Except JsError Unit × Trace
  | [], _ => (.ok (), [])
  | task :: rest, h =>
    match routeTask env task h with
    | (.error error, t) => (.error error, t)
    | (.ok (), t) =>
      let e1 := t ++ [Event.sleep 1000]
      match processTasks env rest (h ++ e1) with
      | (outcome, r) => (outcome, e1 ++ r)

/-- One turn of the `while` loop of `startPolling`: fetch, sort, process; the `catch`
around the turn logs whatever was raised; then the poll-interval wait. -/
def pollCycle (env : Env) (pollInterval : ℕ) (h : Trace) : Trace :=
  let (newTasks, f) := getNewTasks env h
  let body :=
    if newTasks.length > 0 then
      f ++ (processTasks env (sortByPriority newTasks) (h ++ f)).2
    else f
  body ++ [Event.sleep pollInterval]

/-- The record ids of the status writes in a list of events, in order. -/
def patchedIds (t : Trace) : List String :=
  t.filterMap fun e =>
    match e with
    | .patch recordId _ _ => some recordId
    | _ => none

/-- The status writes in a list of events: the `status` of each payload and whether
the store accepted the write. -/
def statusWrites (t : Trace) : List (Option FieldValue × Bool) :=
  t.filterMap fun e =>
    match e with
    | .patch _ fields failure => some (getField fields "status", failure.isNone)
    | _ => none

/-- The statuses of the writes the store accepted, in order. -/
def acceptedStatuses (t : Trace) : List (Option FieldValue) :=
  (statusWrites t).filterMap fun w => if w.2 then some w.1 else none

/-- The task descriptors handed to the executor, in order. -/
def execCalls (t : Trace) : List TaskData :=
  t.filterMap fun e =>
    match e with
    | .exec taskData _ => some taskData
    | _ => none

/-- The partial update of the store: every written field replaces the stored one. -/
def mergeFields (stored written : Fields) : Fields :=
  written.foldl (fun o kv => setField o kv.1 kv.2) stored

/-- The fields of record `recordId` in the store after the events `t`, starting from
`stored`: the accepted writes to that record, applied in order. -/
def storedFields (recordId : String) (stored : Fields) (t : Trace) : Fields :=
  t.foldl
    (fun o e =>
      match e with
      | .patch r fields none => if r = recordId then mergeFields o fields else o
      | _ => o)
    stored

/-- A sequence of `updateTaskStatus` calls on one record, each run after the events of
the calls before it; the result is the list of all emitted events. -/
def runUpdates (env : Env) (recordId : String) : List (String × Fields) → Trace → Trace
  | [], _ => []
  | (status, additionalFields) :: rest, h =>
    let w := (updateTaskStatus env recordId status additionalFields h).2
    w ++ runUpdates env recordId rest (h ++ w)

/-- A store that accepts every write it receives; the other collaborators are inert. -/
def acceptingEnv : Env where
  now := fun _ => 0
  toISOString := fun _ => ""
  randomSuffix := fun _ => ""
  patch := fun _ _ _ => none
  post := fun _ _ => none
  processIncomingTask := fun _ _ => .ok { confidence := none, status := none }
  getRecords := fun _ => .ok []
  parse := fun _ => none

/-- The terminal statuses. -/
def isTerminal (status : Option FieldValue) : Bool :=
  status = some (.str "done") || status = some (.str "error")

end Poller

namespace Server

/-- The result of `analyzeTask`. -/
structure Routing where
  primaryAgent : String
  agents : List String
  confidence : ℚ
  reasoning : String
deriving DecidableEq, Repr

/-- The table `keywords` of `analyzeTask`, in declaration order. -/
def keywords : List (String × List String) :=
  [("claude", ["email", "draft", "calendar", "event", "meeting", "component", "ui",
      "design", "architecture"]),
   ("nova", ["research", "analyze", "compare", "investigate", "alternatives", "market"]),
   ("copilot", ["implement", "code", "refactor", "debug", "optimize", "deploy", "build"])]

/-- The object `scores`: for each agent the number of its keywords that the lower-cased
description includes. -/
def scores (description : String) : List (String × ℕ) :=
  keywords.map fun entry =>
    (entry.1, (entry.2.filter fun keyword => includes (toLowerCase description) keyword).length)

/-- The read `scores[agent]`. -/
def scoreOf (sc : List (String × ℕ)) (agent : String) : ℕ :=
  (sc.lookup agent).getD 0

/-- The expression `Object.keys(scores).reduce((a, b) => scores[a] > scores[b] ? a : b)`. -/
def pickPrimary (sc : List (String × ℕ)) : String :=
  match sc.map Prod.fst with
  | [] => ""
  | first :: rest => rest.foldl (fun a b => if scoreOf sc a > scoreOf sc b then a else b) first

/-- The condition of the override: one of the eight trigger tests is true. -/
def overrideFires (description : String) : Bool :=
  let lower := toLowerCase description
  let emailTask := includes lower "email"
  let messageTask := includes lower "message"
  let sendTask := includes lower "send"
  let contactTask := includes lower "contact"
  let calendarTask := includes lower "calendar"
  let followUpSpaced := includes lower "follow up"
  let followUpHyphen := includes lower "follow-up"
  let draftTask := includes lower "draft"
  emailTask || messageTask || sendTask || contactTask || calendarTask || followUpSpaced ||
    followUpHyphen || draftTask

/-- The method `analyzeTask(description)` of `src/server.js`. -/
def analyzeTask (description : String) : Routing :=
  let sc := scores description
  let primaryAgent := pickPrimary sc
  if overrideFires description then
    { primaryAgent := "claude"
      agents := ["claude"]
      confidence := 0.9
      reasoning := "Email/Calendar task routed to Claude for direct Gmail/Calendar integration" }
  else
    { primaryAgent := primaryAgent
      agents := [primaryAgent]
      confidence :=
        (((sc.map Prod.snd).foldl max 0 : ℕ) : ℚ) / ((splitSpace description).length : ℚ)
      reasoning :=
        "Primary trigger: " ++ primaryAgent ++ " (" ++ toString (scoreOf sc primaryAgent) ++
          " matching keywords)" }

end Server

namespace Poller

/-- A Work Queue record with the given id and priority and no other field set. -/
def mkTask (id : String) (priority : Option String) : TaskRecord :=
  { id := id
    fields :=
      { task_id := id
        routing_payload := none
        priority := priority
        system_target := none
        assigned_agent := none } }

/-- A fetched batch of seven records in which the fifth has the priority
`constructor`. -/
def inheritedNameBatch : List TaskRecord :=
  [mkTask "t0" (some "P1"), mkTask "t1" (some "P1"), mkTask "t2" (some "P2"),
   mkTask "t3" (some "P1"), mkTask "t4" (some "constructor"), mkTask "t5" (some "P1"),
   mkTask "t6" (some "P1")]

/-- A fetched batch of six records with priorities of the table, a priority outside
the table and missing priorities. -/
def mixedBatch : List TaskRecord :=
  [mkTask "t0" (some "P2"), mkTask "t1" (some "P1"), mkTask "t2" none,
   mkTask "t3" (some "P2"), mkTask "t4" (some "urgent"), mkTask "t5" none]

/-- A payload text in which the Kelvin sign U+212A stands where `marketing` has its
`k`. -/
def kelvinPayload : String :=
  "mar" ++ String.singleton (Char.ofNat 0x212A) ++ "eting plan"

/-- The specification's rounding: `r` is `x` rounded to two decimal places, a tie going
up: `r` is a whole number of hundredths and lies in `(x - 0.005, x + 0.005]`. -/
def IsRound2HalfUp (x r : ℚ) : Prop :=
  (∃ n : ℤ, r * 100 = n) ∧ x - 1 / 200 < r ∧ r ≤ x + 1 / 200

/-- The specification's cost formula: `result` is a defined amount, namely
`base + tokensUsed * 0.000002 + execSeconds * 0.001` rounded half-up to two decimal
places. -/
def CostSpec (base : ℚ) (execSeconds tokensUsed : ℕ) (result : JsNum) : Prop :=
  ∃ r : ℚ, result = some r ∧
    IsRound2HalfUp (base + tokensUsed * 0.000002 + execSeconds * 0.001) r

/-- The cost formula as the double arithmetic satisfies it: `result` is the double
nearest to `m / 100` for a whole number of cents `m`; `m` differs from the exact amount
`base + tokensUsed * 0.000002 + execSeconds * 0.001` in cents by at most one half and
the rounding error `2^-50` of the amount; and `m / 100` is the exact amount rounded
half-up to two decimal places whenever the exact amount in cents is farther than that
rounding error from every half cent. -/
def DoubleCostSpec (base : ℚ) (execSeconds tokensUsed : ℕ) (result : JsNum) : Prop :=
  ∃ m : ℤ, result = some (fl ((m : ℚ) / 100)) ∧
    |(m : ℚ) - (base + tokensUsed * 0.000002 + execSeconds * 0.001) * 100| ≤
      1 / 2 + (base + tokensUsed * 0.000002 + execSeconds * 0.001) * 100 / 2 ^ 50 ∧
    ((∀ j : ℤ, (base + tokensUsed * 0.000002 + execSeconds * 0.001) * 100 / 2 ^ 50 <
        |(base + tokensUsed * 0.000002 + execSeconds * 0.001) * 100 - (j + 1 / 2)|) →
      IsRound2HalfUp (base + tokensUsed * 0.000002 + execSeconds * 0.001) ((m : ℚ) / 100))

/-- The first write that `updateTaskStatus` issues, with the store's answer. -/
def firstWrite (env : Env) (recordId status : String) (additionalFields : Fields)
    (h : Trace) : Event :=
  Event.patch recordId (buildUpdateData status additionalFields)
    (env.patch h recordId (buildUpdateData status additionalFields))

/-- The status-only write that `updateTaskStatus` issues as its fallback, with the
store's answer. -/
def retryWrite (env : Env) (recordId status : String) (additionalFields : Fields)
    (h : Trace) : Event :=
  Event.patch recordId [("status", FieldValue.str status)]
    (env.patch (h ++ [firstWrite env recordId status additionalFields h]) recordId
      [("status", FieldValue.str status)])

/-- The outcome of a call of `updateTaskStatus` whose last write got the answer
`failure`: a normal return on success, the store's error otherwise. -/
def outcomeOf (failure : Option JsError) : Except JsError Unit :=
  match failure with
  | none => .ok ()
  | some error => .error error

/-- The status writes of one `updateTaskStatus` call that ends as `accepted` says:
failed attempts with status `s`, closed by one accepted write when `accepted`. -/
def Attempts (s : String) (accepted : Bool) (l : List (Option FieldValue × Bool)) : Prop :=
  ∃ n : ℕ, l = List.replicate n (some (FieldValue.str s), false) ++
    if accepted then [(some (FieldValue.str s), true)] else []

/-- A store that answers HTTP 500 to every write of status `in_progress` and accepts
every other write; the other collaborators are inert. -/
def rejectInProgressEnv : Env :=
  { acceptingEnv with
    patch := fun _ _ fields =>
      if getField fields "status" = some (FieldValue.str "in_progress") then
        some { message := "Request failed with status code 500", responseStatus := some 500 }
      else none }

/-- A store that answers HTTP 500 to every write and returns the batch
`[a, b]` to the filtered read; the other collaborators are inert. -/
def rejectAllEnv : Env :=
  { acceptingEnv with
    patch := fun _ _ _ =>
      some { message := "Request failed with status code 500", responseStatus := some 500 }
    getRecords := fun _ => .ok [mkTask "a" none, mkTask "b" none] }

/-- The task descriptor that `routeTask` builds for a record, when building it does not
raise. -/
def descriptorOf (env : Env) (taskRecord : TaskRecord) : Option TaskData :=
  (buildTaskData taskRecord.fields.task_id
    (parsePayload env (strOr taskRecord.fields.routing_payload ""))
    (resolveAssignment taskRecord.fields).1 (resolveAssignment taskRecord.fields).2).map Prod.snd

/-- A queued record whose routing payload is the text `not json`. -/
def badPayloadTask : TaskRecord :=
  { id := "rec1"
    fields :=
      { task_id := "TASK-1"
        routing_payload := some "not json"
        priority := none
        system_target := none
        assigned_agent := none } }

end Poller

namespace Coordinator

/-- The result of `analyzeTask` of `src/coordinator.js`. -/
structure Routing where
  primaryAgent : String
  agents : List String
  confidence : ℚ
  reasoning : String
deriving DecidableEq, Repr

/-- The table `keywords` of `analyzeTask` of `src/coordinator.js`, in declaration
order. -/
def keywords : List (String × List String) :=
  [("claude", ["component", "ui", "design", "architecture", "artifact", "preview",
      "wireframe", "mockup", "system"]),
   ("nova", ["research", "analyze", "compare", "investigate", "alternatives", "benchmark",
      "validate", "market"]),
   ("copilot", ["implement", "code", "refactor", "debug", "optimize", "deploy", "build",
      "fix"])]

/-- The object `scores` of `src/coordinator.js`: for each agent the number of its
keywords that the lower-cased description includes. -/
def scores (description : String) : List (String × ℕ) :=
  keywords.map fun entry =>
    (entry.1, (entry.2.filter fun keyword => includes (toLowerCase description) keyword).length)

/-- The workflow list `agents`: the primary agent, with `nova` put in front when the
description itself includes `research` and `copilot` put at the end when it includes
`implement`, each only if not yet in the list. -/
def workflow (description primaryAgent : String) : List String :=
  let agents := [primaryAgent]
  let agents :=
    if includes description "research" && !agents.contains "nova" then "nova" :: agents
    else agents
  if includes description "implement" && !agents.contains "copilot" then agents ++ ["copilot"]
  else agents

/-- The method `analyzeTask(description)` of `src/coordinator.js`; the primary agent is
picked by the same `reduce` expression as in `src/server.js`. -/
def analyzeTask (description : String) : Routing :=
  let sc := scores description
  let primaryAgent := Server.pickPrimary sc
  let agents := workflow description primaryAgent
  { primaryAgent := primaryAgent
    agents := agents
    confidence :=
      (((sc.map Prod.snd).foldl max 0 : ℕ) : ℚ) / ((splitSpace description).length : ℚ)
    reasoning :=
      "Primary trigger: " ++ primaryAgent ++ ", Workflow: " ++ String.intercalate " → " agents }

end Coordinator

namespace Poller

/-- The payloads of the status writes in a list of events, in order. -/
def patchPayloads (t : Trace) : List Fields :=
  t.filterMap fun e =>
    match e with
    | .patch _ fields _ => some fields
    | _ => none

/-- The execution records handed to the ledger store in a list of events, in order. -/
def ledgerPosts (t : Trace) : List LogData :=
  t.filterMap fun e =>
    match e with
    | .post logData _ => some logData
    | _ => none

/-- The text that `analyzeTaskForAgent` tests for a record: the lower-cased
`task_id`, a blank and the routing payload. -/
def assignmentText (fields : TaskFields) : String :=
  toLowerCase (fields.task_id ++ " " ++ strOr fields.routing_payload "")

/-- One of the terms occurs in the text. -/
def mentionsAny (content : String) (terms : List String) : Bool :=
  terms.any fun term => includes content term

/-- The keywords of the first category of `analyzeTaskForAgent`, which gives claude. -/
def claudeTerms : List String :=
  ["architect", "design", "technical", "system"]

/-- The keywords of the second category of `analyzeTaskForAgent`, which gives gpt4. -/
def gpt4Terms : List String :=
  ["creative", "content", "marketing", "copy"]

/-- The keywords of the third category of `analyzeTaskForAgent`, which gives
multi_agent. -/
def multiAgentTerms : List String :=
  ["analysis", "data", "report", "research"]

/-- The keywords of the fourth category of `analyzeTaskForAgent`, which gives copilot. -/
def copilotTerms : List String :=
  ["invoice", "business", "finance"]

/-- The keywords of the categories of `analyzeTaskForAgent` that give gpt4, multi_agent
and copilot. -/
def otherTerms : List String :=
  gpt4Terms ++ multiAgentTerms ++ copilotTerms

end Poller

namespace Server

/-- The eight terms that the override of `analyzeTask` tests. -/
def triggerTerms : List String :=
  ["email", "message", "send", "contact", "calendar", "follow up", "follow-up", "draft"]

/-- The result that the override of `analyzeTask` returns. -/
def forcedRouting : Routing :=
  { primaryAgent := "claude"
    agents := ["claude"]
    confidence := 0.9
    reasoning := "Email/Calendar task routed to Claude for direct Gmail/Calendar integration" }

/-- The agents in the order in which `keywords` declares them. -/
def agentOrder : List String :=
  ["claude", "nova", "copilot"]

/-- The score of one agent: the number of its keywords that the lower-cased description
includes. -/
def keywordScore (description : String) (terms : List String) : ℕ :=
  (terms.filter fun keyword => includes (toLowerCase description) keyword).length

/-- The own keywords of an agent in `src/server.js`, written out agent by agent for the
comparison with the classifier; any other name has none. -/
def specKeywords (agent : String) : List String :=
  match agent with
  | "claude" => ["email", "draft", "calendar", "event", "meeting", "component", "ui", "design",
      "architecture"]
  | "nova" => ["research", "analyze", "compare", "investigate", "alternatives", "market"]
  | "copilot" => ["implement", "code", "refactor", "debug", "optimize", "deploy", "build"]
  | _ => []

/-- The keyword score of an agent as the specification counts it: the number of the
agent's own keywords that occur as substrings of the lower-cased description. -/
def specScore (description agent : String) : ℕ :=
  keywordScore description (specKeywords agent)

end Server

namespace Coordinator

/-- The own keywords of an agent in `src/coordinator.js`, written out agent by agent
for the comparison with the classifier; any other name has none. -/
def specKeywords (agent : String) : List String :=
  match agent with
  | "claude" => ["component", "ui", "design", "architecture", "artifact", "preview",
      "wireframe", "mockup", "system"]
  | "nova" => ["research", "analyze", "compare", "investigate", "alternatives", "benchmark",
      "validate", "market"]
  | "copilot" => ["implement", "code", "refactor", "debug", "optimize", "deploy", "build",
      "fix"]
  | _ => []

/-- The keyword score of an agent of `src/coordinator.js` as the specification counts
it. -/
def specScore (description agent : String) : ℕ :=
  Server.keywordScore description (specKeywords agent)

end Coordinator

namespace Poller

/-- The execution records that the ledger store accepted in a list of events, in
order. -/
def ledgerAppends (t : Trace) : List LogData :=
  t.filterMap fun e =>
    match e with
    | .post logData none => some logData
    | _ => none

/-- A queued record of priority `P0` without routing payload and without assignment. -/
def urgentTask : TaskRecord :=
  mkTask "TASK-7" (some "P0")

/-- A store that answers HTTP 500 to every write of status `done` and accepts every
other write; the executor succeeds and the ledger accepts every record. -/
def rejectDoneEnv : Env :=
  { acceptingEnv with
    patch := fun _ _ fields =>
      if getField fields "status" = some (FieldValue.str "done") then
        some { message := "Request failed with status code 500", responseStatus := some 500 }
      else none }

/-- An executor that fails with the message `agent offline`; store and ledger accept
every write. -/
def failingExecutorEnv : Env :=
  { acceptingEnv with
    processIncomingTask := fun _ _ =>
      .error { message := "agent offline", responseStatus := none } }

end Poller

namespace Poller

/-- The additional fields of the `in_progress` update of `routeTask`. -/
def inProgressFields (startedAt routedAt systemTarget assignedAgent : String) : Fields :=
  [("started_at", .str startedAt), ("routed_at", .str routedAt),
   ("system_target", .str systemTarget), ("assigned_agent", .str assignedAgent)]

/-- The additional fields of the `done` update of `routeTask`. -/
def doneFields (completedAt : String) (estimatedCost : JsNum) : Fields :=
  [("completed_at", .str completedAt), ("cost_actual", .num estimatedCost)]

/-- The additional fields of the `error` update in the `catch` block of `routeTask`. -/
def errorFields (message completedAt : String) : Fields :=
  [("last_error", .str message), ("completed_at", .str completedAt)]

/-- The execution data that the `try` block of `routeTask` hands to `logExecution`. -/
def successData (taskId systemTarget : String) (result : RouteResult) : ExecutionData :=
  { tokensUsed := some (numOr result.tokensUsed 0)
    cost := some 0
    confidence := some (numOr (some result.confidence) 0.85)
    executionTime := some (numOr (some (result.executionTime : ℚ)) 30)
    summary := some (strOr (some result.summary)
      ("Task " ++ taskId ++ " completed via " ++ systemTarget)) }

/-- The execution data that the `catch` block of `routeTask` hands to `logExecution`. -/
def failureData (executionTime : ℤ) (message : String) : ExecutionData :=
  { tokensUsed := none
    cost := none
    confidence := none
    executionTime := some executionTime
    summary := some ("Error after " ++ toString executionTime ++ "s: " ++ message) }

/-- The elapsed whole seconds `Math.round((Date.now() - startTime) / 1000)`; the clock
counts whole milliseconds. -/
def elapsedSeconds (startTime now : ℤ) : ℤ :=
  mathRound (fl (((now - startTime : ℤ) : ℚ) / 1000))

/-- Some executor call in the events returned normally. -/
def execSucceeded (t : Trace) : Bool :=
  t.any fun e =>
    match e with
    | .exec _ (.ok _) => true
    | _ => false

/-- The errors with which the store rejected status writes in a list of events, in
order. -/
def rejections (t : Trace) : List JsError :=
  t.filterMap fun e =>
    match e with
    | .patch _ _ (some error) => some error
    | _ => none

/-- A ledger that answers HTTP 500 to every create; store and executor succeed. -/
def failingLedgerEnv : Env :=
  { acceptingEnv with
    post := fun _ _ =>
      some { message := "Request failed with status code 500", responseStatus := some 500 } }

end Poller

namespace Poller

/-- A parser that reads the text `null` as the value `null` and rejects every other
text; store, executor and ledger succeed. -/
def nullParsingEnv : Env :=
  { acceptingEnv with
    parse := fun text => if text = "null" then some Json.null else none }

/-- A queued record whose routing payload is the text `null`. -/
def nullPayloadTask : TaskRecord :=
  { id := "rec2"
    fields :=
      { task_id := "TASK-2"
        routing_payload := some "null"
        priority := none
        system_target := none
        assigned_agent := none } }

end Poller

namespace Poller

/-- Exactly one status write was rejected, and it was rejected with HTTP status 422. -/
def RejectedOnce (l : List JsError) : Prop :=
  ∃ e, l = [e] ∧ e.responseStatus = some 422

/-- A store whose table has no field `cost_actual`: it answers 422 to every write that
carries this field and accepts every other write; executor and ledger succeed. -/
def unknownCostFieldEnv : Env :=
  { acceptingEnv with
    patch := fun _ _ fields =>
      if (getField fields "cost_actual").isSome then
        some { message := "Request failed with status code 422", responseStatus := some 422 }
      else none }

/-- A store whose table has no field `routed_at`: it answers 422 to every write that
carries this field and accepts every other write; executor and ledger succeed. -/
def unknownRoutedFieldEnv : Env :=
  { acceptingEnv with
    patch := fun _ _ fields =>
      if (getField fields "routed_at").isSome then
        some { message := "Request failed with status code 422", responseStatus := some 422 }
      else none }

end Poller

namespace Poller

/-- The four agents of the table `baseCost`. -/
def knownAgents : List String :=
  ["claude", "gpt4", "copilot", "multi_agent"]

/-- A parser that reads the payload text with the single entry `goal: 42` as that
object and rejects every other text; store, executor and ledger succeed. -/
def numericGoalEnv : Env :=
  { acceptingEnv with
    parse := fun text =>
      if text = "\x7b\"goal\": 42\x7d" then some (Json.obj [("goal", Json.num 42)])
      else none }

/-- A queued record without assignment whose routing payload is the object with the
single entry `goal: 42`. -/
def numericGoalTask : TaskRecord :=
  { id := "rec3"
    fields :=
      { task_id := "TASK-3"
        routing_payload := some "\x7b\"goal\": 42\x7d"
        priority := none
        system_target := none
        assigned_agent := none } }

/-- A queued record assigned to copilot whose routing payload is the object with the
single entry `goal: 42`. -/
def assignedNumericGoalTask : TaskRecord :=
  { id := "rec4"
    fields :=
      { task_id := "TASK-4"
        routing_payload := some "\x7b\"goal\": 42\x7d"
        priority := none
        system_target := some "superchase"
        assigned_agent := some "copilot" } }

end Poller

namespace Poller

/-- The score of a category as the specification counts it: the number of its
keywords that occur in the text. -/
def specCategoryScore (content : String) (terms : List String) : ℕ :=
  (terms.filter fun term => includes content term).length

/-- The keyword categories of `analyzeTaskForAgent` with the agent each one gives, in
the order in which the method tests them. -/
def categories : List (String × List String) :=
  [("claude", claudeTerms), ("gpt4", gpt4Terms), ("multi_agent", multiAgentTerms),
    ("copilot", copilotTerms)]

end Poller

namespace Poller

/-- The data fields of a `CentralCommandPoller` object.  Its sixth field,
`coordinator`, is the executor `processIncomingTask` of the environment: no method
assigns it after the constructor. -/
structure PollerState where
  airtableToken : String
  baseId : String
  baseUrl : String
  isPolling : Bool
  pollInterval : ℕ
deriving DecidableEq, Repr

/-- The constructor: `pollInterval` is `config.pollInterval || 30000`. -/
def mkPoller (airtableToken baseId : String) (pollInterval : Option ℕ) : PollerState :=
  { airtableToken := airtableToken
    baseId := baseId
    baseUrl := "https://api.airtable.com/v0/" ++ baseId
    isPolling := false
    pollInterval :=
      match pollInterval with
      | some n => if n = 0 then 30000 else n
      | none => 30000 }

/-- The method `stopPolling()`: it assigns `false` to `isPolling`. -/
def stopPolling (s : PollerState) : PollerState :=
  { s with isPolling := false }

/-- The callers of `stopPolling` are outside the poller and can run only while the
poller is suspended: `stop h` tells whether `stopPolling()` is called while the poller
waits for the interaction that completes the history `h`.  The value is whether such a
call is made during the events `t` that follow the history `h`. -/
def stoppedDuring (stop : Trace → Bool) (h : Trace) : Trace → Bool
  | [] => false
  | e :: t => stop (h ++ [e]) || stoppedDuring stop (h ++ [e]) t

/-- The state of the poller after the events `t` that follow the history `h`: only an
outside call of `stopPolling` changes it. -/
def afterEvents (stop : Trace → Bool) (h t : Trace) (s : PollerState) : PollerState :=
  if stoppedDuring stop h t then stopPolling s else s

/-- The loop `while (this.isPolling) { ... }` of `startPolling`, unrolled at most `fuel`
times: the flag is read at the head of each turn and nowhere else, a turn is
`pollCycle`.  The result is the state and the events at the exit of the loop, `none`
when the loop has not ended after `fuel` readings of the flag. -/
def pollLoop (env : Env) (stop : Trace → Bool) : ℕ → PollerState → Trace →
    Option (PollerState × Trace)
  | 0, _, _ => none
  | fuel + 1, s, h =>
    if s.isPolling then
      let c := pollCycle env s.pollInterval h
      match pollLoop env stop fuel (afterEvents stop h c s) (h ++ c) with
      | some (s1, t) => some (s1, c ++ t)
      | none => none
    else some (s, [])

/-- The method `startPolling()`: a call on a running poller returns at once; otherwise
the flag is set and the loop runs. -/
def startPolling (env : Env) (stop : Trace → Bool) (fuel : ℕ) (s : PollerState)
    (h : Trace) : Option (PollerState × Trace) :=
  if s.isPolling then some (s, [])
  else pollLoop env stop fuel { s with isPolling := true } h

/-- A store that returns the batch `[a, b]` to the filtered read; store, executor and
ledger succeed. -/
def twoTaskEnv : Env :=
  { acceptingEnv with
    getRecords := fun _ => .ok [mkTask "a" none, mkTask "b" none] }

/-- An outside caller that calls `stopPolling()` while the first item is in flight:
after the first status write of the run and before the second. -/
def stopDuringFirstItem (h : Trace) : Bool :=
  (patchedIds h).length = 1

/-- A poller that has not been started. -/
def idlePoller : PollerState :=
  mkPoller "token" "base" none

/-- No outside caller ever calls `stopPolling()`. -/
def neverStop (_ : Trace) : Bool :=
  false

end Poller

namespace Tts

/-- The UTF-8 bytes of one character, as `Buffer.from(text)` writes them. -/
def utf8Encode (c : Char) : List ℕ :=
  let n := c.toNat
  if n < 0x80 then [n]
  else if n < 0x800 then [0xC0 + n / 64, 0x80 + n % 64]
  else if n < 0x10000 then [0xE0 + n / 4096, 0x80 + n / 64 % 64, 0x80 + n % 64]
  else [0xF0 + n / 262144, 0x80 + n / 4096 % 64, 0x80 + n / 64 % 64, 0x80 + n % 64]

/-- The bytes of `Buffer.from(text)` on the characters of the text. -/
def bufferFromChars : List Char → List ℕ
  | [] => []
  | c :: cs => utf8Encode c ++ bufferFromChars cs

/-- The call `Buffer.from(text)`. -/
def bufferFrom (text : String) : List ℕ :=
  bufferFromChars text.data

/-- The base64 alphabet. -/
def base64Alphabet : List Char :=
  "ABCDEFGHIJKLMNOPQRSTUVWXYZabcdefghijklmnopqrstuvwxyz0123456789+/".data

/-- The base64 digit of a six-bit value. -/
def base64Digit (i : ℕ) : Char :=
  base64Alphabet.getD i 'A'

/-- The call `buffer.toString('base64')`: three bytes give four digits, a last group of
one or two bytes is padded with `=`. -/
def base64 : List ℕ → List Char
  | [] => []
  | [a] => [base64Digit (a / 4), base64Digit (a % 4 * 16), '=', '=']
  | [a, b] => [base64Digit (a / 4), base64Digit (a % 4 * 16 + b / 16),
      base64Digit (b % 16 * 4), '=']
  | a :: b :: c :: rest =>
    base64Digit (a / 4) :: base64Digit (a % 4 * 16 + b / 16) ::
      base64Digit (b % 16 * 4 + c / 64) :: base64Digit (c % 64) :: base64 rest

/-- The characters that `.replace(/[/+=]/g, '')` keeps. -/
def keptInHash (c : Char) : Bool :=
  c != '/' && c != '+' && c != '='

/-- The value `textHash`: the base64 text of the bytes with `/`, `+` and `=` removed. -/
def textHash (text : String) : List Char :=
  (base64 (bufferFrom text)).filter keptInHash

/-- The name of the cache file: the voice type, an underscore, the first 20 characters
of `textHash` and the extension. -/
def cacheFileName (voiceType text : String) : String :=
  voiceType ++ "_" ++ String.mk ((textHash text).take 20) ++ ".mp3"

/-- The path `path.join(CACHE_DIR, name)` for a name without separators. -/
def cacheFile (cacheDir voiceType text : String) : String :=
  cacheDir ++ "/" ++ cacheFileName voiceType text

/-- The values of the table `VOICE_MAP`, read from the process environment; a variable
that is not set is `none`. -/
structure VoiceConfig where
  producer : Option String
  engineer : Option String
  concierge : Option String
  archivist : Option String
  host : Option String
deriving DecidableEq, Repr

/-- The read `VOICE_MAP[key]`. -/
def voiceMap (voices : VoiceConfig) (key : String) : Option String :=
  match key with
  | "producer" => voices.producer
  | "engineer" => voices.engineer
  | "concierge" => voices.concierge
  | "archivist" => voices.archivist
  | "host" => voices.host
  | _ => none

/-- The argument `options` of `getVoiceClip`; a field that the caller leaves out is
`none`. -/
structure Options where
  model : Option String
  stability : Option ℚ
  similarity_boost : Option ℚ
  style : Option ℚ
  use_speaker_boost : Option Bool
deriving DecidableEq, Repr

/-- The surroundings of `getVoiceClip`: the voice table, the cache directory and the
speech service, which answers a request for a voice id, a text and options with the
audio bytes or with the message of the error that the request raises. -/
structure TtsEnv where
  voices : VoiceConfig
  cacheDir : String
  speech : String → String → Options → Except String (List ℕ)

/-- The files of the cache directory: paths with their bytes, the newest first. -/
abbrev Files := List (String × List ℕ)

/-- The test `fs.existsSync(path)`. -/
def existsSync (files : Files) (path : String) : Bool :=
  (files.lookup path).isSome

/-- The call `fs.writeFileSync(path, bytes)`. -/
def writeFileSync (files : Files) (path : String) (bytes : List ℕ) : Files :=
  (path, bytes) :: files

/-- The object returned by `getVoiceClip`; `sizeKB` is present for a fresh clip only. -/
structure Clip where
  url : String
  cached : Bool
  voiceType : String
  text : String
  sizeKB : Option ℤ
deriving DecidableEq, Repr

/-- The expression `text.substring(0, 50) + (text.length > 50 ? '...' : '')`. -/
def preview (text : String) : String :=
  String.mk (takeUnits 50 text.data) ++ (if utf16Length text > 50 then "..." else "")

/-- The function `getVoiceClip(voiceType, text, options)` run on the files `files`: the
clip or the message of the raised error, and the files afterwards.  Writing the cache
file is taken to succeed. -/
def getVoiceClip (env : TtsEnv) (voiceType text : String) (options : Options)
    (files : Files) : Except String Clip × Files :=
  match voiceMap env.voices (toLowerCase voiceType) with
  | none =>
    (.error ("TTS generation failed: " ++ "Voice type '" ++ voiceType ++
      "' not found. Available: producer, engineer, concierge, archivist, host"), files)
  | some voiceId =>
    if voiceId = "" then
      (.error ("TTS generation failed: " ++ "Voice type '" ++ voiceType ++
        "' not found. Available: producer, engineer, concierge, archivist, host"), files)
    else
      let path := cacheFile env.cacheDir voiceType text
      if existsSync files path then
        (.ok { url := "file://" ++ path, cached := true, voiceType := voiceType,
               text := preview text, sizeKB := none }, files)
      else
        match env.speech voiceId text options with
        | .error message => (.error ("TTS generation failed: " ++ message), files)
        | .ok audioBuffer =>
          (.ok { url := "file://" ++ path, cached := false, voiceType := voiceType,
                 text := preview text,
                 sizeKB := some (mathRound ((audioBuffer.length : ℚ) / 1024)) },
            writeFileSync files path audioBuffer)

/-- An ASCII letter. -/
def isAsciiLetter (c : Char) : Bool :=
  (65 ≤ c.toNat && c.toNat ≤ 90) || (97 ≤ c.toNat && c.toNat ≤ 122)

/-- A speech service that answers every request with the bytes of the requested text;
the producer voice is configured. -/
def echoEnv : TtsEnv :=
  { voices :=
      { producer := some "voice-1", engineer := none, concierge := none, archivist := none,
        host := none }
    cacheDir := "audio-cache"
    speech := fun _ text _ => .ok (bufferFrom text) }

/-- The options of a call that passes none. -/
def noOptions : Options :=
  { model := none, stability := none, similarity_boost := none, style := none,
    use_speaker_boost := none }

end Tts

/-! ## Properties -/

namespace JS

/-! ### Rounding to the nearest double -/

theorem abs_roundHalfEven_sub_le (x : ℚ) : |(roundHalfEven x : ℚ) - x| ≤ 1 / 2 := by
  have h1 := Int.floor_le x
  have h2 := Int.lt_floor_add_one x
  unfold roundHalfEven
  split_ifs with ha hb hc
  · rw [abs_le]; constructor <;> linarith
  · rw [abs_le]; push_cast; constructor <;> linarith
  · rw [abs_le]; constructor <;> linarith
  · rw [abs_le]; push_cast; constructor <;> linarith

theorem roundHalfEven_eq_of_abs_lt (x : ℚ) (m : ℤ) (h : |x - m| < 1 / 2) :
    roundHalfEven x = m := by
  rw [abs_lt] at h
  obtain ⟨hlo, hhi⟩ := h
  by_cases hx : (m : ℚ) ≤ x
  · have hf : ⌊x⌋ = m := by
      rw [Int.floor_eq_iff]
      constructor <;> linarith
    unfold roundHalfEven
    rw [hf, if_pos (by linarith)]
  · have hf : ⌊x⌋ = m - 1 := by
      rw [Int.floor_eq_iff]
      push_cast
      constructor <;> linarith
    unfold roundHalfEven
    rw [hf, if_neg (by push_cast; linarith), if_pos (by push_cast; linarith)]
    ring

theorem roundHalfEven_intCast (m : ℤ) : roundHalfEven (m : ℚ) = m :=
  roundHalfEven_eq_of_abs_lt _ m (by norm_num)

theorem fl_zero : fl 0 = 0 := by
  unfold fl
  rw [zero_div]
  have : roundHalfEven 0 = 0 := by exact_mod_cast roundHalfEven_intCast 0
  rw [this]
  simp

/-- The exponent of the spacing at a number of a known size. -/
theorem ulpExponent_of_bounds (x : ℚ) (k : ℤ) (hk : -1074 ≤ k)
    (hlo : (2 : ℚ) ^ (k + 52) ≤ |x|) (hhi : |x| < (2 : ℚ) ^ (k + 53)) :
    ulpExponent x = k := by
  have hpos : 0 < |x| := lt_of_lt_of_le (by positivity) hlo
  have hlog : Int.log 2 |x| = k + 52 := by
    apply le_antisymm
    · have := (Int.lt_zpow_iff_log_lt (b := 2) (by norm_num) hpos (x := k + 53)).1
        (by exact_mod_cast hhi)
      omega
    · exact (Int.zpow_le_iff_le_log (b := 2) (by norm_num) hpos).1 (by exact_mod_cast hlo)
  unfold ulpExponent
  rw [hlog, max_eq_left (by omega)]
  ring

/-- Evaluation of `fl`: a number in the binade of spacing `2^k` that lies nearer than
half a spacing to the multiple `m * 2^k` rounds to that multiple. -/
theorem fl_eq_of_near (x : ℚ) (k m : ℤ) (hk : -1074 ≤ k)
    (hlo : (2 : ℚ) ^ (k + 52) ≤ |x|) (hhi : |x| < (2 : ℚ) ^ (k + 53))
    (hnear : |x - m * (2 : ℚ) ^ k| < (2 : ℚ) ^ k / 2) :
    fl x = m * (2 : ℚ) ^ k := by
  unfold fl
  rw [ulpExponent_of_bounds x k hk hlo hhi]
  have hq : (0 : ℚ) < 2 ^ k := by positivity
  have : roundHalfEven (x / 2 ^ k) = m := by
    apply roundHalfEven_eq_of_abs_lt
    have h : x / 2 ^ k - m = (x - m * 2 ^ k) / 2 ^ k := by
      field_simp
      ring
    rw [h, abs_div, abs_of_pos hq, div_lt_iff₀ hq]
    linarith
  rw [this]

/-- A multiple `m * 2^k` with fewer than 54 binary digits in `m` is a double. -/
theorem fl_intCast_mul_zpow (m k : ℤ) (hk : -1074 ≤ k) (hm : |m| < 2 ^ 53) :
    fl (m * (2 : ℚ) ^ k) = m * (2 : ℚ) ^ k := by
  by_cases hm0 : m = 0
  · subst hm0
    simp [fl_zero]
  have hq : (0 : ℚ) < 2 ^ k := by positivity
  have habs : |(m : ℚ) * 2 ^ k| = |(m : ℚ)| * 2 ^ k := by
    rw [abs_mul, abs_of_pos hq]
  have hpos : 0 < |(m : ℚ) * 2 ^ k| := by
    rw [habs]
    have : (0 : ℚ) < |(m : ℚ)| := abs_pos.2 (by exact_mod_cast hm0)
    positivity
  have hlog : Int.log 2 |(m : ℚ) * 2 ^ k| < k + 53 := by
    apply (Int.lt_zpow_iff_log_lt (b := 2) (by norm_num) hpos).1
    rw [habs]
    have h53 : |(m : ℚ)| < 2 ^ (53 : ℕ) := by exact_mod_cast hm
    have : (2 : ℚ) ^ (k + 53) = 2 ^ (53 : ℕ) * 2 ^ k := by
      rw [zpow_add₀ (by norm_num : (2 : ℚ) ≠ 0), mul_comm]
      norm_cast
    push_cast
    rw [this]
    exact mul_lt_mul_of_pos_right h53 hq
  have hu : ulpExponent ((m : ℚ) * 2 ^ k) ≤ k := by
    unfold ulpExponent
    rcases max_cases (Int.log 2 |(m : ℚ) * 2 ^ k|) (-1022) with ⟨h, -⟩ | ⟨h, -⟩ <;>
      rw [h] <;> omega
  obtain ⟨d, hd⟩ : ∃ d : ℕ, k = ulpExponent ((m : ℚ) * 2 ^ k) + d :=
    ⟨(k - ulpExponent ((m : ℚ) * 2 ^ k)).toNat, by omega⟩
  unfold fl
  generalize ulpExponent ((m : ℚ) * 2 ^ k) = u at hd hu
  have hu0 : (0 : ℚ) < 2 ^ u := by positivity
  have hdiv : (m : ℚ) * 2 ^ k / 2 ^ u = ((m * 2 ^ d : ℤ) : ℚ) := by
    rw [hd, zpow_add₀ (by norm_num : (2 : ℚ) ≠ 0), zpow_natCast]
    push_cast
    field_simp
    ring
  rw [hdiv, roundHalfEven_intCast, hd, zpow_add₀ (by norm_num : (2 : ℚ) ≠ 0), zpow_natCast]
  push_cast
  ring

/-- An integer below `2^53` in size is a double. -/
theorem fl_intCast (m : ℤ) (hm : |m| < 2 ^ 53) : fl (m : ℚ) = m := by
  have := fl_intCast_mul_zpow m 0 (by norm_num) hm
  simpa using this

/-- The relative error of one rounding is at most `2^-53`, for a number that is not
below the smallest normal double. -/
theorem abs_fl_sub_le (x : ℚ) (hx : (2 : ℚ) ^ (-1022 : ℤ) ≤ |x|) :
    |fl x - x| ≤ |x| / 2 ^ 53 := by
  have hpos : 0 < |x| := lt_of_lt_of_le (by positivity) hx
  have hlog : -1022 ≤ Int.log 2 |x| :=
    (Int.zpow_le_iff_le_log (b := 2) (by norm_num) hpos).1 (by exact_mod_cast hx)
  have hle : (2 : ℚ) ^ Int.log 2 |x| ≤ |x| := by
    exact_mod_cast Int.zpow_log_le_self (b := 2) (by norm_num) hpos
  have hu : ulpExponent x = Int.log 2 |x| - 52 := by
    unfold ulpExponent
    rw [max_eq_left hlog]
  unfold fl
  rw [hu]
  generalize Int.log 2 |x| = e at hle
  have hq : (0 : ℚ) < 2 ^ (e - 52) := by positivity
  have hr := abs_roundHalfEven_sub_le (x / 2 ^ (e - 52))
  have h : (roundHalfEven (x / 2 ^ (e - 52)) : ℚ) * 2 ^ (e - 52) - x =
      ((roundHalfEven (x / 2 ^ (e - 52)) : ℚ) - x / 2 ^ (e - 52)) * 2 ^ (e - 52) := by
    field_simp
  rw [h, abs_mul, abs_of_pos hq]
  have he : (2 : ℚ) ^ (e - 52) = 2 ^ e / 2 ^ 52 := by
    rw [zpow_sub₀ (by norm_num : (2 : ℚ) ≠ 0)]
    norm_cast
  calc |(roundHalfEven (x / 2 ^ (e - 52)) : ℚ) - x / 2 ^ (e - 52)| * 2 ^ (e - 52)
      ≤ 1 / 2 * 2 ^ (e - 52) := mul_le_mul_of_nonneg_right hr (le_of_lt hq)
    _ = 2 ^ e / 2 ^ 53 := by rw [he]; ring
    _ ≤ |x| / 2 ^ 53 := by gcongr

/-- One rounding of a number that is zero or not below the smallest normal double
keeps it between `x (1 - 2^-53)` and `x (1 + 2^-53)`. -/
theorem fl_bounds (x : ℚ) (hx : x = 0 ∨ (2 : ℚ) ^ (-1022 : ℤ) ≤ x) :
    x * (1 - 1 / 2 ^ 53) ≤ fl x ∧ fl x ≤ x * (1 + 1 / 2 ^ 53) := by
  rcases hx with rfl | hx
  · rw [fl_zero]; constructor <;> norm_num
  · have hpos : 0 < x := lt_of_lt_of_le (by positivity) hx
    have h := abs_fl_sub_le x (by rwa [abs_of_pos hpos])
    rw [abs_of_pos hpos, abs_le] at h
    constructor <;> linarith

/-- Evaluation of `fl` at a positive number. -/
theorem fl_eq_of_near_pos (x : ℚ) (k m : ℤ) (hk : -1074 ≤ k)
    (hlo : (2 : ℚ) ^ (k + 52) ≤ x) (hhi : x < (2 : ℚ) ^ (k + 53))
    (hnear1 : m * (2 : ℚ) ^ k - (2 : ℚ) ^ k / 2 < x)
    (hnear2 : x < m * (2 : ℚ) ^ k + (2 : ℚ) ^ k / 2) :
    fl x = m * (2 : ℚ) ^ k := by
  have hpos : 0 < x := lt_of_lt_of_le (by positivity) hlo
  apply fl_eq_of_near x k m hk
  · rwa [abs_of_pos hpos]
  · rwa [abs_of_pos hpos]
  · rw [abs_lt]
    constructor <;> linarith

theorem roundHalfEven_nonneg (x : ℚ) (hx : 0 ≤ x) : 0 ≤ roundHalfEven x := by
  have h : 0 ≤ ⌊x⌋ := Int.floor_nonneg.2 hx
  unfold roundHalfEven
  split_ifs <;> omega

theorem fl_nonneg (x : ℚ) (hx : 0 ≤ x) : 0 ≤ fl x := by
  unfold fl
  have hq : (0 : ℚ) < 2 ^ ulpExponent x := by positivity
  have : (0 : ℚ) ≤ roundHalfEven (x / 2 ^ ulpExponent x) := by
    exact_mod_cast roundHalfEven_nonneg _ (div_nonneg hx (le_of_lt hq))
  positivity

theorem mathRound_nonneg (x : ℚ) (hx : 0 ≤ x) : 0 ≤ mathRound x := by
  unfold mathRound
  exact Int.floor_nonneg.2 (by linarith)

theorem abs_mathRound_sub_le (x : ℚ) : |(mathRound x : ℚ) - x| ≤ 1 / 2 := by
  have h1 := Int.floor_le (x + 1 / 2)
  have h2 := Int.lt_floor_add_one (x + 1 / 2)
  unfold mathRound
  rw [abs_le]
  constructor <;> linarith

theorem mathRound_intCast (m : ℤ) : mathRound (m : ℚ) = m := by
  unfold mathRound
  rw [Int.floor_eq_iff]
  constructor <;> linarith

theorem smallest_normal_le : (2 : ℚ) ^ (-1022 : ℤ) ≤ 1 / 10 ^ 8 := by norm_num

/-! ### Accumulated rounding error -/

theorem within_of_fl_literal (x : ℚ) (hx : 1 / 10 ^ 8 ≤ x) : Within 1 x (fl x) := by
  have := fl_bounds x (Or.inr (le_trans smallest_normal_le hx))
  unfold Within
  simpa using this

theorem within_nonneg {k : ℕ} {a v : ℚ} (h : Within k a v) (ha : 0 ≤ a) : 0 ≤ v := by
  have : (0 : ℚ) ≤ (1 - 1 / 2 ^ 53) ^ k := by positivity
  exact le_trans (mul_nonneg ha this) h.1

theorem within_succ {k : ℕ} {a v : ℚ} (h : Within k a v) (ha : 0 ≤ a) :
    Within (k + 1) a v := by
  have hl : (0 : ℚ) ≤ (1 - 1 / 2 ^ 53) ^ k := by positivity
  have hh : (0 : ℚ) ≤ (1 + 1 / 2 ^ 53) ^ k := by positivity
  constructor
  · refine le_trans ?_ h.1
    rw [pow_succ (1 - 1 / 2 ^ 53 : ℚ) k, ← mul_assoc]
    exact mul_le_of_le_one_right (mul_nonneg ha hl) (by norm_num)
  · refine le_trans h.2 ?_
    rw [pow_succ (1 + 1 / 2 ^ 53 : ℚ) k, ← mul_assoc]
    exact le_mul_of_one_le_right (mul_nonneg ha hh) (by norm_num)

theorem within_add {k : ℕ} {a b v w : ℚ} (h1 : Within k a v) (h2 : Within k b w) :
    Within k (a + b) (v + w) := by
  constructor
  · have := add_le_add h1.1 h2.1
    linarith
  · have := add_le_add h1.2 h2.2
    linarith

theorem within_mul_left {k : ℕ} {a v : ℚ} (c : ℚ) (hc : 0 ≤ c) (h : Within k a v) :
    Within k (c * a) (c * v) := by
  constructor
  · have := mul_le_mul_of_nonneg_left h.1 hc
    linarith
  · have := mul_le_mul_of_nonneg_left h.2 hc
    linarith

theorem within_mul_right {k : ℕ} {a v : ℚ} (c : ℚ) (hc : 0 ≤ c) (h : Within k a v) :
    Within k (a * c) (v * c) := by
  rw [mul_comm a c, mul_comm v c]
  exact within_mul_left c hc h

theorem within_fl {k : ℕ} {a v : ℚ} (h : Within k a v)
    (hv : v = 0 ∨ (2 : ℚ) ^ (-1022 : ℤ) ≤ v) : Within (k + 1) a (fl v) := by
  obtain ⟨hlo, hhi⟩ := fl_bounds v hv
  constructor
  · refine le_trans ?_ hlo
    rw [pow_succ (1 - 1 / 2 ^ 53 : ℚ) k, ← mul_assoc]
    exact mul_le_mul_of_nonneg_right h.1 (by norm_num)
  · refine le_trans hhi ?_
    rw [pow_succ (1 + 1 / 2 ^ 53 : ℚ) k, ← mul_assoc]
    exact mul_le_mul_of_nonneg_right h.2 (by norm_num)

theorem within_ge_half {k : ℕ} {a v : ℚ} (h : Within k a v) (hk : k ≤ 5) (ha : 0 ≤ a) :
    a / 2 ≤ v := by
  have hd : ∀ d : ℕ, Within (k + d) a v := by
    intro d
    induction d with
    | zero => exact h
    | succ d ih => exact within_succ ih ha
  have h5 : Within 5 a v := by
    have := hd (5 - k)
    rwa [Nat.add_sub_cancel' hk] at this
  have : a / 2 ≤ a * (1 - 1 / 2 ^ 53) ^ 5 := by
    have : (1 : ℚ) / 2 ≤ (1 - 1 / 2 ^ 53) ^ 5 := by norm_num
    nlinarith
  exact le_trans this h5.1

theorem within_normal {k : ℕ} {a v : ℚ} (h : Within k a v) (hk : k ≤ 5)
    (ha : 1 / 10 ^ 7 ≤ a) : v = 0 ∨ (2 : ℚ) ^ (-1022 : ℤ) ≤ v := by
  right
  have h1 := within_ge_half h hk (le_trans (by norm_num) ha)
  have h3 : (1 : ℚ) / 10 ^ 8 ≤ v := by
    have : (1 : ℚ) / 10 ^ 8 ≤ 1 / 10 ^ 7 / 2 := by norm_num
    linarith
  exact le_trans smallest_normal_le h3

theorem abs_sub_le_of_within_five {a v : ℚ} (h : Within 5 a v) (ha : 0 ≤ a) :
    |v - a| ≤ a / 2 ^ 50 := by
  obtain ⟨hlo, hhi⟩ := h
  have h1 : (1 : ℚ) - 1 / 2 ^ 50 ≤ (1 - 1 / 2 ^ 53) ^ 5 := by norm_num
  have h2 : (1 + 1 / 2 ^ 53 : ℚ) ^ 5 ≤ 1 + 1 / 2 ^ 50 := by norm_num
  rw [abs_le]
  constructor
  · nlinarith
  · nlinarith

/-! ### The sort of the engine -/

/-! ### The sort of the engine -/

theorem insertAt_perm {α : Type} (pos : ℕ) (x : α) (l : List α) :
    (insertAt pos x l).Perm (l ++ [x]) := by
  unfold insertAt
  have h1 : (l.take pos ++ x :: l.drop pos).Perm (x :: (l.take pos ++ l.drop pos)) :=
    List.perm_middle
  rw [List.take_append_drop] at h1
  exact h1.trans (List.perm_append_singleton x l).symm

theorem insertRest_perm {α : Type} (lt : α → α → Bool) (sorted rest : List α) :
    (insertRest lt sorted rest).Perm (sorted ++ rest) := by
  induction rest generalizing sorted with
  | nil => simp [insertRest]
  | cons pivot rest ih =>
    simp only [insertRest]
    refine (ih _).trans ?_
    have := (insertAt_perm (searchPos lt pivot sorted sorted.length 0 sorted.length) pivot
      sorted).append_right rest
    simpa using this

theorem arraySort_perm {α : Type} (lt : α → α → Bool) (l : List α) :
    (arraySort lt l).Perm l := by
  unfold arraySort
  split
  · exact List.Perm.refl _
  · exact List.Perm.refl _
  · rename_i x0 x1 rest
    simp only
    refine (insertRest_perm lt _ _).trans ?_
    have hperm : (if lt x1 x0 = true then
        (List.take (2 + runTail lt (lt x1 x0) x1 rest) (x0 :: x1 :: rest)).reverse
        else List.take (2 + runTail lt (lt x1 x0) x1 rest) (x0 :: x1 :: rest)).Perm
        (List.take (2 + runTail lt (lt x1 x0) x1 rest) (x0 :: x1 :: rest)) := by
      split_ifs
      · exact List.reverse_perm _
      · exact List.Perm.refl _
    have := hperm.append_right (List.drop (2 + runTail lt (lt x1 x0) x1 rest) (x0 :: x1 :: rest))
    rw [List.take_append_drop] at this
    exact this

/-- The binary search on a sorted list, for a comparator that is the difference of a
key on the elements at hand: the place it finds has the elements not above the pivot
before it and the elements above the pivot after it. -/
theorem searchPos_spec {α : Type} (lt : α → α → Bool) (k : α → ℤ) (good : α → Prop)
    (H : ∀ a b, good a → good b → lt a b = decide (k a < k b))
    (x : α) (s : List α) (hx : good x) (hs : ∀ a ∈ s, good a)
    (hsorted : s.Pairwise (fun a b => k a ≤ k b)) :
    ∀ (fuel left right : ℕ), left ≤ right → right ≤ s.length → right - left ≤ fuel →
      (∀ e ∈ s.take left, k e ≤ k x) → (∀ e ∈ s.drop right, k x < k e) →
      searchPos lt x s fuel left right ≤ s.length ∧
      (∀ e ∈ s.take (searchPos lt x s fuel left right), k e ≤ k x) ∧
      (∀ e ∈ s.drop (searchPos lt x s fuel left right), k x < k e) := by
  intro fuel
  induction fuel with
  | zero =>
    intro left right hlr hr hfuel hleft hright
    have : left = right := by omega
    subst this
    exact ⟨hr, hleft, hright⟩
  | succ fuel ih =>
    intro left right hlr hr hfuel hleft hright
    unfold searchPos
    by_cases hlt : left < right
    · rw [if_pos hlt]
      have hmid : left + (right - left) / 2 < s.length := by omega
      obtain ⟨element, hel⟩ : ∃ element, s[left + (right - left) / 2]? = some element :=
        ⟨s[left + (right - left) / 2], List.getElem?_eq_getElem hmid⟩
      have hdrop : s.drop (left + (right - left) / 2) =
          element :: s.drop (left + (right - left) / 2 + 1) := by
        rw [List.drop_eq_getElem_cons hmid]
        congr 1
        rw [List.getElem?_eq_getElem hmid] at hel
        exact Option.some.inj hel
      have htake : s.take (left + (right - left) / 2 + 1) =
          s.take (left + (right - left) / 2) ++ [element] := by
        rw [List.take_succ, hel]
        rfl
      have hsplit : (s.take (left + (right - left) / 2) ++
          s.drop (left + (right - left) / 2)).Pairwise (fun a b => k a ≤ k b) := by
        rw [List.take_append_drop]
        exact hsorted
      rw [List.pairwise_append, hdrop, List.pairwise_cons] at hsplit
      obtain ⟨-, ⟨hafter, -⟩, hcross⟩ := hsplit
      have hgel : good element := hs element (List.mem_iff_getElem?.2 ⟨_, hel⟩)
      simp only [hel]
      by_cases hcmp : k x < k element
      · rw [H x element hx hgel, decide_eq_true hcmp, if_pos rfl]
        apply ih left (left + (right - left) / 2) (by omega) (by omega) (by omega) hleft
        intro e he
        rw [hdrop] at he
        rcases List.mem_cons.1 he with rfl | he
        · exact hcmp
        · exact lt_of_lt_of_le hcmp (hafter e he)
      · rw [H x element hx hgel, decide_eq_false hcmp, if_neg (by simp)]
        apply ih (left + (right - left) / 2 + 1) right (by omega) hr (by omega) _ hright
        intro e he
        rw [htake] at he
        rcases List.mem_append.1 he with he | he
        · exact le_trans (hcross e he element (List.mem_cons_self _ _)) (not_lt.1 hcmp)
        · rw [List.mem_singleton] at he
          rw [he]
          exact not_lt.1 hcmp
    · rw [if_neg hlt]
      have : left = right := by omega
      subst this
      exact ⟨hr, hleft, hright⟩

/-- Putting the pivot at the place found keeps the list sorted and puts the pivot after
the elements that the key does not tell apart from it. -/
theorem insertAt_spec {α : Type} (k : α → ℤ) (x : α) (s : List α) (pos : ℕ)
    (hsorted : s.Pairwise (fun a b => k a ≤ k b))
    (hbefore : ∀ e ∈ s.take pos, k e ≤ k x) (hafter : ∀ e ∈ s.drop pos, k x < k e) :
    (insertAt pos x s).Pairwise (fun a b => k a ≤ k b) ∧
    ∀ P : α → Bool, (∀ a b, P a = true → P b = true → k a = k b) →
      (insertAt pos x s).filter P = s.filter P ++ [x].filter P := by
  have hsplit : (s.take pos ++ s.drop pos).Pairwise (fun a b => k a ≤ k b) := by
    rw [List.take_append_drop]
    exact hsorted
  rw [List.pairwise_append] at hsplit
  obtain ⟨htake, hdrop, hcross⟩ := hsplit
  constructor
  · unfold insertAt
    rw [List.pairwise_append, List.pairwise_cons]
    refine ⟨htake, ⟨fun e he => le_of_lt (hafter e he), hdrop⟩, ?_⟩
    intro a ha b hb
    rcases List.mem_cons.1 hb with rfl | hb
    · exact hbefore a ha
    · exact hcross a ha b hb
  · intro P hP
    unfold insertAt
    have hs : s.filter P = (s.take pos).filter P ++ (s.drop pos).filter P := by
      rw [← List.filter_append, List.take_append_drop]
    rw [List.filter_append, hs]
    by_cases hPx : P x = true
    · have hnone : (s.drop pos).filter P = [] := by
        rw [List.filter_eq_nil_iff]
        intro e he hPe
        have := hafter e he
        rw [hP e x hPe hPx] at this
        exact lt_irrefl _ this
      simp [List.filter_cons, hPx, hnone]
    · simp [List.filter_cons, hPx]

theorem insertRest_spec {α : Type} (lt : α → α → Bool) (k : α → ℤ) (good : α → Prop)
    (H : ∀ a b, good a → good b → lt a b = decide (k a < k b)) (rest : List α) :
    ∀ s : List α, (∀ a ∈ s, good a) → (∀ a ∈ rest, good a) →
      s.Pairwise (fun a b => k a ≤ k b) →
      (insertRest lt s rest).Pairwise (fun a b => k a ≤ k b) ∧
      ∀ P : α → Bool, (∀ a b, P a = true → P b = true → k a = k b) →
        (insertRest lt s rest).filter P = s.filter P ++ rest.filter P := by
  induction rest with
  | nil =>
    intro s _ _ hsorted
    exact ⟨hsorted, fun P _ => by simp [insertRest]⟩
  | cons x rest ih =>
    intro s hs hrest hsorted
    have hx : good x := hrest x (List.mem_cons_self _ _)
    obtain ⟨-, hbefore, hafter⟩ := searchPos_spec lt k good H x s hx hs hsorted s.length 0
      s.length (Nat.zero_le _) (le_refl _) (by omega) (by simp) (by simp)
    obtain ⟨hsorted2, hfilter⟩ := insertAt_spec k x s _ hsorted hbefore hafter
    have hgood2 : ∀ a ∈ insertAt (searchPos lt x s s.length 0 s.length) x s, good a := by
      intro a ha
      have := (insertAt_perm _ x s).subset ha
      rcases List.mem_append.1 this with h | h
      · exact hs a h
      · rw [List.mem_singleton] at h
        rw [h]
        exact hx
    obtain ⟨h1, h2⟩ := ih _ hgood2 (fun a ha => hrest a (List.mem_cons_of_mem _ ha)) hsorted2
    refine ⟨h1, fun P hP => ?_⟩
    show (insertRest lt (insertAt (searchPos lt x s s.length 0 s.length) x s) rest).filter P = _
    rw [h2 P hP, hfilter P hP, List.append_assoc, ← List.filter_append]
    rfl

/-- The elements counted into a run form a chain from the element before them:
ascending when the run is not descending, strictly descending otherwise. -/
theorem runTail_pairwise {α : Type} (lt : α → α → Bool) (k : α → ℤ) (good : α → Prop)
    (H : ∀ a b, good a → good b → lt a b = decide (k a < k b)) (descending : Bool)
    (rest : List α) :
    ∀ previous : α, good previous → (∀ a ∈ rest, good a) →
      (previous :: rest.take (runTail lt descending previous rest)).Pairwise
        (fun a b => if descending then k b < k a else k a ≤ k b) := by
  induction rest with
  | nil =>
    intro previous _ _
    simp [runTail]
  | cons current rest ih =>
    intro previous hp hrest
    have hc : good current := hrest current (List.mem_cons_self _ _)
    have hrest2 : ∀ a ∈ rest, good a := fun a ha => hrest a (List.mem_cons_of_mem _ ha)
    have hih := ih current hc hrest2
    unfold runTail
    cases descending with
    | true =>
      simp only [if_true]
      rw [H current previous hc hp]
      by_cases hcmp : k current < k previous
      · rw [decide_eq_true hcmp, if_pos rfl, Nat.add_comm, List.take_succ_cons]
        rw [List.pairwise_cons]
        refine ⟨?_, hih⟩
        intro b hb
        rcases List.mem_cons.1 hb with rfl | hb
        · exact hcmp
        · have := (List.pairwise_cons.1 hih).1 b hb
          simp only [if_true] at this
          exact lt_trans this hcmp
      · rw [decide_eq_false hcmp, if_neg (by simp)]
        exact List.pairwise_singleton _ _
    | false =>
      simp only [Bool.false_eq_true, if_false]
      rw [H current previous hc hp]
      by_cases hcmp : k current < k previous
      · rw [decide_eq_true hcmp, if_pos rfl]
        exact List.pairwise_singleton _ _
      · rw [decide_eq_false hcmp, if_neg (by simp), Nat.add_comm, List.take_succ_cons]
        rw [List.pairwise_cons]
        refine ⟨?_, hih⟩
        intro b hb
        rcases List.mem_cons.1 hb with rfl | hb
        · exact not_lt.1 hcmp
        · have := (List.pairwise_cons.1 hih).1 b hb
          simp only [Bool.false_eq_true, if_false] at this
          exact le_trans (not_lt.1 hcmp) this

theorem filter_length_le_one_of_strict {α : Type} (k : α → ℤ) (P : α → Bool)
    (hP : ∀ a b, P a = true → P b = true → k a = k b) (l : List α)
    (hl : l.Pairwise (fun a b => k b < k a)) : (l.filter P).length ≤ 1 := by
  induction l with
  | nil => simp
  | cons a l ih =>
    rw [List.pairwise_cons] at hl
    by_cases hPa : P a = true
    · have hnone : l.filter P = [] := by
        rw [List.filter_eq_nil_iff]
        intro e he hPe
        have := hl.1 e he
        rw [hP e a hPe hPa] at this
        exact lt_irrefl _ this
      simp [List.filter_cons, hPa, hnone]
    · simp only [List.filter_cons, hPa, if_false]
      exact ih hl.2

theorem reverse_eq_of_length_le_one {α : Type} (l : List α) (h : l.length ≤ 1) :
    l.reverse = l := by
  match l, h with
  | [], _ => rfl
  | [_], _ => rfl
  | _ :: _ :: _, h => simp at h

/-- For a comparator that is the difference of a key on the elements of the array, the
sort of the engine returns a sorted arrangement in which the elements that the key does
not tell apart keep their order. -/
theorem arraySort_stable {α : Type} (lt : α → α → Bool) (k : α → ℤ) (good : α → Prop)
    (H : ∀ a b, good a → good b → lt a b = decide (k a < k b)) (l : List α)
    (hl : ∀ a ∈ l, good a) :
    (arraySort lt l).Pairwise (fun a b => k a ≤ k b) ∧
    ∀ P : α → Bool, (∀ a b, P a = true → P b = true → k a = k b) →
      (arraySort lt l).filter P = l.filter P := by
  unfold arraySort
  split
  · exact ⟨List.Pairwise.nil, fun _ _ => rfl⟩
  · exact ⟨List.pairwise_singleton _ _, fun _ _ => rfl⟩
  · rename_i x0 x1 rest
    simp only
    have h0 : good x0 := hl x0 (by simp)
    have h1 : good x1 := hl x1 (by simp)
    have hrest : ∀ a ∈ rest, good a := fun a ha => hl a (by simp [ha])
    have htake : List.take (2 + runTail lt (lt x1 x0) x1 rest) (x0 :: x1 :: rest) =
        x0 :: x1 :: rest.take (runTail lt (lt x1 x0) x1 rest) := by
      rw [Nat.add_comm]
      rfl
    have hdropgood : ∀ a ∈ List.drop (2 + runTail lt (lt x1 x0) x1 rest) (x0 :: x1 :: rest),
        good a := fun a ha => hl a (List.mem_of_mem_drop ha)
    have htakegood : ∀ a ∈ List.take (2 + runTail lt (lt x1 x0) x1 rest) (x0 :: x1 :: rest),
        good a := fun a ha => hl a (List.mem_of_mem_take ha)
    have hchain := runTail_pairwise lt k good H (lt x1 x0) rest x1 h1 hrest
    have hsplit : ∀ P : α → Bool,
        (List.take (2 + runTail lt (lt x1 x0) x1 rest) (x0 :: x1 :: rest)).filter P ++
          (List.drop (2 + runTail lt (lt x1 x0) x1 rest) (x0 :: x1 :: rest)).filter P =
        (x0 :: x1 :: rest).filter P := by
      intro P
      rw [← List.filter_append, List.take_append_drop]
    by_cases hdesc : k x1 < k x0
    · have hlt : lt x1 x0 = true := by rw [H x1 x0 h1 h0, decide_eq_true hdesc]
      rw [hlt] at hchain htake hdropgood htakegood hsplit ⊢
      simp only [if_true] at hchain ⊢
      have hrun : (List.take (2 + runTail lt true x1 rest) (x0 :: x1 :: rest)).Pairwise
          (fun a b => k b < k a) := by
        rw [htake, List.pairwise_cons]
        refine ⟨?_, hchain⟩
        intro b hb
        rcases List.mem_cons.1 hb with rfl | hb
        · exact hdesc
        · exact lt_trans ((List.pairwise_cons.1 hchain).1 b hb) hdesc
      have hrev : (List.take (2 + runTail lt true x1 rest) (x0 :: x1 :: rest)).reverse.Pairwise
          (fun a b => k a ≤ k b) := by
        rw [List.pairwise_reverse]
        exact hrun.imp (fun h => le_of_lt h)
      obtain ⟨hs, hf⟩ := insertRest_spec lt k good H _ _
        (fun a ha => htakegood a (List.mem_reverse.1 ha)) hdropgood hrev
      refine ⟨hs, fun P hP => ?_⟩
      rw [hf P hP, List.filter_reverse,
        reverse_eq_of_length_le_one _ (filter_length_le_one_of_strict k P hP _ hrun)]
      exact hsplit P
    · have hlt : lt x1 x0 = false := by rw [H x1 x0 h1 h0, decide_eq_false hdesc]
      rw [hlt] at hchain htake hdropgood htakegood hsplit ⊢
      simp only [Bool.false_eq_true, if_false] at hchain ⊢
      have hrun : (List.take (2 + runTail lt false x1 rest) (x0 :: x1 :: rest)).Pairwise
          (fun a b => k a ≤ k b) := by
        rw [htake, List.pairwise_cons]
        refine ⟨?_, hchain⟩
        intro b hb
        rcases List.mem_cons.1 hb with rfl | hb
        · exact not_lt.1 hdesc
        · exact le_trans (not_lt.1 hdesc) ((List.pairwise_cons.1 hchain).1 b hb)
      obtain ⟨hs, hf⟩ := insertRest_spec lt k good H _ _ htakegood hdropgood hrun
      refine ⟨hs, fun P hP => ?_⟩
      rw [hf P hP]
      exact hsplit P

end JS

namespace Poller

/-! ### The priority sort of `startPolling` -/

/-- On a priority that is not the name of an inherited member the expression
`priorityOrder[p] || 2` is a number. -/
theorem priorityOrDefault_of_not_inherited (p : Option String)
    (hp : ∀ name ∈ inheritedNames, p ≠ some name) :
    ∃ n : ℤ, priorityOrDefault p = some n := by
  cases hentry : priorityOrder p with
  | number n =>
    simp only [priorityOrDefault, hentry]
    split
    · exact ⟨_, rfl⟩
    · exact ⟨_, rfl⟩
  | missing => exact ⟨2, by simp only [priorityOrDefault, hentry]⟩
  | member =>
    exfalso
    unfold priorityOrder at hentry
    split at hentry
    · exact TableEntry.noConfusion hentry
    · exact TableEntry.noConfusion hentry
    · exact TableEntry.noConfusion hentry
    · exact TableEntry.noConfusion hentry
    · rename_i q _ _ _ _
      by_cases hq : q ∈ inheritedNames
      · exact hp q hq rfl
      · rw [if_neg hq] at hentry
        exact TableEntry.noConfusion hentry
    · exact TableEntry.noConfusion hentry

/-- On records without an inherited name the comparison of the sort is the comparison
of the key `priorityOrder[p] || 2`. -/
theorem sortLess_eq_decide (a b : TaskRecord)
    (ha : ∀ name ∈ inheritedNames, a.fields.priority ≠ some name)
    (hb : ∀ name ∈ inheritedNames, b.fields.priority ≠ some name) :
    sortLess a b = decide ((priorityOrDefault a.fields.priority).getD 2 <
      (priorityOrDefault b.fields.priority).getD 2) := by
  obtain ⟨x, hx⟩ := priorityOrDefault_of_not_inherited _ ha
  obtain ⟨y, hy⟩ := priorityOrDefault_of_not_inherited _ hb
  simp only [sortLess, comparePriority, hx, hy, Option.getD_some, sub_neg]

/-- Sorting rearranges the batch: no item is lost or duplicated. -/
theorem sortByPriority_perm (newTasks : List TaskRecord) :
    (sortByPriority newTasks).Perm newTasks :=
  arraySort_perm sortLess newTasks

/-- A batch without inherited names is ordered by the key the comparator really uses,
`priorityOrder[p] || 2`. -/
theorem sortByPriority_sorted (newTasks : List TaskRecord)
    (hnames : ∀ t ∈ newTasks, ∀ name ∈ inheritedNames, t.fields.priority ≠ some name) :
    (sortByPriority newTasks).Pairwise (fun a b =>
      (priorityOrDefault a.fields.priority).getD 2 ≤
        (priorityOrDefault b.fields.priority).getD 2) :=
  (arraySort_stable sortLess (fun t => (priorityOrDefault t.fields.priority).getD 2)
    (fun t => ∀ name ∈ inheritedNames, t.fields.priority ≠ some name)
    sortLess_eq_decide newTasks hnames).1

/-- In a batch without inherited names, items that the key does not tell apart keep
their order: the sub-sequence of the items picked by `P` is the same before and after
the sort. -/
theorem filter_sortByPriority (P : TaskRecord → Bool)
    (hP : ∀ a b, P a = true → P b = true →
      (priorityOrDefault a.fields.priority).getD 2 =
        (priorityOrDefault b.fields.priority).getD 2)
    (newTasks : List TaskRecord)
    (hnames : ∀ t ∈ newTasks, ∀ name ∈ inheritedNames, t.fields.priority ≠ some name) :
    (sortByPriority newTasks).filter P = newTasks.filter P :=
  (arraySort_stable sortLess (fun t => (priorityOrDefault t.fields.priority).getD 2)
    (fun t => ∀ name ∈ inheritedNames, t.fields.priority ≠ some name)
    sortLess_eq_decide newTasks hnames).2 P hP

/-- C1, evaluated at a failing batch: for the fetched batch `[a (P0), b (P1)]` the sort
returns `[b, a]`, so the `P1` item is processed before the `P0` item and the processing
order is not non-decreasing in the rank `P0 < P1 < P2 < P3`.  The entry `0` of `P0` is
falsy, so `priorityOrder[p] || 2` ranks `P0` as `2`. -/
theorem sortByPriority_P0_after_P1 :
    sortByPriority [mkTask "a" (some "P0"), mkTask "b" (some "P1")] =
      [mkTask "b" (some "P1"), mkTask "a" (some "P0")] ∧
    ¬ (sortByPriority [mkTask "a" (some "P0"), mkTask "b" (some "P1")]).Sorted
        (fun x y => specRank x.fields.priority ≤ specRank y.fields.priority) := by
  decide

/-- C2, evaluated at a failing batch: the fetched batch has the priorities `P1`, `P1`,
`P2`, `P1`, `constructor`, `P1`, `P1`.  The lookup `priorityOrder['constructor']` finds
the inherited constructor, every comparison with that record is `NaN`, and the sort
returns the records in the order 0, 1, 3, 6, 2, 4, 5: the `P1` record fetched last is
processed before the `P1` record fetched before it. -/
theorem sortByPriority_inherited_name_not_stable :
    sortByPriority inheritedNameBatch =
      [mkTask "t0" (some "P1"), mkTask "t1" (some "P1"), mkTask "t3" (some "P1"),
       mkTask "t6" (some "P1"), mkTask "t2" (some "P2"),
       mkTask "t4" (some "constructor"), mkTask "t5" (some "P1")] ∧
    (sortByPriority inheritedNameBatch).filter
        (fun t => decide (t.fields.priority = some "P1")) ≠
      inheritedNameBatch.filter (fun t => decide (t.fields.priority = some "P1")) := by
  decide

/-- C2, amended: the priority sort is stable on every batch in which no priority is the
name of a member that the table inherits (`constructor`, `toString`, ...).  For every
such batch and every priority value `p` (a missing priority included), the items of
priority `p` appear in the processing order exactly in the order in which
`getNewTasks` returned them. -/
theorem sortByPriority_stable_of_no_inherited_name (newTasks : List TaskRecord)
    (hnames : ∀ t ∈ newTasks, ∀ name ∈ inheritedNames, t.fields.priority ≠ some name)
    (p : Option String) :
    (sortByPriority newTasks).filter (fun t => decide (t.fields.priority = p)) =
      newTasks.filter (fun t => decide (t.fields.priority = p)) := by
  apply filter_sortByPriority _ _ newTasks hnames
  intro a b ha hb
  simp only [decide_eq_true_eq] at ha hb
  rw [ha, hb]

theorem sortByPriority_stable_of_no_inherited_name_witness :
    (∀ t ∈ mixedBatch, ∀ name ∈ inheritedNames, t.fields.priority ≠ some name) ∧
    (sortByPriority mixedBatch).filter (fun t => decide (t.fields.priority = some "P2")) =
      [mkTask "t0" (some "P2"), mkTask "t3" (some "P2")] ∧
    (sortByPriority mixedBatch).filter (fun t => decide (t.fields.priority = none)) =
      [mkTask "t2" none, mkTask "t5" none] :=
  ⟨by decide,
   (sortByPriority_stable_of_no_inherited_name mixedBatch (by decide) (some "P2")).trans
     (by decide),
   (sortByPriority_stable_of_no_inherited_name mixedBatch (by decide) none).trans
     (by decide)⟩

/-! ### The cost model -/

/-- The value `Math.round(x * 100) / 100` is `x` rounded half-up to two decimal places. -/
theorem mathRound_div_isRound2 (x : ℚ) :
    IsRound2HalfUp x ((mathRound (x * 100) : ℚ) / 100) := by
  unfold IsRound2HalfUp mathRound
  refine ⟨⟨⌊x * 100 + 1 / 2⌋, by ring⟩, ?_, ?_⟩
  · have h := Int.lt_floor_add_one (x * 100 + 1 / 2)
    linarith
  · have h := Int.floor_le (x * 100 + 1 / 2)
    linarith

/-- The amount in cents that `calculateCost` hands to `Math.round` carries at most five
roundings of the exact amount. -/
theorem cents_within (base : ℚ) (hbase : 1 / 1000 ≤ base) (seconds tokens : ℚ)
    (hs : seconds = 0 ∨ 1 ≤ seconds) (ht : tokens = 0 ∨ 1 ≤ tokens) :
    Within 5 ((base + tokens * 0.000002 + seconds * 0.001) * 100)
      (fl (fl (fl (fl base + fl (tokens * fl 0.000002)) + fl (seconds * fl 0.001)) * 100)) := by
  have ht0 : 0 ≤ tokens := by rcases ht with h | h <;> linarith
  have hs0 : 0 ≤ seconds := by rcases hs with h | h <;> linarith
  have hp1 : Within 1 (tokens * 0.000002) (tokens * fl 0.000002) :=
    within_mul_left tokens ht0 (within_of_fl_literal _ (by norm_num))
  have hT : Within 2 (tokens * 0.000002) (fl (tokens * fl 0.000002)) := by
    apply within_fl hp1
    rcases ht with h | h
    · left; rw [h, zero_mul]
    · exact within_normal hp1 (by norm_num) (by linarith)
  have hp2 : Within 1 (seconds * 0.001) (seconds * fl 0.001) :=
    within_mul_left seconds hs0 (within_of_fl_literal _ (by norm_num))
  have hS : Within 2 (seconds * 0.001) (fl (seconds * fl 0.001)) := by
    apply within_fl hp2
    rcases hs with h | h
    · left; rw [h, zero_mul]
    · exact within_normal hp2 (by norm_num) (by linarith)
  have hB : Within 2 base (fl base) :=
    within_succ (within_of_fl_literal base (by linarith)) (by linarith)
  have hA1 : Within 2 (base + tokens * 0.000002) (fl base + fl (tokens * fl 0.000002)) :=
    within_add hB hT
  have hS1 : Within 3 (base + tokens * 0.000002)
      (fl (fl base + fl (tokens * fl 0.000002))) :=
    within_fl hA1 (within_normal hA1 (by norm_num) (by linarith))
  have hA2 : Within 3 (base + tokens * 0.000002 + seconds * 0.001)
      (fl (fl base + fl (tokens * fl 0.000002)) + fl (seconds * fl 0.001)) :=
    within_add hS1 (within_succ hS (by linarith))
  have hS2 : Within 4 (base + tokens * 0.000002 + seconds * 0.001)
      (fl (fl (fl base + fl (tokens * fl 0.000002)) + fl (seconds * fl 0.001))) :=
    within_fl hA2 (within_normal hA2 (by norm_num) (by linarith))
  have hM : Within 4 ((base + tokens * 0.000002 + seconds * 0.001) * 100)
      (fl (fl (fl base + fl (tokens * fl 0.000002)) + fl (seconds * fl 0.001)) * 100) :=
    within_mul_right 100 (by norm_num) hS2
  exact within_fl hM (within_normal hM (by norm_num) (by linarith))

theorem natCast_zero_or_one_le (n : ℕ) : (n : ℚ) = 0 ∨ (1 : ℚ) ≤ n := by
  rcases Nat.eq_zero_or_pos n with h | h
  · left; exact_mod_cast h
  · right; exact_mod_cast h

/-- For an agent of the table, with the literal `base` as its entry, `calculateCost`
satisfies the cost formula of the double arithmetic. -/
theorem calculateCost_of_base (agent : String) (base : ℚ)
    (hb : baseCost agent = some (fl base)) (hbase : 1 / 1000 ≤ base) (e t : ℕ) :
    DoubleCostSpec base e t (calculateCost agent e (some t)) := by
  have hW := cents_within base hbase e t (natCast_zero_or_one_le e) (natCast_zero_or_one_le t)
  have hx0 : (0 : ℚ) ≤ (base + t * 0.000002 + e * 0.001) * 100 := by
    have h1 : (0 : ℚ) ≤ t := Nat.cast_nonneg t
    have h2 : (0 : ℚ) ≤ e := Nat.cast_nonneg e
    nlinarith
  have hX := abs_sub_le_of_within_five hW hx0
  have hm := abs_mathRound_sub_le
    (fl (fl (fl (fl base + fl (t * fl 0.000002)) + fl (e * fl 0.001)) * 100))
  unfold DoubleCostSpec calculateCost
  rw [hb]
  refine ⟨mathRound (fl (fl (fl (fl base + fl (t * fl 0.000002)) + fl (e * fl 0.001)) * 100)),
    rfl, ?_, ?_⟩
  · rw [abs_le] at hX hm ⊢
    constructor <;> linarith
  · intro htie
    generalize mathRound
      (fl (fl (fl (fl base + fl (t * fl 0.000002)) + fl (e * fl 0.001)) * 100)) = m at hm ⊢
    generalize fl (fl (fl (fl base + fl (t * fl 0.000002)) + fl (e * fl 0.001)) * 100) = X
      at hm hX
    generalize (base + (t : ℚ) * 0.000002 + e * 0.001) = x at hX htie hx0 ⊢
    rw [abs_le] at hX hm
    refine ⟨⟨m, by ring⟩, ?_, ?_⟩
    · by_contra hcon
      have h1 := htie m
      have h2 : |x * 100 - ((m : ℚ) + 1 / 2)| = x * 100 - ((m : ℚ) + 1 / 2) :=
        abs_of_nonneg (by linarith)
      rw [h2] at h1
      linarith
    · by_contra hcon
      have h1 := htie (m - 1)
      have h2 : |x * 100 - (((m - 1 : ℤ) : ℚ) + 1 / 2)| =
          -(x * 100 - (((m - 1 : ℤ) : ℚ) + 1 / 2)) :=
        abs_of_nonpos (by push_cast; linarith)
      rw [h2] at h1
      push_cast at h1
      linarith

theorem fl_thousandth : fl 0.001 = 4611686018427388 * (2 : ℚ) ^ (-62 : ℤ) := by
  have := fl_eq_of_near_pos 0.001 (-62) 4611686018427388 (by norm_num) (by norm_num)
    (by norm_num) (by norm_num) (by norm_num)
  exact_mod_cast this

theorem fl_three_cents : fl 0.03 = 8646911284551352 * (2 : ℚ) ^ (-58 : ℤ) := by
  have := fl_eq_of_near_pos 0.03 (-58) 8646911284551352 (by norm_num) (by norm_num)
    (by norm_num) (by norm_num) (by norm_num)
  exact_mod_cast this

theorem fl_four_cents : fl 0.04 = 5764607523034235 * (2 : ℚ) ^ (-57 : ℤ) := by
  have := fl_eq_of_near_pos 0.04 (-57) 5764607523034235 (by norm_num) (by norm_num)
    (by norm_num) (by norm_num) (by norm_num)
  exact_mod_cast this

/-- The steps of `calculateCost('gpt4', 5, 0)` in doubles: the amount in cents is
`3.4999999999999996`, below the half cent. -/
theorem cents_gpt4_five_seconds :
    fl (fl (fl (fl 0.03 + fl (0 * fl 0.000002)) + fl (5 * fl 0.001)) * 100) =
      7881299347898367 * (2 : ℚ) ^ (-51 : ℤ) := by
  have h1 : fl (0 * fl 0.000002) = 0 := by rw [zero_mul, fl_zero]
  have h2 : fl (5 * fl 0.001) = 5764607523034235 * (2 : ℚ) ^ (-60 : ℤ) := by
    rw [fl_thousandth]
    have := fl_eq_of_near_pos (5 * (4611686018427388 * (2 : ℚ) ^ (-62 : ℤ))) (-60)
      5764607523034235 (by norm_num) (by norm_num) (by norm_num) (by norm_num) (by norm_num)
    exact_mod_cast this
  have h3 : fl (fl 0.03 + 0) = 8646911284551352 * (2 : ℚ) ^ (-58 : ℤ) := by
    rw [fl_three_cents, add_zero]
    have := fl_intCast_mul_zpow 8646911284551352 (-58) (by norm_num) (by norm_num)
    exact_mod_cast this
  have h4 : fl (8646911284551352 * (2 : ℚ) ^ (-58 : ℤ) +
      5764607523034235 * (2 : ℚ) ^ (-60 : ℤ)) = 5044031582654955 * (2 : ℚ) ^ (-57 : ℤ) := by
    have := fl_eq_of_near_pos (8646911284551352 * (2 : ℚ) ^ (-58 : ℤ) +
      5764607523034235 * (2 : ℚ) ^ (-60 : ℤ)) (-57) 5044031582654955
      (by norm_num) (by norm_num) (by norm_num) (by norm_num) (by norm_num)
    exact_mod_cast this
  have h5 : fl (5044031582654955 * (2 : ℚ) ^ (-57 : ℤ) * 100) =
      7881299347898367 * (2 : ℚ) ^ (-51 : ℤ) := by
    have := fl_eq_of_near_pos (5044031582654955 * (2 : ℚ) ^ (-57 : ℤ) * 100) (-51)
      7881299347898367 (by norm_num) (by norm_num) (by norm_num) (by norm_num) (by norm_num)
    exact_mod_cast this
  rw [h1, h3, h2, h4, h5]

/-- C3, evaluated at a failing input: for `gpt4`, 5 seconds and no tokens the exact
amount is `0.035`, which rounds half-up to `0.04`; the double arithmetic of the code
reaches `3.4999999999999996` cents, `Math.round` gives `3`, and `calculateCost` returns
the double `0.03`, one cent less than the formula of the specification. -/
theorem calculateCost_half_cent_rounds_down :
    calculateCost "gpt4" 5 (some 0) = some (fl 0.03) ∧
    IsRound2HalfUp (0.03 + ((0 : ℕ) : ℚ) * 0.000002 + ((5 : ℕ) : ℚ) * 0.001) 0.04 ∧
    fl 0.03 < fl 0.04 ∧
    ¬ CostSpec 0.03 5 0 (calculateCost "gpt4" 5 (some 0)) := by
  have hcost : calculateCost "gpt4" 5 (some 0) = some (fl 0.03) := by
    have hm : mathRound (7881299347898367 * (2 : ℚ) ^ (-51 : ℤ)) = 3 := by
      unfold mathRound
      rw [Int.floor_eq_iff]
      constructor <;> norm_num
    simp only [calculateCost, baseCost]
    rw [cents_gpt4_five_seconds, hm]
    norm_num
  refine ⟨hcost, ⟨⟨4, by norm_num⟩, by norm_num, by norm_num⟩, ?_, ?_⟩
  · rw [fl_three_cents, fl_four_cents]
    norm_num
  · rw [hcost]
    rintro ⟨r, hr, -, hlow, -⟩
    have hr2 : r = fl 0.03 := (Option.some.inj hr).symm
    rw [hr2, fl_three_cents] at hlow
    norm_num at hlow

/-- C3, amended: for each agent of the table and for all non-negative integers
`execSeconds` and `tokensUsed` below `2^53` (which a JavaScript number holds exactly),
`calculateCost` is the double nearest to `m / 100` for a whole number of cents `m` that
differs from the exact amount `base + tokensUsed * 0.000002 + execSeconds * 0.001` in
cents by at most one half and the rounding error `2^-50` of the amount; `m / 100` is the
exact amount rounded half-up to two decimal places whenever the exact amount in cents
is farther than that rounding error from every half cent.  In particular
`calculateCost('claude', 30, 100)` is the double `0.05`. -/
theorem calculateCost_round2_in_doubles (execSeconds tokensUsed : ℕ)
    (hs : execSeconds < 2 ^ 53) (ht : tokensUsed < 2 ^ 53) :
    fl execSeconds = execSeconds ∧ fl tokensUsed = tokensUsed ∧
    DoubleCostSpec 0.015 execSeconds tokensUsed
      (calculateCost "claude" execSeconds (some tokensUsed)) ∧
    DoubleCostSpec 0.03 execSeconds tokensUsed
      (calculateCost "gpt4" execSeconds (some tokensUsed)) ∧
    DoubleCostSpec 0.008 execSeconds tokensUsed
      (calculateCost "copilot" execSeconds (some tokensUsed)) ∧
    DoubleCostSpec 0.05 execSeconds tokensUsed
      (calculateCost "multi_agent" execSeconds (some tokensUsed)) ∧
    calculateCost "claude" 30 (some 100) = some (fl 0.05) := by
  refine ⟨?_, ?_, calculateCost_of_base _ _ (by rfl) (by norm_num) _ _,
    calculateCost_of_base _ _ (by rfl) (by norm_num) _ _,
    calculateCost_of_base _ _ (by rfl) (by norm_num) _ _,
    calculateCost_of_base _ _ (by rfl) (by norm_num) _ _, ?_⟩
  · have := fl_intCast (execSeconds : ℤ) (by rw [abs_of_nonneg (by positivity)]; exact_mod_cast hs)
    exact_mod_cast this
  · have := fl_intCast (tokensUsed : ℤ) (by rw [abs_of_nonneg (by positivity)]; exact_mod_cast ht)
    exact_mod_cast this
  · obtain ⟨m, hm, hnear, -⟩ := calculateCost_of_base "claude" 0.015 (by rfl) (by norm_num) 30 100
    have hm5 : m = 5 := by
      rw [abs_le] at hnear
      have h1 : (4 : ℚ) < m := by norm_num at hnear ⊢; linarith [hnear.1]
      have h2 : (m : ℚ) < 6 := by norm_num at hnear ⊢; linarith [hnear.2]
      have h3 : (4 : ℤ) < m := by exact_mod_cast h1
      have h4 : m < (6 : ℤ) := by exact_mod_cast h2
      omega
    subst hm5
    have h30 : ((30 : ℕ) : ℚ) = 30 := by norm_num
    have h100 : ((100 : ℕ) : ℚ) = 100 := by norm_num
    rw [h30, h100] at hm
    rw [hm]
    norm_num

/-- C3 as amended, at 30 seconds and 100 tokens. -/
theorem calculateCost_round2_in_doubles_witness :
    (30 : ℕ) < 2 ^ 53 ∧ (100 : ℕ) < 2 ^ 53 ∧
    DoubleCostSpec 0.015 30 100 (calculateCost "claude" ((30 : ℕ) : ℚ) (some ((100 : ℕ) : ℚ))) ∧
    calculateCost "claude" 30 (some 100) = some (fl 0.05) :=
  ⟨by norm_num, by norm_num,
    (calculateCost_round2_in_doubles 30 100 (by norm_num) (by norm_num)).2.2.1,
    (calculateCost_round2_in_doubles 30 100 (by norm_num) (by norm_num)).2.2.2.2.2.2⟩

/-! ### Field objects and the payload of `updateTaskStatus` -/

theorem getField_setField (o : Fields) (key : String) (value : FieldValue) (k : String) :
    getField (setField o key value) k = if k = key then some value else getField o k := by
  induction o with
  | nil =>
    by_cases hk : k = key
    · simp [setField, getField, List.lookup, hk]
    · have hb : (k == key) = false := beq_eq_false_iff_ne.2 hk
      simp [setField, getField, List.lookup, hk, hb]
  | cons kv rest ih =>
    obtain ⟨k1, v1⟩ := kv
    unfold getField at ih ⊢
    by_cases h1 : k1 = key
    · by_cases hk : k = key
      · simp [setField, h1, hk, List.lookup]
      · have hb : (k == key) = false := beq_eq_false_iff_ne.2 hk
        simp [setField, h1, hk, hb, List.lookup]
    · by_cases hk1 : k = k1
      · have hk : ¬ k = key := by rw [hk1]; exact h1
        simp [setField, h1, hk, hk1, List.lookup]
      · have hb : (k == k1) = false := beq_eq_false_iff_ne.2 hk1
        simp [setField, h1, hk1, hb, List.lookup, ih]

theorem getField_foldl_of_not_key (acc extra : Fields) (k : String)
    (hk : k ∉ extra.map Prod.fst) :
    getField (extra.foldl
      (fun updateData kv =>
        if kv.1 ∈ safeFields then setField updateData kv.1 kv.2 else updateData) acc) k =
      getField acc k := by
  induction extra generalizing acc with
  | nil => rfl
  | cons kv rest ih =>
    simp only [List.map_cons, List.mem_cons, not_or] at hk
    rw [List.foldl_cons, ih _ hk.2]
    split
    · rw [getField_setField, if_neg hk.1]
    · rfl

theorem getField_foldl_of_not_safe (acc extra : Fields) (k : String) (hk : k ∉ safeFields) :
    getField (extra.foldl
      (fun updateData kv =>
        if kv.1 ∈ safeFields then setField updateData kv.1 kv.2 else updateData) acc) k =
      getField acc k := by
  induction extra generalizing acc with
  | nil => rfl
  | cons kv rest ih =>
    rw [List.foldl_cons, ih]
    split
    · rename_i hs
      rw [getField_setField, if_neg]
      intro h
      exact hk (h ▸ hs)
    · rfl

theorem getField_foldl_of_mem (acc extra : Fields) (k : String) (v : FieldValue)
    (hnd : (extra.map Prod.fst).Nodup) (hmem : (k, v) ∈ extra) (hk : k ∈ safeFields) :
    getField (extra.foldl
      (fun updateData kv =>
        if kv.1 ∈ safeFields then setField updateData kv.1 kv.2 else updateData) acc) k =
      some v := by
  induction extra generalizing acc with
  | nil => simp at hmem
  | cons kv rest ih =>
    simp only [List.map_cons, List.nodup_cons] at hnd
    rw [List.foldl_cons]
    rcases List.mem_cons.1 hmem with h | h
    · subst h
      rw [getField_foldl_of_not_key _ _ _ hnd.1]
      simp only [hk, if_true]
      rw [getField_setField, if_pos rfl]
    · exact ih _ hnd.2 h

theorem getField_foldl_origin (acc extra : Fields) (k : String)
    (hne : getField (extra.foldl
      (fun updateData kv =>
        if kv.1 ∈ safeFields then setField updateData kv.1 kv.2 else updateData) acc) k ≠ none) :
    getField acc k ≠ none ∨ (k ∈ safeFields ∧ ∃ v, (k, v) ∈ extra) := by
  induction extra generalizing acc with
  | nil => exact Or.inl hne
  | cons kv rest ih =>
    rw [List.foldl_cons] at hne
    rcases ih _ hne with h | ⟨hs, v, hv⟩
    · split at h
      · rename_i hs
        rw [getField_setField] at h
        by_cases hk : k = kv.1
        · exact Or.inr ⟨hk ▸ hs, kv.2, by rw [hk]; exact List.mem_cons_self _ _⟩
        · rw [if_neg hk] at h
          exact Or.inl h
      · exact Or.inl h
    · exact Or.inr ⟨hs, v, List.mem_cons_of_mem _ hv⟩

theorem status_not_safe : "status" ∉ safeFields := by decide

theorem getField_buildUpdateData_status (status : String) (extra : Fields) :
    getField (buildUpdateData status extra) "status" = some (.str status) := by
  unfold buildUpdateData
  rw [getField_foldl_of_not_safe _ _ _ status_not_safe]
  rfl

/-! ### The two-tier write of `updateTaskStatus` -/

theorem updateTaskStatus_of_accept (env : Env) (recordId status : String)
    (additionalFields : Fields) (h : Trace)
    (hp : env.patch h recordId (buildUpdateData status additionalFields) = none) :
    updateTaskStatus env recordId status additionalFields h =
      (.ok (), [firstWrite env recordId status additionalFields h]) := by
  simp only [updateTaskStatus, firstWrite, hp]

theorem updateTaskStatus_of_reject (env : Env) (recordId status : String)
    (additionalFields : Fields) (h : Trace) (error : JsError)
    (hp : env.patch h recordId (buildUpdateData status additionalFields) = some error)
    (hs : error.responseStatus ≠ some 422) :
    updateTaskStatus env recordId status additionalFields h =
      (.error error, [firstWrite env recordId status additionalFields h]) := by
  simp only [updateTaskStatus, firstWrite, hp, if_neg hs]

theorem updateTaskStatus_of_retry (env : Env) (recordId status : String)
    (additionalFields : Fields) (h : Trace) (error : JsError)
    (hp : env.patch h recordId (buildUpdateData status additionalFields) = some error)
    (hs : error.responseStatus = some 422) :
    updateTaskStatus env recordId status additionalFields h =
      (outcomeOf (env.patch (h ++ [firstWrite env recordId status additionalFields h]) recordId
          [("status", FieldValue.str status)]),
        [firstWrite env recordId status additionalFields h,
          retryWrite env recordId status additionalFields h]) := by
  simp only [updateTaskStatus, firstWrite, retryWrite, hp, if_pos hs]
  cases env.patch (h ++ [Event.patch recordId (buildUpdateData status additionalFields)
    (some error)]) recordId [("status", FieldValue.str status)] <;> rfl

/-- C7: every call of `updateTaskStatus` issues either the first write alone or the
first write followed by one status-only write to the same record, so at most two
writes; the second write is issued exactly when the first one failed with HTTP status
422; when it is issued the call returns normally if it succeeds and raises its error if
it fails; when it is not issued the call returns normally if the first write succeeded
and raises the first write's error otherwise. -/
theorem updateTaskStatus_two_tier (env : Env) (recordId status : String) (additionalFields : Fields) (h : Trace) :
    ((updateTaskStatus env recordId status additionalFields h).2 =
        [firstWrite env recordId status additionalFields h] ∨
      (updateTaskStatus env recordId status additionalFields h).2 =
        [firstWrite env recordId status additionalFields h,
          retryWrite env recordId status additionalFields h]) ∧
    ((updateTaskStatus env recordId status additionalFields h).2 =
        [firstWrite env recordId status additionalFields h,
          retryWrite env recordId status additionalFields h] ↔
      ∃ error, env.patch h recordId (buildUpdateData status additionalFields) = some error ∧
        error.responseStatus = some 422) ∧
    ((updateTaskStatus env recordId status additionalFields h).2 =
        [firstWrite env recordId status additionalFields h,
          retryWrite env recordId status additionalFields h] →
      (updateTaskStatus env recordId status additionalFields h).1 =
        outcomeOf (env.patch (h ++ [firstWrite env recordId status additionalFields h])
          recordId [("status", FieldValue.str status)])) ∧
    ((updateTaskStatus env recordId status additionalFields h).2 =
        [firstWrite env recordId status additionalFields h] →
      (updateTaskStatus env recordId status additionalFields h).1 =
        outcomeOf (env.patch h recordId (buildUpdateData status additionalFields))) := by
  cases hp : env.patch h recordId (buildUpdateData status additionalFields) with
  | none =>
    rw [updateTaskStatus_of_accept env recordId status additionalFields h hp]
    simp [outcomeOf]
  | some error =>
    by_cases hs : error.responseStatus = some 422
    · rw [updateTaskStatus_of_retry env recordId status additionalFields h error hp hs]
      simp [hs]
    · rw [updateTaskStatus_of_reject env recordId status additionalFields h error hp hs]
      simp [outcomeOf, hs]

theorem head_updateTaskStatus (env : Env) (recordId status : String)
    (additionalFields : Fields) (h : Trace) :
    (updateTaskStatus env recordId status additionalFields h).2.head? =
      some (firstWrite env recordId status additionalFields h) := by
  cases hp : env.patch h recordId (buildUpdateData status additionalFields) with
  | none => rw [updateTaskStatus_of_accept env recordId status additionalFields h hp]; rfl
  | some error =>
    by_cases hs : error.responseStatus = some 422
    · rw [updateTaskStatus_of_retry env recordId status additionalFields h error hp hs]; rfl
    · rw [updateTaskStatus_of_reject env recordId status additionalFields h error hp hs]; rfl

theorem getField_status_cons (status : String) (rest : Fields) (k : String)
    (hk : k ≠ "status") :
    getField (("status", FieldValue.str status) :: rest) k = getField rest k := by
  have hb : (k == "status") = false := beq_eq_false_iff_ne.2 hk
  simp [getField, List.lookup, hb]

/-- C6: for every status and every object of additional fields (its keys distinct, as
in every JavaScript object), the first write of `updateTaskStatus` goes to the given
record and its payload has `status` equal to the given status, also when the
additional fields hold a key `status`; it holds every additional field whose key is in
the allow-list with the given value; and it holds no other key. -/
theorem updateTaskStatus_first_payload (env : Env) (recordId status : String) (additionalFields : Fields) (h : Trace)
    (hkeys : (additionalFields.map Prod.fst).Nodup) :
    ∃ payload failure,
      (updateTaskStatus env recordId status additionalFields h).2.head? =
        some (Event.patch recordId payload failure) ∧
      getField payload "status" = some (.str status) ∧
      (∀ k v, (k, v) ∈ additionalFields → k ∈ safeFields → getField payload k = some v) ∧
      (∀ k, getField payload k ≠ none →
        k = "status" ∨ (k ∈ safeFields ∧ ∃ v, (k, v) ∈ additionalFields)) := by
  refine ⟨buildUpdateData status additionalFields,
    env.patch h recordId (buildUpdateData status additionalFields),
    head_updateTaskStatus env recordId status additionalFields h,
    getField_buildUpdateData_status _ _, ?_, ?_⟩
  · intro k v hmem hk
    exact getField_foldl_of_mem _ _ _ _ hkeys hmem hk
  · intro k hne
    rcases getField_foldl_origin _ _ _ hne with h0 | h1
    · left
      by_contra hk
      apply h0
      rw [getField_status_cons _ _ _ hk]
      rfl
    · exact Or.inr h1

/-- C6 at a concrete call: additional fields with a `status` key, an allowed key and a
key outside the allow-list. -/
theorem updateTaskStatus_first_payload_witness :
    ∃ payload failure,
      (updateTaskStatus acceptingEnv "rec1" "done"
        [("status", .str "new"), ("last_error", .str "boom"), ("notes", .str "x")] []).2.head? =
        some (Event.patch "rec1" payload failure) ∧
      getField payload "status" = some (.str "done") ∧
      (∀ k v, (k, v) ∈ ([("status", .str "new"), ("last_error", .str "boom"), ("notes", .str "x")] : Fields) → k ∈ safeFields → getField payload k = some v) ∧
      (∀ k, getField payload k ≠ none →
        k = "status" ∨ (k ∈ safeFields ∧ ∃ v, (k, v) ∈ ([("status", .str "new"), ("last_error", .str "boom"), ("notes", .str "x")] : Fields))) :=
  updateTaskStatus_first_payload acceptingEnv "rec1" "done" _ [] (by decide)

/-! ### The stored status under a sequence of updates -/

theorem keys_setField (o : Fields) (key : String) (value : FieldValue) :
    (setField o key value).map Prod.fst =
      if key ∈ o.map Prod.fst then o.map Prod.fst else o.map Prod.fst ++ [key] := by
  induction o with
  | nil => simp [setField]
  | cons kv rest ih =>
    obtain ⟨k1, v1⟩ := kv
    by_cases h1 : k1 = key
    · simp [setField, h1]
    · have h2 : ¬ key = k1 := fun h => h1 h.symm
      simp only [setField, h1, if_false, List.map_cons, ih, List.mem_cons, h2, false_or]
      split <;> simp

theorem nodup_keys_setField (o : Fields) (key : String) (value : FieldValue)
    (ho : (o.map Prod.fst).Nodup) : ((setField o key value).map Prod.fst).Nodup := by
  rw [keys_setField]
  split
  · exact ho
  · rename_i hk
    rw [List.nodup_append]
    refine ⟨ho, List.nodup_singleton _, ?_⟩
    intro a ha hb
    rw [List.mem_singleton] at hb
    exact hk (hb ▸ ha)

theorem nodup_keys_buildUpdateData (status : String) (additionalFields : Fields) :
    ((buildUpdateData status additionalFields).map Prod.fst).Nodup := by
  unfold buildUpdateData
  have key : ∀ (extra acc : Fields), (acc.map Prod.fst).Nodup →
      ((extra.foldl
        (fun updateData kv =>
          if kv.1 ∈ safeFields then setField updateData kv.1 kv.2 else updateData)
        acc).map Prod.fst).Nodup := by
    intro extra
    induction extra with
    | nil => intro acc hacc; exact hacc
    | cons kv rest ih =>
      intro acc hacc
      rw [List.foldl_cons]
      apply ih
      split
      · exact nodup_keys_setField _ _ _ hacc
      · exact hacc
  exact key _ _ (by simp)

theorem getField_mergeFields_of_not_key (stored written : Fields) (k : String)
    (hk : k ∉ written.map Prod.fst) :
    getField (mergeFields stored written) k = getField stored k := by
  unfold mergeFields
  induction written generalizing stored with
  | nil => rfl
  | cons kv rest ih =>
    simp only [List.map_cons, List.mem_cons, not_or] at hk
    rw [List.foldl_cons, ih _ hk.2, getField_setField, if_neg hk.1]

theorem getField_mergeFields_of_written (stored written : Fields) (k : String)
    (v : FieldValue) (hnd : (written.map Prod.fst).Nodup)
    (hv : getField written k = some v) :
    getField (mergeFields stored written) k = some v := by
  induction written generalizing stored with
  | nil => simp [getField] at hv
  | cons kv rest ih =>
    obtain ⟨k1, v1⟩ := kv
    simp only [List.map_cons, List.nodup_cons] at hnd
    by_cases hk : k = k1
    · subst hk
      have hv1 : v1 = v := by simpa [getField, List.lookup] using hv
      have hstep : mergeFields stored ((k, v1) :: rest) =
          mergeFields (setField stored k v1) rest := rfl
      rw [hstep, getField_mergeFields_of_not_key _ _ _ hnd.1, getField_setField, if_pos rfl, hv1]
    · have hb : (k == k1) = false := beq_eq_false_iff_ne.2 hk
      have hv2 : getField rest k = some v := by
        simpa [getField, List.lookup, hb] using hv
      have hstep : mergeFields stored ((k1, v1) :: rest) =
          mergeFields (setField stored k1 v1) rest := rfl
      rw [hstep]
      exact ih _ hnd.2 hv2

theorem getField_mergeFields_status (stored : Fields) (status : String)
    (additionalFields : Fields) :
    getField (mergeFields stored (buildUpdateData status additionalFields)) "status" =
      some (.str status) :=
  getField_mergeFields_of_written _ _ _ _ (nodup_keys_buildUpdateData _ _)
    (getField_buildUpdateData_status _ _)

theorem storedFields_append (recordId : String) (stored : Fields) (a b : Trace) :
    storedFields recordId stored (a ++ b) =
      storedFields recordId (storedFields recordId stored a) b := by
  simp [storedFields, List.foldl_append]

theorem runUpdates_append (env : Env) (recordId : String) (c1 c2 : List (String × Fields))
    (h : Trace) :
    runUpdates env recordId (c1 ++ c2) h =
      runUpdates env recordId c1 h ++
        runUpdates env recordId c2 (h ++ runUpdates env recordId c1 h) := by
  induction c1 generalizing h with
  | nil => simp [runUpdates]
  | cons c rest ih =>
    obtain ⟨s, x⟩ := c
    show (updateTaskStatus env recordId s x h).2 ++
        runUpdates env recordId (rest ++ c2) (h ++ (updateTaskStatus env recordId s x h).2) = _
    rw [ih]
    simp only [runUpdates, List.append_assoc]

/-- C4, as the code behaves: `updateTaskStatus` never reads the stored status and has
no guard for terminal states.  With a store that accepts every write, after every
sequence of calls the stored status is the status passed to the last call, whatever
was stored before it, `done` and `error` included. -/
theorem updateTaskStatus_last_write_wins (env : Env) (haccept : ∀ h recordId fields, env.patch h recordId fields = none)
    (recordId : String) (stored : Fields) (calls : List (String × Fields))
    (status : String) (additionalFields : Fields) (h : Trace) :
    getField (storedFields recordId stored
      (runUpdates env recordId (calls ++ [(status, additionalFields)]) h)) "status" =
      some (.str status) := by
  rw [runUpdates_append, storedFields_append]
  simp only [runUpdates, List.append_nil]
  rw [updateTaskStatus_of_accept env recordId status additionalFields _ (haccept _ _ _)]
  simp only [storedFields, firstWrite, haccept, List.foldl_cons, List.foldl_nil, if_true]
  exact getField_mergeFields_status _ _ _

/-- C4 as amended, at a concrete sequence. -/
theorem updateTaskStatus_last_write_wins_witness :
    getField (storedFields "rec1" [("status", .str "new")]
      (runUpdates acceptingEnv "rec1" ([("in_progress", []), ("done", [])] ++ [("in_progress", [])]) [])) "status" =
      some (.str "in_progress") :=
  updateTaskStatus_last_write_wins acceptingEnv (fun _ _ _ => rfl) "rec1" _ _ "in_progress" [] []

/-- C4 refuted as stated: with an accepting store, after the calls `in_progress`,
`done` the stored status is the terminal `done`, and a further call with
`in_progress` changes it to `in_progress`. -/
theorem terminal_status_overwritten :
    isTerminal (getField (storedFields "rec1" [("status", .str "new")]
      (runUpdates acceptingEnv "rec1" [("in_progress", []), ("done", [])] [])) "status") = true ∧
    getField (storedFields "rec1" [("status", .str "new")]
      (runUpdates acceptingEnv "rec1" [("in_progress", []), ("done", []), ("in_progress", [])] []))
        "status" = some (.str "in_progress") := by
  decide

/-! ### The status writes of `routeTask` -/

theorem statusWrites_append (a b : Trace) :
    statusWrites (a ++ b) = statusWrites a ++ statusWrites b := by
  simp [statusWrites, List.filterMap_append]

theorem statusWrites_logExecution (env : Env) (taskRecordId agentUsed : String)
    (executionData : ExecutionData) (h : Trace) :
    statusWrites (logExecution env taskRecordId agentUsed executionData h) = [] := by
  simp [statusWrites, logExecution, List.filterMap_cons]

theorem statusWrites_routeToSuperChase (env : Env) (taskId : String) (payload : Json)
    (systemTarget agent : String) (h : Trace) :
    statusWrites (routeToSuperChase env taskId payload systemTarget agent h).2 = [] := by
  unfold routeToSuperChase
  split
  · rfl
  · simp only
    split <;> simp [statusWrites, List.filterMap_cons]

theorem statusWrites_of_routeToSuperChase {env : Env} {taskId : String} {payload : Json}
    {systemTarget agent : String} {h : Trace} {res : Except JsError RouteResult} {r : Trace}
    (hR : routeToSuperChase env taskId payload systemTarget agent h = (res, r)) :
    statusWrites r = [] := by
  have := statusWrites_routeToSuperChase env taskId payload systemTarget agent h
  rw [hR] at this
  exact this

theorem statusWrites_clock (ms : ℤ) : statusWrites [Event.clock ms] = [] := rfl

theorem statusWrites_updateTaskStatus (env : Env) (recordId status : String)
    (additionalFields : Fields) (h : Trace) :
    (∀ w, updateTaskStatus env recordId status additionalFields h = (.ok (), w) →
      Attempts status true (statusWrites w)) ∧
    (∀ error w, updateTaskStatus env recordId status additionalFields h = (.error error, w) →
      Attempts status false (statusWrites w)) := by
  have hst := getField_buildUpdateData_status status additionalFields
  have hso : getField [("status", FieldValue.str status)] "status" =
      some (FieldValue.str status) := rfl
  cases hp : env.patch h recordId (buildUpdateData status additionalFields) with
  | none =>
    rw [updateTaskStatus_of_accept env recordId status additionalFields h hp]
    refine ⟨?_, ?_⟩
    · rintro w ⟨⟩
      exact ⟨0, by simp [statusWrites, firstWrite, hp, hst]⟩
    · intro error w hw
      simp at hw
  | some error =>
    by_cases hs : error.responseStatus = some 422
    · rw [updateTaskStatus_of_retry env recordId status additionalFields h error hp hs]
      cases hp2 : env.patch (h ++ [firstWrite env recordId status additionalFields h]) recordId
          [("status", FieldValue.str status)] with
      | none =>
        have hp3 := hp2
        simp only [firstWrite, hp] at hp3
        refine ⟨?_, ?_⟩
        · rintro w ⟨⟩
          exact ⟨1, by simp [statusWrites, firstWrite, retryWrite, hp, hp3, hst, hso]⟩
        · intro e w hw
          simp [outcomeOf] at hw
      | some e2 =>
        have hp3 := hp2
        simp only [firstWrite, hp] at hp3
        refine ⟨?_, ?_⟩
        · intro w hw
          simp [outcomeOf] at hw
        · rintro e w ⟨⟩
          exact ⟨2, by simp [statusWrites, firstWrite, retryWrite, hp, hp3, hst, hso, List.replicate]⟩
    · rw [updateTaskStatus_of_reject env recordId status additionalFields h error hp hs]
      refine ⟨?_, ?_⟩
      · intro w hw
        simp at hw
      · rintro e w ⟨⟩
        exact ⟨1, by simp [statusWrites, firstWrite, hp, hst]⟩

theorem statusWrites_routeTaskTry (env : Env) (taskRecord : TaskRecord) (systemTarget assignedAgent : String)
    (startTime : ℤ) (h : Trace) :
    (∀ t, routeTaskTry env taskRecord systemTarget assignedAgent startTime h = (.ok (), t) →
      ∃ a d, statusWrites t = a ++ d ∧ Attempts "in_progress" true a ∧ Attempts "done" true d) ∧
    (∀ error t,
      routeTaskTry env taskRecord systemTarget assignedAgent startTime h = (.error error, t) →
      Attempts "in_progress" false (statusWrites t) ∨
      ∃ a d, statusWrites t = a ++ d ∧ Attempts "in_progress" true a ∧
        Attempts "done" false d) := by
  simp only [routeTaskTry]
  split
  · rename_i error w hU
    have hA := (statusWrites_updateTaskStatus _ _ _ _ _).2 _ _ hU
    refine ⟨?_, ?_⟩
    · intro t ht
      simp at ht
    · rintro e t ⟨⟩
      left
      simpa only [statusWrites_append, statusWrites_clock, List.nil_append] using hA
  · rename_i w hU
    have hA := (statusWrites_updateTaskStatus _ _ _ _ _).1 _ hU
    split
    · rename_i error r hR
      have hr := statusWrites_of_routeToSuperChase hR
      refine ⟨?_, ?_⟩
      · intro t ht
        simp at ht
      · rintro e t ⟨⟩
        right
        refine ⟨_, [], ?_, hA, ⟨0, by simp⟩⟩
        simp only [statusWrites_append, statusWrites_clock, hr, List.nil_append, List.append_nil]
    · rename_i result r hR
      have hr := statusWrites_of_routeToSuperChase hR
      split
      · rename_i error d hD
        have hB := (statusWrites_updateTaskStatus _ _ _ _ _).2 _ _ hD
        refine ⟨?_, ?_⟩
        · intro t ht
          simp at ht
        · rintro e t ⟨⟩
          right
          refine ⟨_, _, ?_, hA, hB⟩
          simp only [statusWrites_append, statusWrites_clock, hr, statusWrites_logExecution,
            List.nil_append, List.append_nil]
      · rename_i d hD
        have hB := (statusWrites_updateTaskStatus _ _ _ _ _).1 _ hD
        refine ⟨?_, ?_⟩
        · rintro t ⟨⟩
          refine ⟨_, _, ?_, hA, hB⟩
          simp only [statusWrites_append, statusWrites_clock, hr, statusWrites_logExecution,
            List.nil_append, List.append_nil]
        · intro e t ht
          simp at ht

theorem statusWrites_routeTaskCatch (env : Env) (taskRecord : TaskRecord) (assignedAgent : String)
    (startTime : ℤ) (error : JsError) (h : Trace) :
    ∃ b, Attempts "error" b
      (statusWrites (routeTaskCatch env taskRecord assignedAgent startTime error h).2) := by
  simp only [routeTaskCatch]
  split
  · rename_i raised w hU
    exact ⟨false, by
      simpa only [statusWrites_append, statusWrites_clock, List.nil_append] using
        (statusWrites_updateTaskStatus _ _ _ _ _).2 _ _ hU⟩
  · rename_i w hU
    exact ⟨true, by
      simpa only [statusWrites_append, statusWrites_clock, statusWrites_logExecution,
        List.nil_append, List.append_nil] using
        (statusWrites_updateTaskStatus _ _ _ _ _).1 _ hU⟩

/-- The status writes of `routeTask`, by the way the run went. -/
theorem statusWrites_routeTask (env : Env) (taskRecord : TaskRecord) (h : Trace) :
    (∃ a d, statusWrites (routeTask env taskRecord h).2 = a ++ d ∧
      Attempts "in_progress" true a ∧ Attempts "done" true d) ∨
    (∃ a d c b, statusWrites (routeTask env taskRecord h).2 = a ++ d ++ c ∧
      Attempts "in_progress" true a ∧ Attempts "done" false d ∧ Attempts "error" b c) ∨
    (∃ a c b, statusWrites (routeTask env taskRecord h).2 = a ++ c ∧
      Attempts "in_progress" false a ∧ Attempts "error" b c) := by
  simp only [routeTask]
  split
  · rename_i t hT
    obtain ⟨a, d, had, ha, hd⟩ := (statusWrites_routeTaskTry _ _ _ _ _ _).1 _ hT
    left
    exact ⟨a, d, by simp only [statusWrites_append, statusWrites_clock, had, List.nil_append], ha, hd⟩
  · rename_i error t hT
    obtain ⟨b, hc⟩ := statusWrites_routeTaskCatch env taskRecord (resolveAssignment taskRecord.fields).2
      (env.now h) error (h ++ [Event.clock (env.now h)] ++ t)
    rcases (statusWrites_routeTaskTry _ _ _ _ _ _).2 _ _ hT with ha | ⟨a, d, had, ha, hd⟩
    · right; right
      exact ⟨_, _, b, by simp only [statusWrites_append, statusWrites_clock, List.nil_append], ha, hc⟩
    · right; left
      exact ⟨a, d, _, b, by simp only [statusWrites_append, statusWrites_clock, had, List.nil_append], ha, hd, hc⟩

theorem Attempts.status_eq {s : String} {b : Bool} {l : List (Option FieldValue × Bool)}
    (hl : Attempts s b l) : ∀ x ∈ l, x.1 = some (FieldValue.str s) := by
  obtain ⟨n, rfl⟩ := hl
  intro x hx
  rw [List.mem_append] at hx
  rcases hx with hx | hx
  · rw [List.eq_of_mem_replicate hx]
  · cases b
    · simp at hx
    · simp at hx
      rw [hx]

theorem Attempts.accepted {s : String} {b : Bool} {l : List (Option FieldValue × Bool)}
    (hl : Attempts s b l) :
    l.filterMap (fun w => if w.2 then some w.1 else none) =
      if b then [some (FieldValue.str s)] else [] := by
  obtain ⟨n, rfl⟩ := hl
  have hrep : (List.replicate n (some (FieldValue.str s), false)).filterMap
      (fun w => if w.2 then some w.1 else none) = [] := by
    induction n with
    | zero => rfl
    | succ n ih => simp [List.replicate_succ, List.filterMap_cons, ih]
  rw [List.filterMap_append, hrep]
  cases b <;> simp

/-- In a list that starts with the writes of an accepted `in_progress` update, a write
of another status stands after the accepted `in_progress` write. -/
theorem accepted_before (a rest : List (Option FieldValue × Bool))
    (ha : Attempts "in_progress" true a) (i : ℕ) (b : Bool)
    (hi : (a ++ rest)[i]? = some (some (FieldValue.str "done"), b)) :
    ∃ j, j < i ∧ (a ++ rest)[j]? = some (some (FieldValue.str "in_progress"), true) := by
  have hst := ha.status_eq
  obtain ⟨n, rfl⟩ := ha
  refine ⟨n, ?_, ?_⟩
  · by_contra hlt
    have hlen : i < (List.replicate n (some (FieldValue.str "in_progress"), false) ++
        if true = true then [(some (FieldValue.str "in_progress"), true)] else []).length := by
      simp; omega
    rw [List.getElem?_append_left hlen] at hi
    have hmem := List.getElem?_mem hi
    have := hst _ hmem
    simp at this
  · have hlen : (List.replicate n (some (FieldValue.str "in_progress"), false)).length ≤ n := by
      simp
    simp only [if_true, List.append_assoc]
    rw [List.getElem?_append_right hlen]
    simp

/-- C5, as the code behaves: in every execution of `routeTask`, for all outcomes of the
collaborators, the statuses of the writes that the store accepted form one of the
sequences (none), `in_progress`, `in_progress, done`, `in_progress, error` or `error`
alone, and every write of status `done` is issued after an accepted write of status
`in_progress`.  A write of status `error` is not bound in that way: the `catch` block
issues it also when the `in_progress` write failed. -/
theorem routeTask_status_writes (env : Env) (taskRecord : TaskRecord) (h : Trace) :
    acceptedStatuses (routeTask env taskRecord h).2 ∈
      [[], [some (FieldValue.str "in_progress")],
        [some (FieldValue.str "in_progress"), some (FieldValue.str "done")],
        [some (FieldValue.str "in_progress"), some (FieldValue.str "error")],
        [some (FieldValue.str "error")]] ∧
    ∀ (i : ℕ) (b : Bool), (statusWrites (routeTask env taskRecord h).2)[i]? =
        some (some (FieldValue.str "done"), b) →
      ∃ j, j < i ∧ (statusWrites (routeTask env taskRecord h).2)[j]? =
        some (some (FieldValue.str "in_progress"), true) := by
  unfold acceptedStatuses
  rcases statusWrites_routeTask env taskRecord h with
    ⟨a, d, heq, ha, hd⟩ | ⟨a, d, c, b, heq, ha, hd, hc⟩ | ⟨a, c, b, heq, ha, hc⟩
  · rw [heq]
    constructor
    · rw [List.filterMap_append, ha.accepted, hd.accepted]
      simp
    · intro i b hi
      exact accepted_before a d ha i b hi
  · rw [heq]
    constructor
    · rw [List.filterMap_append, List.filterMap_append, ha.accepted, hd.accepted, hc.accepted]
      cases b <;> simp
    · intro i b' hi
      rw [List.append_assoc] at hi ⊢
      exact accepted_before a (d ++ c) ha i b' hi
  · rw [heq]
    constructor
    · rw [List.filterMap_append, ha.accepted, hc.accepted]
      cases b <;> simp
    · intro i b' hi
      exfalso
      have hmem := List.getElem?_mem hi
      rw [List.mem_append] at hmem
      rcases hmem with hm | hm
      · have := ha.status_eq _ hm
        simp at this
      · have := hc.status_eq _ hm
        simp at this

/-- C5 refuted as stated: when the store answers 500 to the `in_progress` write and
accepts the rest, `routeTask` issues the `in_progress` write, which fails, and then a
write of status `error`, which is accepted: an `error` write without a successful
`in_progress` write, taking the item from queued to error. -/
theorem routeTask_error_write_without_in_progress :
    statusWrites (routeTask rejectInProgressEnv (mkTask "rec1" none) []).2 =
      [(some (FieldValue.str "in_progress"), false), (some (FieldValue.str "error"), true)] := by
  decide

/-! ### The batch loop of `startPolling` -/

theorem processTasks_cons_ok (env : Env) (task : TaskRecord) (rest : List TaskRecord)
    (h t : Trace) (hT : routeTask env task h = (.ok (), t)) :
    processTasks env (task :: rest) h =
      ((processTasks env rest (h ++ (t ++ [Event.sleep 1000]))).1,
        t ++ [Event.sleep 1000] ++ (processTasks env rest (h ++ (t ++ [Event.sleep 1000]))).2) := by
  simp only [processTasks, hT]

theorem processTasks_cons_error (env : Env) (task : TaskRecord) (rest : List TaskRecord)
    (h t : Trace) (error : JsError) (hT : routeTask env task h = (.error error, t)) :
    processTasks env (task :: rest) h = (.error error, t) := by
  simp only [processTasks, hT]

theorem processTasks_append (env : Env) (pre rest : List TaskRecord) (h : Trace)
    (hpre : (processTasks env pre h).1 = .ok ()) :
    processTasks env (pre ++ rest) h =
      ((processTasks env rest (h ++ (processTasks env pre h).2)).1,
        (processTasks env pre h).2 ++
          (processTasks env rest (h ++ (processTasks env pre h).2)).2) := by
  induction pre generalizing h with
  | nil => simp [processTasks]
  | cons task pre ih =>
    rcases hT : routeTask env task h with ⟨res, t⟩
    cases res with
    | error error =>
      rw [processTasks_cons_error env task pre h t error hT] at hpre
      simp at hpre
    | ok u =>
      cases u
      rw [processTasks_cons_ok env task pre h t hT] at hpre ⊢
      simp only at hpre
      rw [List.cons_append, processTasks_cons_ok env task (pre ++ rest) h t hT, ih _ hpre]
      simp only [List.append_assoc]

theorem processTasks_raise (env : Env) (task : TaskRecord) (rest : List TaskRecord) (h : Trace)
    (error : JsError) (hraise : (routeTask env task h).1 = .error error) :
    processTasks env (task :: rest) h = (.error error, (routeTask env task h).2) := by
  rcases hT : routeTask env task h with ⟨res, t⟩
  rw [hT] at hraise
  simp only at hraise
  rw [hraise] at hT
  rw [processTasks_cons_error env task rest h t error hT]

/-- C8, as the code behaves: when `routeTask` raises on an item of the sorted batch
(the items before it having been processed normally), the `for` loop is left at that
item.  The turn of the polling loop then consists of the fetch, the events of the
items before it, the events of that item and the poll-interval wait: no later item of
the batch is processed in that cycle.  The error is caught by the `catch` around the
turn, so the polling loop itself goes on. -/
theorem pollCycle_stops_at_raising_item (env : Env) (pollInterval : ℕ) (h : Trace) (records pre rest : List TaskRecord)
    (task : TaskRecord) (error : JsError)
    (hfetch : env.getRecords h = .ok records)
    (hbatch : sortByPriority records = pre ++ task :: rest)
    (hpre : (processTasks env pre (h ++ [Event.fetch (some records)])).1 = .ok ())
    (hraise : (routeTask env task
      (h ++ [Event.fetch (some records)] ++
        (processTasks env pre (h ++ [Event.fetch (some records)])).2)).1 = .error error) :
    pollCycle env pollInterval h =
      [Event.fetch (some records)] ++
        (processTasks env pre (h ++ [Event.fetch (some records)])).2 ++
        (routeTask env task
          (h ++ [Event.fetch (some records)] ++
            (processTasks env pre (h ++ [Event.fetch (some records)])).2)).2 ++
        [Event.sleep pollInterval] := by
  have hlen : 0 < records.length := by
    have := (sortByPriority_perm records).length_eq
    rw [hbatch] at this
    simp at this
    omega
  simp only [pollCycle, getNewTasks, hfetch, gt_iff_lt, hlen, if_true, hbatch]
  rw [processTasks_append env pre (task :: rest) _ hpre,
    processTasks_raise env task rest _ error (by simpa using hraise)]
  simp

/-- C8 as amended, at a concrete batch: the store rejects every write, item `a` raises
and the turn ends without touching item `b`. -/
theorem pollCycle_stops_at_raising_item_witness :
    pollCycle rejectAllEnv 30000 [] =
      [Event.fetch (some [mkTask "a" none, mkTask "b" none])] ++
        (processTasks rejectAllEnv [] ([] ++ [Event.fetch (some [mkTask "a" none, mkTask "b" none])])).2 ++
        (routeTask rejectAllEnv (mkTask "a" none)
          ([] ++ [Event.fetch (some [mkTask "a" none, mkTask "b" none])] ++
            (processTasks rejectAllEnv [] ([] ++ [Event.fetch (some [mkTask "a" none, mkTask "b" none])])).2)).2 ++
        [Event.sleep 30000] :=
  pollCycle_stops_at_raising_item rejectAllEnv 30000 [] [mkTask "a" none, mkTask "b" none] [] [mkTask "b" none]
    (mkTask "a" none) { message := "Request failed with status code 500", responseStatus := some 500 }
    rfl (by decide) rfl rfl

/-- C8 refuted as stated: with a store that rejects every write and the batch
`[a, b]`, `routeTask` raises on `a`, and the whole turn of the polling loop issues
writes for `a` only and never calls the executor: item `b` is not processed in that
cycle. -/
theorem pollCycle_skips_later_items :
    (routeTask rejectAllEnv (mkTask "a" none) [Event.fetch (some [mkTask "a" none, mkTask "b" none])]).1 =
      .error { message := "Request failed with status code 500", responseStatus := some 500 } ∧
    patchedIds (pollCycle rejectAllEnv 30000 []) = ["a", "a"] ∧
    (execCalls (pollCycle rejectAllEnv 30000 [])).length = 0 := by
  refine ⟨rfl, by decide, by decide⟩

/-! ### The executor call of `routeTask` -/

theorem execCalls_append (a b : Trace) : execCalls (a ++ b) = execCalls a ++ execCalls b := by
  simp [execCalls, List.filterMap_append]

theorem execCalls_clock (ms : ℤ) : execCalls [Event.clock ms] = [] := rfl

theorem execCalls_logExecution (env : Env) (taskRecordId agentUsed : String)
    (executionData : ExecutionData) (h : Trace) :
    execCalls (logExecution env taskRecordId agentUsed executionData h) = [] := by
  simp [execCalls, logExecution, List.filterMap_cons]

theorem execCalls_updateTaskStatus (env : Env) (recordId status : String)
    (additionalFields : Fields) (h : Trace) :
    execCalls (updateTaskStatus env recordId status additionalFields h).2 = [] := by
  cases hp : env.patch h recordId (buildUpdateData status additionalFields) with
  | none => rw [updateTaskStatus_of_accept env recordId status additionalFields h hp]; rfl
  | some error =>
    by_cases hs : error.responseStatus = some 422
    · rw [updateTaskStatus_of_retry env recordId status additionalFields h error hp hs]; rfl
    · rw [updateTaskStatus_of_reject env recordId status additionalFields h error hp hs]; rfl

theorem execCalls_of_updateTaskStatus {env : Env} {recordId status : String}
    {additionalFields : Fields} {h : Trace} {res : Except JsError Unit} {w : Trace}
    (hU : updateTaskStatus env recordId status additionalFields h = (res, w)) :
    execCalls w = [] := by
  have := execCalls_updateTaskStatus env recordId status additionalFields h
  rw [hU] at this
  exact this

theorem execCalls_routeToSuperChase (env : Env) (taskId : String) (payload : Json)
    (systemTarget agent : String) (h : Trace) :
    execCalls (routeToSuperChase env taskId payload systemTarget agent h).2 =
      ((buildTaskData taskId payload systemTarget agent).map Prod.snd).toList := by
  unfold routeToSuperChase
  split
  · rename_i hb
    rw [hb]; rfl
  · rename_i goal taskData hb
    rw [hb]
    simp only
    split <;> simp [execCalls, List.filterMap_cons]

theorem execCalls_of_routeToSuperChase {env : Env} {taskId : String} {payload : Json}
    {systemTarget agent : String} {h : Trace} {res : Except JsError RouteResult} {r : Trace}
    (hR : routeToSuperChase env taskId payload systemTarget agent h = (res, r)) :
    execCalls r = ((buildTaskData taskId payload systemTarget agent).map Prod.snd).toList := by
  have := execCalls_routeToSuperChase env taskId payload systemTarget agent h
  rw [hR] at this
  exact this

theorem Attempts.not_accepted {s : String} {l : List (Option FieldValue × Bool)}
    (hl : Attempts s false l) : ∀ x ∈ l, x.2 = false := by
  obtain ⟨n, rfl⟩ := hl
  intro x hx
  simp at hx
  rw [hx.2]

/-- Inside the `try` block the executor is called when the `in_progress` update went
through, with the descriptor built from the payload. -/
theorem execCalls_routeTaskTry (env : Env) (taskRecord : TaskRecord)
    (systemTarget assignedAgent : String) (startTime : ℤ) (h : Trace)
    (hip : (some (FieldValue.str "in_progress"), true) ∈
      statusWrites (routeTaskTry env taskRecord systemTarget assignedAgent startTime h).2) :
    execCalls (routeTaskTry env taskRecord systemTarget assignedAgent startTime h).2 =
      ((buildTaskData taskRecord.fields.task_id
        (parsePayload env (strOr taskRecord.fields.routing_payload ""))
        systemTarget assignedAgent).map Prod.snd).toList := by
  revert hip
  simp only [routeTaskTry]
  split
  · rename_i error w hU
    intro hip
    exfalso
    have hA := (statusWrites_updateTaskStatus _ _ _ _ _).2 _ _ hU
    simp only [statusWrites_append, statusWrites_clock, List.nil_append] at hip
    have := hA.not_accepted _ hip
    simp at this
  · rename_i w hU
    have hw := execCalls_of_updateTaskStatus hU
    split
    · rename_i error r hR
      intro _
      simp only [execCalls_append, execCalls_clock, hw, execCalls_of_routeToSuperChase hR,
        List.nil_append, List.append_nil]
    · rename_i result r hR
      split
      · rename_i error d hD
        intro _
        simp only [execCalls_append, execCalls_clock, hw, execCalls_of_routeToSuperChase hR,
          execCalls_logExecution, execCalls_of_updateTaskStatus hD,
          List.nil_append, List.append_nil]
      · rename_i d hD
        intro _
        simp only [execCalls_append, execCalls_clock, hw, execCalls_of_routeToSuperChase hR,
          execCalls_logExecution, execCalls_of_updateTaskStatus hD,
          List.nil_append, List.append_nil]

theorem execCalls_routeTaskCatch (env : Env) (taskRecord : TaskRecord) (assignedAgent : String)
    (startTime : ℤ) (error : JsError) (h : Trace) :
    execCalls (routeTaskCatch env taskRecord assignedAgent startTime error h).2 = [] := by
  simp only [routeTaskCatch]
  split
  · rename_i raised w hU
    simp only [execCalls_append, execCalls_clock, execCalls_of_updateTaskStatus hU,
      List.nil_append]
  · rename_i w hU
    simp only [execCalls_append, execCalls_clock, execCalls_of_updateTaskStatus hU,
      execCalls_logExecution, List.nil_append, List.append_nil]

/-- When the `in_progress` write of `routeTask` is accepted, the executor is called
with the descriptor built from the record, and only then. -/
theorem execCalls_routeTask (env : Env) (taskRecord : TaskRecord) (h : Trace)
    (hip : (some (FieldValue.str "in_progress"), true) ∈
      statusWrites (routeTask env taskRecord h).2) :
    execCalls (routeTask env taskRecord h).2 = (descriptorOf env taskRecord).toList := by
  revert hip
  simp only [routeTask]
  unfold descriptorOf
  split
  · rename_i t hT
    intro hip
    simp only [statusWrites_append, statusWrites_clock, List.nil_append] at hip
    have := execCalls_routeTaskTry env taskRecord (resolveAssignment taskRecord.fields).1
      (resolveAssignment taskRecord.fields).2 (env.now h) (h ++ [Event.clock (env.now h)])
    rw [hT] at this
    simp only [execCalls_append, execCalls_clock, List.nil_append]
    exact this hip
  · rename_i error t hT
    intro hip
    simp only [statusWrites_append, statusWrites_clock, List.nil_append, List.mem_append] at hip
    have htry := execCalls_routeTaskTry env taskRecord (resolveAssignment taskRecord.fields).1
      (resolveAssignment taskRecord.fields).2 (env.now h) (h ++ [Event.clock (env.now h)])
    rw [hT] at htry
    obtain ⟨b, hc⟩ := statusWrites_routeTaskCatch env taskRecord
      (resolveAssignment taskRecord.fields).2 (env.now h) error
      (h ++ [Event.clock (env.now h)] ++ t)
    have hip2 : (some (FieldValue.str "in_progress"), true) ∈ statusWrites t := by
      rcases hip with hip | hip
      · exact hip
      · exfalso
        have := hc.status_eq _ hip
        simp at this
    simp only [execCalls_append, execCalls_clock, List.nil_append, execCalls_routeTaskCatch,
      List.append_nil]
    exact htry hip2

theorem parsePayload_of_invalid (env : Env) (p : String) (hne : p ≠ "")
    (hparse : env.parse p = none) : parsePayload env p = Json.obj [] := by
  simp [parsePayload, hne, hparse]

theorem strOr_some_of_ne (p d : String) (hne : p ≠ "") : strOr (some p) d = p := by
  simp [strOr, hne]

/-- C9: for every work item whose non-empty routing payload `JSON.parse` rejects, the
parse step of `routeTask` does not raise and leaves the empty object, and, once the
`in_progress` write has been accepted, `routeTask` calls the executor exactly once,
with a task descriptor whose goal is the item's `task_id` and whose deliverables are
`getDefaultDeliverables` of the resolved agent. -/
theorem routeTask_invalid_payload (env : Env) (taskRecord : TaskRecord) (h : Trace) (p : String)
    (hpayload : taskRecord.fields.routing_payload = some p) (hne : p ≠ "")
    (hparse : env.parse p = none)
    (hip : (some (FieldValue.str "in_progress"), true) ∈
      statusWrites (routeTask env taskRecord h).2) :
    parsePayload env (strOr taskRecord.fields.routing_payload "") = Json.obj [] ∧
    ∃ taskData, execCalls (routeTask env taskRecord h).2 = [taskData] ∧
      taskData.goal = Json.str taskRecord.fields.task_id ∧
      taskData.deliverables =
        Json.arr ((getDefaultDeliverables (resolveAssignment taskRecord.fields).2).map
          Json.str) := by
  have hpp : parsePayload env (strOr taskRecord.fields.routing_payload "") = Json.obj [] := by
    rw [hpayload, strOr_some_of_ne p "" hne]
    exact parsePayload_of_invalid env p hne hparse
  refine ⟨hpp, ?_⟩
  rw [execCalls_routeTask env taskRecord h hip]
  unfold descriptorOf
  rw [hpp]
  simp [buildTaskData, Json.getProp, orElse, bind, pure]

/-- C9 at a concrete record with the payload text `not json`. -/
theorem routeTask_invalid_payload_witness :
    parsePayload acceptingEnv (strOr badPayloadTask.fields.routing_payload "") = Json.obj [] ∧
    ∃ taskData, execCalls (routeTask acceptingEnv badPayloadTask []).2 = [taskData] ∧
      taskData.goal = Json.str badPayloadTask.fields.task_id ∧
      taskData.deliverables =
        Json.arr ((getDefaultDeliverables (resolveAssignment badPayloadTask.fields).2).map
          Json.str) :=
  routeTask_invalid_payload acceptingEnv badPayloadTask [] "not json" rfl (by decide) rfl (by decide)

end Poller

namespace JS

/-! ### Lower-casing and splitting -/

theorem toNat_ofNat_of_lt (n : ℕ) (h : n < 0xd800) : (Char.ofNat n).toNat = n := by
  unfold Char.ofNat
  have hv : n.isValidChar := Or.inl h
  simp only [hv, dite_true]
  simp [Char.ofNatAux, Char.toNat, UInt32.toNat]

theorem toLower_toNat (c : Char) :
    c.toLower.toNat = if 65 ≤ c.toNat ∧ c.toNat ≤ 90 then c.toNat + 32 else c.toNat := by
  unfold Char.toLower
  simp only [ge_iff_le]
  split_ifs with h
  · exact toNat_ofNat_of_lt _ (by omega)
  · rfl

theorem toLower_of_not_upper (d : Char) (h : ¬ (65 ≤ d.toNat ∧ d.toNat ≤ 90)) :
    d.toLower = d := by
  unfold Char.toLower
  simp only [ge_iff_le, h, if_false]

theorem toLower_idem (c : Char) : c.toLower.toLower = c.toLower := by
  apply toLower_of_not_upper
  rw [toLower_toNat]
  split_ifs with h <;> omega

theorem eq_of_toNat_eq (c d : Char) (h : c.toNat = d.toNat) : c = d := by
  exact Char.eq_of_val_eq (UInt32.toNat.inj h)

theorem toLower_eq_space (c : Char) : c.toLower = ' ' ↔ c = ' ' := by
  constructor
  · intro h
    have h1 := toLower_toNat c
    rw [h] at h1
    have h3 : (' ' : Char).toNat = 32 := rfl
    rw [h3] at h1
    split_ifs at h1 with h2
    · omega
    · exact eq_of_toNat_eq c ' ' (by rw [h3]; exact h1.symm)
  · rintro rfl; rfl

theorem lowerChars_append (a b : List Char) :
    lowerChars (a ++ b) = lowerChars a ++ lowerChars b := by
  induction a with
  | nil => rfl
  | cons c cs ih =>
    show lowerChar c ++ lowerChars (cs ++ b) = lowerChar c ++ lowerChars cs ++ lowerChars b
    rw [ih, List.append_assoc]

/-- A character whose ASCII lower-casing is an ASCII character is lower-cased by the
ASCII rule. -/
theorem lowerChar_of_ascii (c : Char) (h : c.toLower.toNat < 128) :
    lowerChar c = [c.toLower] := by
  have h1 := toLower_toNat c
  have h2 : c.toNat < 128 := by
    split_ifs at h1 <;> omega
  unfold lowerChar
  rw [if_neg (by omega), if_neg (by omega)]

theorem lowerChars_of_ascii (block : List Char)
    (h : ∀ c ∈ block.map Char.toLower, c.toNat < 128) :
    lowerChars block = block.map Char.toLower := by
  induction block with
  | nil => rfl
  | cons c cs ih =>
    have hc : c.toLower.toNat < 128 := h _ (by simp)
    have hcs : ∀ d ∈ cs.map Char.toLower, d.toNat < 128 := fun d hd => h d (by
      simp only [List.map_cons, List.mem_cons]
      exact Or.inr hd)
    simp only [lowerChars, lowerChar_of_ascii c hc, ih hcs, List.map_cons,
      List.singleton_append]

theorem lowerChar_idem (c : Char) : lowerChars (lowerChar c) = lowerChar c := by
  unfold lowerChar
  split_ifs with h1 h2
  · decide
  · decide
  · have h3 := toLower_toNat c
    have h4 : lowerChar c.toLower = [c.toLower.toLower] := by
      unfold lowerChar
      rw [if_neg, if_neg]
      · split_ifs at h3 <;> omega
      · split_ifs at h3 <;> omega
    simp only [lowerChars, h4, toLower_idem, List.append_nil]

theorem lowerChars_idem (cs : List Char) : lowerChars (lowerChars cs) = lowerChars cs := by
  induction cs with
  | nil => rfl
  | cons c cs ih => simp only [lowerChars, lowerChars_append, lowerChar_idem, ih]

theorem toLowerCase_idem (s : String) : toLowerCase (toLowerCase s) = toLowerCase s := by
  simp only [toLowerCase, lowerChars_idem]

theorem splitSpaceChars_length_pos (cs : List Char) : 0 < (splitSpaceChars cs).length := by
  cases cs with
  | nil => simp [splitSpaceChars]
  | cons c cs =>
    simp only [splitSpaceChars]
    split_ifs
    · simp
    · split <;> simp

theorem splitSpace_length_pos (description : String) :
    0 < (splitSpace description).length := by
  simp only [splitSpace, List.length_map]
  exact splitSpaceChars_length_pos _

/-- The number of pieces of `split(' ')` is the number of blanks plus one. -/
theorem splitSpaceChars_length (cs : List Char) :
    (splitSpaceChars cs).length = cs.count ' ' + 1 := by
  induction cs with
  | nil => rfl
  | cons c cs ih =>
    simp only [splitSpaceChars]
    split_ifs with h
    · subst h
      simp [ih]
    · have hc : (' ' : Char) ≠ c := fun e => h e.symm
      rw [List.count_cons_of_ne hc]
      split
      · rename_i heq
        rw [heq] at ih
        simp at ih
      · rename_i w ws heq
        rw [heq] at ih
        simpa using ih

theorem count_space_lowerChar (c : Char) :
    (lowerChar c).count ' ' = [c].count ' ' := by
  unfold lowerChar
  split_ifs with h1 h2
  · have hc : c ≠ ' ' := by
      rintro rfl
      exact absurd h1 (by decide)
    have h0 : ['k'].count ' ' = 0 := by decide
    rw [h0]
    simp [List.count_singleton, hc]
  · have hc : c ≠ ' ' := by
      rintro rfl
      exact absurd h2 (by decide)
    have h0 : ['i', Char.ofNat 0x307].count ' ' = 0 := by decide
    rw [h0]
    simp [List.count_singleton, hc]
  · by_cases hc : c = ' '
    · subst hc
      rfl
    · have h3 : c.toLower ≠ ' ' := fun e => hc ((toLower_eq_space c).1 e)
      simp [List.count_singleton, hc, h3]

theorem count_space_lowerChars (cs : List Char) :
    (lowerChars cs).count ' ' = cs.count ' ' := by
  induction cs with
  | nil => rfl
  | cons c cs ih =>
    have := count_space_lowerChar c
    simp only [lowerChars, List.count_append, ih, this]
    rw [← List.count_append]
    rfl

theorem splitSpace_length_toLowerCase (s : String) :
    (splitSpace (toLowerCase s)).length = (splitSpace s).length := by
  simp only [splitSpace, toLowerCase, List.length_map, splitSpaceChars_length,
    count_space_lowerChars]

end JS

namespace Server

/-! ### The override of `analyzeTask` -/

theorem includesChars_of_append (pre needle post : List Char) :
    includesChars (pre ++ needle ++ post) needle = true := by
  induction pre with
  | nil =>
    rw [List.nil_append]
    cases hn : needle ++ post with
    | nil =>
      obtain ⟨h1, _⟩ := List.append_eq_nil.1 hn
      subst h1
      rfl
    | cons c rest =>
      simp only [includesChars, Bool.or_eq_true]
      left
      rw [← hn]
      simp [ List.isPrefixOf_iff_prefix]
  | cons c pre ih =>
    simp only [List.cons_append, includesChars, Bool.or_eq_true]
    right
    simpa using ih

theorem toLowerCase_data (s : String) : (toLowerCase s).data = lowerChars s.data := rfl

/-- C10: for every description that contains `follow up` in any letter case (a block
of the description whose lower-casing is `follow up`), `analyzeTask` of `src/server.js`
returns primaryAgent `claude`, agents `['claude']` and confidence exactly 0.9, whatever
the keyword scores are. -/
theorem analyzeTask_follow_up (pre block post : List Char)
    (hblock : block.map Char.toLower = "follow up".data) :
    analyzeTask (String.mk (pre ++ block ++ post)) =
      { primaryAgent := "claude"
        agents := ["claude"]
        confidence := 0.9
        reasoning := "Email/Calendar task routed to Claude for direct Gmail/Calendar integration" } := by
  have hinc : includes (toLowerCase (String.mk (pre ++ block ++ post))) "follow up" = true := by
    unfold includes
    have hascii : ∀ c ∈ block.map Char.toLower, c.toNat < 128 := by
      rw [hblock]
      decide
    rw [toLowerCase_data]
    simp only [lowerChars_append, lowerChars_of_ascii block hascii, hblock]
    exact includesChars_of_append _ _ _
  have hov : overrideFires (String.mk (pre ++ block ++ post)) = true := by
    simp only [overrideFires, hinc, Bool.or_true, Bool.true_or]
  simp only [analyzeTask, hov, if_true]

/-- C10 at a description on which nova's keyword score (4) is strictly higher than
claude's (0). -/
theorem analyzeTask_follow_up_witness :
    scoreOf (scores "FOLLOW UP: research and analyze the market alternatives") "claude" <
      scoreOf (scores "FOLLOW UP: research and analyze the market alternatives") "nova" ∧
    analyzeTask (String.mk ([] ++ "FOLLOW UP".data ++ ": research and analyze the market alternatives".data)) =
      { primaryAgent := "claude"
        agents := ["claude"]
        confidence := 0.9
        reasoning := "Email/Calendar task routed to Claude for direct Gmail/Calendar integration" } :=
  ⟨by decide, analyzeTask_follow_up [] "FOLLOW UP".data ": research and analyze the market alternatives".data (by decide)⟩

end Server

namespace Poller

/-! ### The auto-assignment of `routeTask` -/

theorem mentionsAny_append (content : String) (l1 l2 : List String) :
    mentionsAny content (l1 ++ l2) = (mentionsAny content l1 || mentionsAny content l2) := by
  simp [mentionsAny, List.any_append]

/-- The cascade of `analyzeTaskForAgent`: the first category with a keyword in the text
decides the agent. -/
theorem analyzeTaskForAgent_agent (taskId routingPayload : String) :
    (analyzeTaskForAgent taskId routingPayload).agent =
      if mentionsAny (toLowerCase (taskId ++ " " ++ routingPayload)) claudeTerms then "claude"
      else if mentionsAny (toLowerCase (taskId ++ " " ++ routingPayload)) gpt4Terms then "gpt4"
      else if mentionsAny (toLowerCase (taskId ++ " " ++ routingPayload)) multiAgentTerms then
        "multi_agent"
      else if mentionsAny (toLowerCase (taskId ++ " " ++ routingPayload)) copilotTerms then
        "copilot"
      else "claude" := by
  simp only [analyzeTaskForAgent, mentionsAny, claudeTerms, gpt4Terms, multiAgentTerms,
    copilotTerms, List.any_cons, List.any_nil, Bool.or_false, Bool.or_assoc]
  split_ifs <;> rfl

theorem analyzeTaskForAgent_claude_iff (taskId routingPayload : String) :
    (analyzeTaskForAgent taskId routingPayload).agent = "claude" ↔
      (mentionsAny (toLowerCase (taskId ++ " " ++ routingPayload)) claudeTerms = true ∨
        mentionsAny (toLowerCase (taskId ++ " " ++ routingPayload)) otherTerms = false) := by
  rw [analyzeTaskForAgent_agent, otherTerms, mentionsAny_append, mentionsAny_append]
  generalize mentionsAny (toLowerCase (taskId ++ " " ++ routingPayload)) claudeTerms = a
  generalize mentionsAny (toLowerCase (taskId ++ " " ++ routingPayload)) gpt4Terms = b
  generalize mentionsAny (toLowerCase (taskId ++ " " ++ routingPayload)) multiAgentTerms = c
  generalize mentionsAny (toLowerCase (taskId ++ " " ++ routingPayload)) copilotTerms = d
  cases a <;> cases b <;> cases c <;> cases d <;> decide

theorem resolveAssignment_agent_of_unassigned (fields : TaskFields)
    (hun : strFalsy fields.assigned_agent = true) :
    (resolveAssignment fields).2 =
      (analyzeTaskForAgent fields.task_id (strOr fields.routing_payload "")).agent := by
  have hstr : strOr fields.assigned_agent
      (analyzeTaskForAgent fields.task_id (strOr fields.routing_payload "")).agent =
      (analyzeTaskForAgent fields.task_id (strOr fields.routing_payload "")).agent := by
    cases ha : fields.assigned_agent with
    | none => rfl
    | some s =>
      rw [ha] at hun
      simp only [strFalsy, decide_eq_true_eq] at hun
      simp [strOr, hun]
  simp only [resolveAssignment, hun, Bool.or_true, if_true, hstr]

/-- C11, as the code behaves: `analyzeTaskForAgent` is a cascade of category tests and
never tests for `follow up`.  For every work item without an assigned agent, the agent
that `routeTask` auto-assigns is claude exactly when the lower-cased text
`task_id routing_payload` contains one of claude's keywords (architect, design,
technical, system) or contains no keyword of the gpt4, multi_agent and copilot
categories. -/
theorem routeTask_auto_assigns_claude_iff (fields : TaskFields) (hun : strFalsy fields.assigned_agent = true) :
    (resolveAssignment fields).2 = "claude" ↔
      (mentionsAny (assignmentText fields) claudeTerms = true ∨
        mentionsAny (assignmentText fields) otherTerms = false) := by
  rw [resolveAssignment_agent_of_unassigned fields hun]
  exact analyzeTaskForAgent_claude_iff _ _

/-- C11 as amended, at an unassigned record whose text holds `follow up` and claude
keywords. -/
theorem routeTask_auto_assigns_claude_iff_witness :
    (resolveAssignment (mkTask "follow up on the system design" none).fields).2 = "claude" ↔
      (mentionsAny (assignmentText (mkTask "follow up on the system design" none).fields)
          claudeTerms = true ∨
        mentionsAny (assignmentText (mkTask "follow up on the system design" none).fields)
          otherTerms = false) :=
  routeTask_auto_assigns_claude_iff (mkTask "follow up on the system design" none).fields (by decide)

/-- C11 refuted as stated: the unassigned record with task_id
`follow up on the marketing copy` contains `follow up`, and the agent auto-assigned to
it is gpt4, the category of `marketing` and `copy`; with all collaborators accepting,
the `in_progress` write of `routeTask` carries `assigned_agent = gpt4`. -/
theorem routeTask_follow_up_assigned_gpt4 :
    includes (assignmentText (mkTask "follow up on the marketing copy" none).fields)
      "follow up" = true ∧
    strFalsy (mkTask "follow up on the marketing copy" none).fields.assigned_agent = true ∧
    (resolveAssignment (mkTask "follow up on the marketing copy" none).fields).2 = "gpt4" ∧
    (patchPayloads (routeTask acceptingEnv (mkTask "follow up on the marketing copy" none)
        []).2).map (fun payload => getField payload "assigned_agent") =
      [some (.str "gpt4"), none] := by
  decide

end Poller

namespace Server

/-! ### The classifier `analyzeTask` -/

theorem overrideFires_of_trigger (description term : String) (hterm : term ∈ triggerTerms)
    (hinc : includes (toLowerCase description) term = true) :
    overrideFires description = true := by
  simp only [triggerTerms, List.mem_cons, List.mem_singleton, List.not_mem_nil, or_false] at hterm
  simp only [overrideFires, Bool.or_eq_true]
  rcases hterm with h | h | h | h | h | h | h | h <;> subst h <;> simp [hinc]

/-- C12, as the code behaves: for each of the eight terms that the override tests,
`email`, `message`, `send`, `contact`, `calendar`, `follow up`, `follow-up` and `draft`,
and for every description whose lower-casing includes that term, `analyzeTask` of
`src/server.js` returns primaryAgent `claude`, agents `['claude']` and confidence 0.9,
whatever the keyword scores are. -/
theorem analyzeTask_trigger_forces_claude (description term : String) (hterm : term ∈ triggerTerms)
    (hinc : includes (toLowerCase description) term = true) :
    analyzeTask description = forcedRouting := by
  simp only [analyzeTask, overrideFires_of_trigger description term hterm hinc, if_true,
    forcedRouting]

/-- C12 as amended, at a description with the trigger `send` on which copilot's keywords
(`code`, `build`) outnumber claude's. -/
theorem analyzeTask_trigger_forces_claude_witness : analyzeTask "Send the invoice code to the build team" = forcedRouting :=
  analyzeTask_trigger_forces_claude "Send the invoice code to the build team" "send" (by decide) (by decide)

/-- C12 refuted as stated: `meeting` is not among the terms that the override tests.
The description `research compare meeting` contains it and is routed to nova, and the
description `meeting` is routed to claude by its score with confidence 1, not 0.9. -/
theorem analyzeTask_meeting_is_no_trigger :
    includes (toLowerCase "research compare meeting") "meeting" = true ∧
    (analyzeTask "research compare meeting").primaryAgent = "nova" ∧
    includes (toLowerCase "meeting") "meeting" = true ∧
    (analyzeTask "meeting").primaryAgent = "claude" ∧
    (analyzeTask "meeting").confidence = 1 := by
  refine ⟨by decide, by decide, by decide, by decide, ?_⟩
  have h1 : overrideFires "meeting" = false := by decide
  have h2 : (scores "meeting").map Prod.snd = [1, 0, 0] := by decide
  have h3 : (splitSpace "meeting").length = 1 := by decide
  simp [analyzeTask, h1, h2, h3]

/-- The `reduce` over three agents: an agent keeps the lead only with a strictly
greater score, so a tie goes to the agent declared later. -/
theorem pickPrimary_three (a b c : ℕ) :
    pickPrimary [("claude", a), ("nova", b), ("copilot", c)] =
      if a > b then (if a > c then "claude" else "copilot")
      else (if b > c then "nova" else "copilot") := by
  simp only [pickPrimary, scoreOf, List.map_cons, List.map_nil, List.foldl_cons, List.foldl_nil,
    List.lookup]
  split_ifs <;> simp_all

theorem scores_eq (description : String) :
    scores description =
      [("claude", keywordScore description ["email", "draft", "calendar", "event", "meeting",
          "component", "ui", "design", "architecture"]),
       ("nova", keywordScore description ["research", "analyze", "compare", "investigate",
          "alternatives", "market"]),
       ("copilot", keywordScore description ["implement", "code", "refactor", "debug",
          "optimize", "deploy", "build"])] := rfl

theorem keywordScore_le (description : String) (terms : List String) :
    keywordScore description terms ≤ terms.length :=
  List.length_filter_le _ _

theorem scoreOf_le_pickPrimary (a b c : ℕ) (agent : String) (hagent : agent ∈ agentOrder) :
    scoreOf [("claude", a), ("nova", b), ("copilot", c)] agent ≤
      scoreOf [("claude", a), ("nova", b), ("copilot", c)]
        (pickPrimary [("claude", a), ("nova", b), ("copilot", c)]) := by
  rw [pickPrimary_three]
  simp only [agentOrder, List.mem_cons, List.mem_singleton, List.not_mem_nil, or_false] at hagent
  rcases hagent with h | h | h <;> subst h <;> split_ifs <;>
    simp [scoreOf, List.lookup] <;> omega

theorem primaryAgent_of_no_override (description : String)
    (hno : overrideFires description = false) :
    (analyzeTask description).primaryAgent = pickPrimary (scores description) := by
  simp [analyzeTask, hno]

end Server

namespace Coordinator

theorem scores_unfold (description : String) :
    scores description =
      [("claude", Server.keywordScore description ["component", "ui", "design", "architecture",
          "artifact", "preview", "wireframe", "mockup", "system"]),
       ("nova", Server.keywordScore description ["research", "analyze", "compare",
          "investigate", "alternatives", "benchmark", "validate", "market"]),
       ("copilot", Server.keywordScore description ["implement", "code", "refactor", "debug",
          "optimize", "deploy", "build", "fix"])] := rfl

end Coordinator

namespace Server

/-- The agent picked by the `reduce` has a maximal score among the three, measured by
the scores themselves and not by the table they were put in. -/
theorem pickPrimary_maximal (a b c : ℕ) :
    (pickPrimary [("claude", a), ("nova", b), ("copilot", c)] = "claude" ∧ b ≤ a ∧ c ≤ a) ∨
    (pickPrimary [("claude", a), ("nova", b), ("copilot", c)] = "nova" ∧ a ≤ b ∧ c ≤ b) ∨
    (pickPrimary [("claude", a), ("nova", b), ("copilot", c)] = "copilot" ∧ a ≤ c ∧ b ≤ c) := by
  rw [pickPrimary_three]
  split_ifs <;> simp <;> omega

theorem specScore_le_of_maximal (score : String → ℕ) (primary : String) (a b c : ℕ)
    (ha : score "claude" = a) (hb : score "nova" = b) (hc : score "copilot" = c)
    (hother : ∀ agent, agent ≠ "claude" → agent ≠ "nova" → agent ≠ "copilot" → score agent = 0)
    (hmax : (primary = "claude" ∧ b ≤ a ∧ c ≤ a) ∨ (primary = "nova" ∧ a ≤ b ∧ c ≤ b) ∨
      (primary = "copilot" ∧ a ≤ c ∧ b ≤ c)) :
    primary ∈ ["claude", "nova", "copilot"] ∧ ∀ agent, score agent ≤ score primary := by
  constructor
  · rcases hmax with ⟨h, -⟩ | ⟨h, -⟩ | ⟨h, -⟩ <;> rw [h] <;> simp
  · intro agent
    by_cases h1 : agent = "claude"
    · rw [h1, ha]
      rcases hmax with ⟨h, h2, h3⟩ | ⟨h, h2, h3⟩ | ⟨h, h2, h3⟩ <;> rw [h] <;>
        first | rw [ha] | rw [hb] | rw [hc]
      all_goals omega
    · by_cases h2 : agent = "nova"
      · rw [h2, hb]
        rcases hmax with ⟨h, h2, h3⟩ | ⟨h, h2, h3⟩ | ⟨h, h2, h3⟩ <;> rw [h] <;>
          first | rw [ha] | rw [hb] | rw [hc]
        all_goals omega
      · by_cases h3 : agent = "copilot"
        · rw [h3, hc]
          rcases hmax with ⟨h, h2, h3⟩ | ⟨h, h2, h3⟩ | ⟨h, h2, h3⟩ <;> rw [h] <;>
            first | rw [ha] | rw [hb] | rw [hc]
          all_goals omega
        · rw [hother agent h1 h2 h3]
          exact Nat.zero_le _

theorem specScore_other (description agent : String) (h1 : agent ≠ "claude")
    (h2 : agent ≠ "nova") (h3 : agent ≠ "copilot") : specScore description agent = 0 := by
  unfold specScore specKeywords
  split
  · exact absurd rfl h1
  · exact absurd rfl h2
  · exact absurd rfl h3
  · rfl

end Server

namespace Coordinator

theorem coordinator_specScore_other (description agent : String) (h1 : agent ≠ "claude")
    (h2 : agent ≠ "nova") (h3 : agent ≠ "copilot") : specScore description agent = 0 := by
  unfold specScore specKeywords
  split
  · exact absurd rfl h1
  · exact absurd rfl h2
  · exact absurd rfl h3
  · rfl

end Coordinator

namespace Server

/-- C13: for every description on which no override fires, the primaryAgent returned by
`analyzeTask` of `src/server.js` is one of claude, nova and copilot and has a maximal
keyword score, and so has, for every description, the primaryAgent returned by
`analyzeTask` of `src/coordinator.js` (which has no override): for every agent, the
number of its own keywords that occur in the lower-cased description is at most that
number for the primary agent.  The scores are counted here from the keyword lists, not
read from the classifier. -/
theorem primaryAgent_maximal (description : String) :
    (overrideFires description = false →
      (analyzeTask description).primaryAgent ∈ ["claude", "nova", "copilot"] ∧
      ∀ agent : String,
        specScore description agent ≤
          specScore description (analyzeTask description).primaryAgent) ∧
    ((Coordinator.analyzeTask description).primaryAgent ∈ ["claude", "nova", "copilot"] ∧
      ∀ agent : String,
        Coordinator.specScore description agent ≤
          Coordinator.specScore description
            (Coordinator.analyzeTask description).primaryAgent) := by
  constructor
  · intro hno
    rw [primaryAgent_of_no_override description hno, scores_eq]
    exact specScore_le_of_maximal (specScore description) _ _ _ _ rfl rfl rfl
      (specScore_other description) (pickPrimary_maximal _ _ _)
  · show pickPrimary (Coordinator.scores description) ∈ ["claude", "nova", "copilot"] ∧
      ∀ agent : String, Coordinator.specScore description agent ≤
        Coordinator.specScore description (pickPrimary (Coordinator.scores description))
    rw [Coordinator.scores_unfold]
    exact specScore_le_of_maximal (Coordinator.specScore description) _ _ _ _ rfl rfl rfl
      (Coordinator.coordinator_specScore_other description) (pickPrimary_maximal _ _ _)

/-- C13 at the goal of the test `Analysis Only Test` of `src/test-intake.js`: no
override fires and the primary agent is nova, with score 1 against 0 and 0. -/
theorem primaryAgent_maximal_witness :
    overrideFires "Research best practices for client onboarding in creative agencies" = false ∧
    (analyzeTask "Research best practices for client onboarding in creative agencies").primaryAgent
      = "nova" ∧
    specScore "Research best practices for client onboarding in creative agencies" "nova" = 1 ∧
    (analyzeTask
        "Research best practices for client onboarding in creative agencies").primaryAgent ∈
      ["claude", "nova", "copilot"] ∧
    ∀ agent : String,
      specScore "Research best practices for client onboarding in creative agencies" agent ≤
        specScore "Research best practices for client onboarding in creative agencies"
          (analyzeTask
            "Research best practices for client onboarding in creative agencies").primaryAgent :=
  ⟨by decide, by decide, by decide,
    (primaryAgent_maximal "Research best practices for client onboarding in creative agencies").1
      (by decide)⟩

/-- C14, evaluated at failing inputs: the goal of the test `Full Task Test` of
`src/test-intake.js` matches no keyword and fires no override, all three scores are 0,
and both classifiers return copilot, the agent declared last, not claude; on
`design research` claude and nova tie at 1 and the server's classifier returns nova. -/
theorem analyzeTask_tie_goes_to_later_agent :
    overrideFires "Confirm upcoming TechCon proposal presentation" = false ∧
    scores "Confirm upcoming TechCon proposal presentation" =
      [("claude", 0), ("nova", 0), ("copilot", 0)] ∧
    (analyzeTask "Confirm upcoming TechCon proposal presentation").primaryAgent = "copilot" ∧
    (Coordinator.analyzeTask "Confirm upcoming TechCon proposal presentation").primaryAgent =
      "copilot" ∧
    overrideFires "design research" = false ∧
    scores "design research" = [("claude", 1), ("nova", 1), ("copilot", 0)] ∧
    (analyzeTask "design research").primaryAgent = "nova" := by
  decide

end Server


namespace Server

/-- The score-based confidence lies between 0 and the maximal score. -/
theorem confidence_bounds (a b c w : ℕ) (hw : 0 < w) (n : ℕ) (ha : a ≤ n) (hb : b ≤ n)
    (hc : c ≤ n) :
    0 ≤ ((([a, b, c].foldl max 0 : ℕ) : ℚ) / (w : ℚ)) ∧
      ((([a, b, c].foldl max 0 : ℕ) : ℚ) / (w : ℚ)) ≤ n := by
  have hm : [a, b, c].foldl max 0 ≤ n := by
    simp only [List.foldl_cons, List.foldl_nil]
    omega
  have hw1 : (1 : ℚ) ≤ w := by exact_mod_cast hw
  have hm0 : (0 : ℚ) ≤ (([a, b, c].foldl max 0 : ℕ) : ℚ) := Nat.cast_nonneg _
  constructor
  · exact div_nonneg hm0 (by linarith)
  · calc ((([a, b, c].foldl max 0 : ℕ) : ℚ) / (w : ℚ))
        ≤ (([a, b, c].foldl max 0 : ℕ) : ℚ) := div_le_self hm0 hw1
      _ ≤ n := by exact_mod_cast hm

/-- C15, as the code behaves: the confidence is never clamped.  For every description
the confidence returned by `analyzeTask` of `src/server.js` and of `src/coordinator.js`
lies in the closed interval from 0 to 9, the size of the largest keyword list; it is
0.9 when the override fires, and otherwise the maximal keyword score divided by the
number of space-separated words. -/
theorem analyzeTask_confidence_bounds (description : String) :
    0 ≤ (analyzeTask description).confidence ∧ (analyzeTask description).confidence ≤ 9 ∧
    (overrideFires description = true → (analyzeTask description).confidence = 0.9) ∧
    0 ≤ (Coordinator.analyzeTask description).confidence ∧
    (Coordinator.analyzeTask description).confidence ≤ 9 := by
  have hs := confidence_bounds
    (keywordScore description ["email", "draft", "calendar", "event", "meeting",
          "component", "ui", "design", "architecture"])
    (keywordScore description ["research", "analyze", "compare", "investigate",
          "alternatives", "market"])
    (keywordScore description ["implement", "code", "refactor", "debug",
          "optimize", "deploy", "build"])
    (splitSpace description).length (splitSpace_length_pos description) 9
    (keywordScore_le _ _) (le_trans (keywordScore_le _ _) (by decide))
    (le_trans (keywordScore_le _ _) (by decide))
  have hc := confidence_bounds
    (keywordScore description ["component", "ui", "design", "architecture",
          "artifact", "preview", "wireframe", "mockup", "system"])
    (keywordScore description ["research", "analyze", "compare",
          "investigate", "alternatives", "benchmark", "validate", "market"])
    (keywordScore description ["implement", "code", "refactor", "debug",
          "optimize", "deploy", "build", "fix"])
    (splitSpace description).length (splitSpace_length_pos description) 9
    (keywordScore_le _ _) (le_trans (keywordScore_le _ _) (by decide))
    (le_trans (keywordScore_le _ _) (by decide))
  have hcoord : (Coordinator.analyzeTask description).confidence =
      ((((Coordinator.scores description).map Prod.snd).foldl max 0 : ℕ) : ℚ) /
        ((splitSpace description).length : ℚ) := rfl
  rw [hcoord, Coordinator.scores_unfold]
  refine ⟨?_, ?_, ?_, hc.1, hc.2⟩
  · cases ho : overrideFires description
    · simp only [analyzeTask, ho, Bool.false_eq_true, if_false, scores_eq]
      exact hs.1
    · simp only [analyzeTask, ho, if_true]
      norm_num
  · cases ho : overrideFires description
    · simp only [analyzeTask, ho, Bool.false_eq_true, if_false, scores_eq]
      exact hs.2
    · simp only [analyzeTask, ho, if_true]
      norm_num
  · intro ho
    simp only [analyzeTask, ho, if_true]

/-- C15 refuted as stated: on the one-word description `uidesign` no override fires,
claude's keywords `ui` and `design` both match, and both classifiers return the
confidence 2, which is above 1. -/
theorem analyzeTask_confidence_above_one :
    overrideFires "uidesign" = false ∧ (analyzeTask "uidesign").confidence = 2 ∧
    (Coordinator.analyzeTask "uidesign").confidence = 2 := by
  have h1 : overrideFires "uidesign" = false := by decide
  have h2 : (scores "uidesign").map Prod.snd = [2, 0, 0] := by decide
  have h3 : (splitSpace "uidesign").length = 1 := by decide
  have h4 : (Coordinator.scores "uidesign").map Prod.snd = [2, 0, 0] := by decide
  refine ⟨h1, ?_, ?_⟩
  · simp [analyzeTask, h1, h2, h3]
  · simp [Coordinator.analyzeTask, h4, h3]

end Server

namespace Coordinator

/-! ### Letter case in `analyzeTask` of `src/coordinator.js` -/

theorem scores_toLowerCase (description : String) :
    scores (toLowerCase description) = scores description := by
  simp only [scores, toLowerCase_idem]

/-- The part of the coordinator's result that is computed from the lower-cased
description does not depend on the letter case: the primary agent and the confidence. -/
theorem analyzeTask_toLowerCase (description : String) :
    (analyzeTask (toLowerCase description)).primaryAgent =
        (analyzeTask description).primaryAgent ∧
      (analyzeTask (toLowerCase description)).confidence =
        (analyzeTask description).confidence := by
  simp only [analyzeTask, scores_toLowerCase, splitSpace_length_toLowerCase, and_self]

/-- C16, evaluated at a failing input: on `Research and implement the build` the
coordinator's `analyzeTask` returns the workflow `['copilot']`, and on the lower-cased
description the workflow `['nova', 'copilot']`, with the same primary agent copilot.
The workflow tests `description.includes('research')` on the description as given, not
on its lower-casing. -/
theorem analyzeTask_workflow_case_sensitive :
    (analyzeTask "Research and implement the build").primaryAgent = "copilot" ∧
    (analyzeTask (toLowerCase "Research and implement the build")).primaryAgent = "copilot" ∧
    (analyzeTask "Research and implement the build").agents = ["copilot"] ∧
    (analyzeTask (toLowerCase "Research and implement the build")).agents =
      ["nova", "copilot"] := by
  decide

end Coordinator

namespace Poller

/-! ### The assignment used by `routeTask` -/

theorem patchPayloads_append (a b : Trace) :
    patchPayloads (a ++ b) = patchPayloads a ++ patchPayloads b := by
  simp [patchPayloads, List.filterMap_append]

theorem patchPayloads_clock (ms : ℤ) : patchPayloads [Event.clock ms] = [] := rfl

theorem patchPayloads_updateTaskStatus (env : Env) (recordId status : String)
    (additionalFields : Fields) (h : Trace) :
    ∃ rest, patchPayloads (updateTaskStatus env recordId status additionalFields h).2 =
      buildUpdateData status additionalFields :: rest := by
  cases hp : env.patch h recordId (buildUpdateData status additionalFields) with
  | none =>
    rw [updateTaskStatus_of_accept env recordId status additionalFields h hp]
    exact ⟨[], rfl⟩
  | some error =>
    by_cases hs : error.responseStatus = some 422
    · rw [updateTaskStatus_of_retry env recordId status additionalFields h error hp hs]
      exact ⟨_, rfl⟩
    · rw [updateTaskStatus_of_reject env recordId status additionalFields h error hp hs]
      exact ⟨[], rfl⟩

theorem patchPayloads_of_updateTaskStatus {env : Env} {recordId status : String}
    {additionalFields : Fields} {h : Trace} {res : Except JsError Unit} {w : Trace}
    (hU : updateTaskStatus env recordId status additionalFields h = (res, w)) :
    ∃ rest, patchPayloads w = buildUpdateData status additionalFields :: rest := by
  have := patchPayloads_updateTaskStatus env recordId status additionalFields h
  rw [hU] at this
  exact this

/-- The first write of the `try` block is the `in_progress` update with the resolved
target and agent. -/
theorem patchPayloads_routeTaskTry (env : Env) (taskRecord : TaskRecord)
    (systemTarget assignedAgent : String) (startTime : ℤ) (h : Trace) :
    ∃ startedAt routedAt rest,
      patchPayloads (routeTaskTry env taskRecord systemTarget assignedAgent startTime h).2 =
        buildUpdateData "in_progress"
          [("started_at", .str startedAt), ("routed_at", .str routedAt),
           ("system_target", .str systemTarget), ("assigned_agent", .str assignedAgent)] ::
          rest := by
  simp only [routeTaskTry]
  split
  · rename_i error w hU
    obtain ⟨rest, hrest⟩ := patchPayloads_of_updateTaskStatus hU
    exact ⟨_, _, rest, by
      simp only [patchPayloads_append, patchPayloads_clock, List.nil_append, hrest]
      rfl⟩
  · rename_i w hU
    obtain ⟨rest, hrest⟩ := patchPayloads_of_updateTaskStatus hU
    split
    · exact ⟨_, _, _, by
        simp only [patchPayloads_append, patchPayloads_clock, List.nil_append, hrest]
        rfl⟩
    · split
      · exact ⟨_, _, _, by
          simp only [patchPayloads_append, patchPayloads_clock, List.nil_append, hrest]
          rfl⟩
      · exact ⟨_, _, _, by
          simp only [patchPayloads_append, patchPayloads_clock, List.nil_append, hrest]
          rfl⟩

theorem patchPayloads_routeTask (env : Env) (taskRecord : TaskRecord) (h : Trace) :
    ∃ startedAt routedAt rest,
      patchPayloads (routeTask env taskRecord h).2 =
        buildUpdateData "in_progress"
          [("started_at", .str startedAt), ("routed_at", .str routedAt),
           ("system_target", .str (resolveAssignment taskRecord.fields).1),
           ("assigned_agent", .str (resolveAssignment taskRecord.fields).2)] :: rest := by
  obtain ⟨s, r, rest, hrest⟩ := patchPayloads_routeTaskTry env taskRecord
    (resolveAssignment taskRecord.fields).1 (resolveAssignment taskRecord.fields).2
    (env.now h) (h ++ [Event.clock (env.now h)])
  simp only [routeTask]
  split
  · rename_i t hT
    rw [hT] at hrest
    exact ⟨s, r, rest, by
      simp only [patchPayloads_append, patchPayloads_clock, List.nil_append, hrest]⟩
  · rename_i error t hT
    rw [hT] at hrest
    exact ⟨s, r, _, by
      simp only [patchPayloads_append, patchPayloads_clock, List.nil_append, hrest]
      rfl⟩

theorem buildTaskData_fields (taskId : String) (payload : Json) (systemTarget agent : String)
    (goal : Json) (taskData : TaskData)
    (hb : buildTaskData taskId payload systemTarget agent = some (goal, taskData)) :
    taskData.system_target = systemTarget ∧ taskData.assigned_agent = agent ∧
      ∃ pPriority, payload.getProp "priority" = some pPriority ∧
        taskData.priority = mapPriority pPriority := by
  cases payload <;>
    simp only [buildTaskData, Json.getProp, bind, Option.bind, pure, Option.some.injEq,
      Prod.mk.injEq, reduceCtorEq] at hb <;>
    obtain ⟨_, rfl⟩ := hb <;>
    exact ⟨rfl, rfl, _, rfl, rfl⟩

theorem execCalls_routeTaskTry_cases (env : Env) (taskRecord : TaskRecord)
    (systemTarget assignedAgent : String) (startTime : ℤ) (h : Trace) :
    execCalls (routeTaskTry env taskRecord systemTarget assignedAgent startTime h).2 = [] ∨
    execCalls (routeTaskTry env taskRecord systemTarget assignedAgent startTime h).2 =
      ((buildTaskData taskRecord.fields.task_id
        (parsePayload env (strOr taskRecord.fields.routing_payload ""))
        systemTarget assignedAgent).map Prod.snd).toList := by
  simp only [routeTaskTry]
  split
  · rename_i error w hU
    left
    simp only [execCalls_append, execCalls_clock, execCalls_of_updateTaskStatus hU,
      List.nil_append]
  · rename_i w hU
    have hw := execCalls_of_updateTaskStatus hU
    right
    split
    · rename_i error r hR
      simp only [execCalls_append, execCalls_clock, hw, execCalls_of_routeToSuperChase hR,
        List.nil_append, List.append_nil]
    · rename_i result r hR
      split
      · rename_i error d hD
        simp only [execCalls_append, execCalls_clock, hw, execCalls_of_routeToSuperChase hR,
          execCalls_logExecution, execCalls_of_updateTaskStatus hD,
          List.nil_append, List.append_nil]
      · rename_i d hD
        simp only [execCalls_append, execCalls_clock, hw, execCalls_of_routeToSuperChase hR,
          execCalls_logExecution, execCalls_of_updateTaskStatus hD,
          List.nil_append, List.append_nil]

/-- Whatever the collaborators answer, the executor is called at most once, with the
descriptor built from the record. -/
theorem execCalls_routeTask_cases (env : Env) (taskRecord : TaskRecord) (h : Trace) :
    execCalls (routeTask env taskRecord h).2 = [] ∨
    execCalls (routeTask env taskRecord h).2 = (descriptorOf env taskRecord).toList := by
  have htry := execCalls_routeTaskTry_cases env taskRecord (resolveAssignment taskRecord.fields).1
    (resolveAssignment taskRecord.fields).2 (env.now h) (h ++ [Event.clock (env.now h)])
  simp only [routeTask]
  unfold descriptorOf
  split
  · rename_i t hT
    rw [hT] at htry
    simpa only [execCalls_append, execCalls_clock, List.nil_append] using htry
  · rename_i error t hT
    rw [hT] at htry
    simpa only [execCalls_append, execCalls_clock, List.nil_append, execCalls_routeTaskCatch,
      List.append_nil] using htry

theorem descriptorOf_fields (env : Env) (taskRecord : TaskRecord) (taskData : TaskData)
    (hd : descriptorOf env taskRecord = some taskData) :
    taskData.system_target = (resolveAssignment taskRecord.fields).1 ∧
      taskData.assigned_agent = (resolveAssignment taskRecord.fields).2 ∧
      ∃ pPriority,
        (parsePayload env (strOr taskRecord.fields.routing_payload "")).getProp "priority" =
          some pPriority ∧
        taskData.priority = mapPriority pPriority := by
  unfold descriptorOf at hd
  rw [Option.map_eq_some'] at hd
  obtain ⟨⟨goal, td⟩, hb, rfl⟩ := hd
  exact buildTaskData_fields _ _ _ _ goal td hb

theorem mem_execCalls_routeTask (env : Env) (taskRecord : TaskRecord) (h : Trace)
    (taskData : TaskData) (hmem : taskData ∈ execCalls (routeTask env taskRecord h).2) :
    descriptorOf env taskRecord = some taskData := by
  rcases execCalls_routeTask_cases env taskRecord h with hc | hc
  · rw [hc] at hmem; simp at hmem
  · rw [hc] at hmem
    simpa [Option.mem_toList] using hmem

theorem resolveAssignment_eq (fields : TaskFields) :
    resolveAssignment fields =
      (strOr fields.system_target
          (analyzeTaskForAgent fields.task_id (strOr fields.routing_payload "")).target,
        strOr fields.assigned_agent
          (analyzeTaskForAgent fields.task_id (strOr fields.routing_payload "")).agent) := by
  unfold resolveAssignment
  split_ifs with hc
  · rfl
  · simp only [Bool.or_eq_true, not_or, Bool.not_eq_true] at hc
    obtain ⟨h1, h2⟩ := hc
    cases hs : fields.system_target with
    | none => rw [hs] at h1; simp [strFalsy] at h1
    | some s =>
      cases ha : fields.assigned_agent with
      | none => rw [ha] at h2; simp [strFalsy] at h2
      | some a =>
        rw [hs] at h1; rw [ha] at h2
        simp only [strFalsy, decide_eq_false_iff_not] at h1 h2
        simp [strOr, h1, h2]

/-- C17: for every work item and all outcomes of the collaborators, the system target
and the assigned agent that `routeTask` resolves equal the item's own `system_target`
and `assigned_agent` whenever that field is set and non-empty, whatever the classifier
returns, and equal the classifier's target or agent only for a field that is missing or
empty; the first status write of `routeTask` is the `in_progress` update carrying
exactly these two values, and every descriptor handed to the executor carries them. -/
theorem routeTask_keeps_assignment (env : Env) (taskRecord : TaskRecord) (h : Trace) :
    (∀ s, taskRecord.fields.system_target = some s → s ≠ "" →
      (resolveAssignment taskRecord.fields).1 = s) ∧
    (∀ a, taskRecord.fields.assigned_agent = some a → a ≠ "" →
      (resolveAssignment taskRecord.fields).2 = a) ∧
    (strFalsy taskRecord.fields.system_target = true →
      (resolveAssignment taskRecord.fields).1 =
        (analyzeTaskForAgent taskRecord.fields.task_id
          (strOr taskRecord.fields.routing_payload "")).target) ∧
    (strFalsy taskRecord.fields.assigned_agent = true →
      (resolveAssignment taskRecord.fields).2 =
        (analyzeTaskForAgent taskRecord.fields.task_id
          (strOr taskRecord.fields.routing_payload "")).agent) ∧
    (∃ payload, (patchPayloads (routeTask env taskRecord h).2).head? = some payload ∧
      getField payload "status" = some (.str "in_progress") ∧
      getField payload "system_target" =
        some (.str (resolveAssignment taskRecord.fields).1) ∧
      getField payload "assigned_agent" =
        some (.str (resolveAssignment taskRecord.fields).2)) ∧
    (∀ taskData ∈ execCalls (routeTask env taskRecord h).2,
      taskData.system_target = (resolveAssignment taskRecord.fields).1 ∧
        taskData.assigned_agent = (resolveAssignment taskRecord.fields).2) := by
  refine ⟨?_, ?_, ?_, ?_, ?_, ?_⟩
  · intro s hs hne
    rw [resolveAssignment_eq, hs]
    simp [strOr, hne]
  · intro a ha hne
    rw [resolveAssignment_eq, ha]
    simp [strOr, hne]
  · intro hf
    rw [resolveAssignment_eq]
    cases hs : taskRecord.fields.system_target with
    | none => rfl
    | some s =>
      rw [hs] at hf
      simp only [strFalsy, decide_eq_true_eq] at hf
      simp [strOr, hf]
  · intro hf
    exact resolveAssignment_agent_of_unassigned _ hf
  · obtain ⟨startedAt, routedAt, rest, hrest⟩ := patchPayloads_routeTask env taskRecord h
    refine ⟨_, by rw [hrest]; rfl, getField_buildUpdateData_status _ _, ?_, ?_⟩
    · exact getField_foldl_of_mem _ _ _ _ (by simp) (by simp) (by decide)
    · exact getField_foldl_of_mem _ _ _ _ (by simp) (by simp) (by decide)
  · intro taskData hmem
    have hd := descriptorOf_fields env taskRecord taskData
      (mem_execCalls_routeTask env taskRecord h taskData hmem)
    exact ⟨hd.1, hd.2.1⟩

/-! ### The descriptor priority and the executor failure path -/

/-- The priority of the descriptor comes from the routing payload alone: it is
`mapPriority` of the payload's `priority` entry, whatever the record's own priority. -/
theorem routeTask_descriptor_priority (env : Env) (taskRecord : TaskRecord) (h : Trace)
    (taskData : TaskData) (hmem : taskData ∈ execCalls (routeTask env taskRecord h).2) :
    ∃ pPriority,
      (parsePayload env (strOr taskRecord.fields.routing_payload "")).getProp "priority" =
        some pPriority ∧
      taskData.priority = mapPriority pPriority :=
  (descriptorOf_fields env taskRecord taskData
    (mem_execCalls_routeTask env taskRecord h taskData hmem)).2.2

/-- C18, evaluated at a failing input: for the record `TASK-7` of priority `P0` without
routing payload, with all collaborators accepting, the descriptor that `routeTask`
hands to the executor has priority `medium`, not `critical`.  The descriptor's priority
is `mapPriority(payload.priority)`; the record's own priority is read by `routeTask`
into a local that is never used. -/
theorem routeTask_P0_descriptor_medium :
    urgentTask.fields.priority = some "P0" ∧
    (execCalls (routeTask acceptingEnv urgentTask []).2).map (fun taskData => taskData.priority) =
      ["medium"] := by
  decide

theorem errorSummary_ne (seconds : ℤ) (message : String) :
    "Error after " ++ toString seconds ++ "s: " ++ message ≠ "" := by
  intro hempty
  have hdata := congrArg String.data hempty
  simp [String.data_append] at hdata

theorem errorPayload_fields (message stamp : String) :
    getField (buildUpdateData "error"
        [("last_error", .str message), ("completed_at", .str stamp)]) "last_error" =
      some (.str message) ∧
    getField (buildUpdateData "error"
        [("last_error", .str message), ("completed_at", .str stamp)]) "completed_at" =
      some (.str stamp) :=
  ⟨getField_foldl_of_mem _ _ _ _ (by simp) (by simp) (by decide),
    getField_foldl_of_mem _ _ _ _ (by simp) (by simp) (by decide)⟩

/-- C19: in every execution of `routeTask` in which the store accepts every write (so
the `in_progress` write succeeds), the ledger accepts every record and the executor
fails on the descriptor with `error`: `routeTask` returns normally, the executor is
called exactly once, the status writes are the accepted `in_progress` write followed by
exactly one write of status `error`, which carries `last_error` equal to the failure
message and a `completed_at` stamp, no write of status `done` is issued, and exactly
one execution record is appended, with cost 0 and the summary
`Error after <n>s: <message>`. -/
theorem routeTask_executor_failure (env : Env) (taskRecord : TaskRecord) (h : Trace) (error : JsError)
    (taskData : TaskData)
    (hstore : ∀ h recordId fields, env.patch h recordId fields = none)
    (hledger : ∀ h logData, env.post h logData = none)
    (hdesc : descriptorOf env taskRecord = some taskData)
    (hexec : ∀ h, env.processIncomingTask h taskData = .error error) :
    (routeTask env taskRecord h).1 = .ok () ∧
    execCalls (routeTask env taskRecord h).2 = [taskData] ∧
    statusWrites (routeTask env taskRecord h).2 =
      [(some (.str "in_progress"), true), (some (.str "error"), true)] ∧
    (∃ first payload stamp, patchPayloads (routeTask env taskRecord h).2 = [first, payload] ∧
      getField payload "status" = some (.str "error") ∧
      getField payload "last_error" = some (.str error.message) ∧
      getField payload "completed_at" = some (.str stamp)) ∧
    (∃ record, ledgerPosts (routeTask env taskRecord h).2 = [record] ∧
      ledgerAppends (routeTask env taskRecord h).2 = [record] ∧
      record.cost_usd = 0 ∧
      ∃ seconds : ℤ, record.output_summary =
        "Error after " ++ toString seconds ++ "s: " ++ error.message) := by
  unfold descriptorOf at hdesc
  rw [Option.map_eq_some'] at hdesc
  obtain ⟨⟨goal, td⟩, hb, rfl⟩ := hdesc
  simp only at hexec
  simp only [routeTask, routeTaskTry, routeTaskCatch, updateTaskStatus, hstore,
    routeToSuperChase, hb, hexec, logExecution, hledger, statusWrites, execCalls,
    patchPayloads, ledgerPosts, ledgerAppends, List.filterMap_append, List.filterMap_cons,
    List.filterMap_nil, List.nil_append, List.append_nil, List.singleton_append,
    getField_buildUpdateData_status, Option.isNone_none, true_and, List.cons_append]
  constructor
  · exact ⟨_, _, _, rfl, getField_buildUpdateData_status _ _,
      (errorPayload_fields _ _).1, (errorPayload_fields _ _).2⟩
  · refine ⟨_, rfl, rfl, ?_, ?_⟩
    · simp [numOr]
    · exact ⟨_, strOr_some_of_ne _ "Task processed by SuperChase" (errorSummary_ne _ _)⟩

/-- C19 at a concrete run: the executor fails with `agent offline` on the record
`TASK-7`. -/
theorem routeTask_executor_failure_witness :
    (routeTask failingExecutorEnv urgentTask []).1 = .ok () ∧
    execCalls (routeTask failingExecutorEnv urgentTask []).2 =
      [{ id := "TASK-7", goal := Json.str "TASK-7",
         deliverables := Json.arr [Json.str "architecture_doc", Json.str "implementation_plan"],
         priority := "medium", constraints := Json.arr [], system_target := "superchase",
         assigned_agent := "claude", context := Json.str "", deadline := Json.null }] ∧
    statusWrites (routeTask failingExecutorEnv urgentTask []).2 =
      [(some (.str "in_progress"), true), (some (.str "error"), true)] ∧
    (∃ first payload stamp,
      patchPayloads (routeTask failingExecutorEnv urgentTask []).2 = [first, payload] ∧
      getField payload "status" = some (.str "error") ∧
      getField payload "last_error" = some (.str "agent offline") ∧
      getField payload "completed_at" = some (.str stamp)) ∧
    (∃ record, ledgerPosts (routeTask failingExecutorEnv urgentTask []).2 = [record] ∧
      ledgerAppends (routeTask failingExecutorEnv urgentTask []).2 = [record] ∧
      record.cost_usd = 0 ∧
      ∃ seconds : ℤ, record.output_summary =
        "Error after " ++ toString seconds ++ "s: " ++ "agent offline") :=
  routeTask_executor_failure failingExecutorEnv urgentTask []
    { message := "agent offline", responseStatus := none } _
    (fun _ _ _ => rfl) (fun _ _ => rfl) rfl (fun _ => rfl)

/-! ### The execution records of `routeTask` -/

theorem ledgerPosts_append (a b : Trace) :
    ledgerPosts (a ++ b) = ledgerPosts a ++ ledgerPosts b := by
  simp [ledgerPosts, List.filterMap_append]

theorem ledgerPosts_clock (ms : ℤ) : ledgerPosts [Event.clock ms] = [] := rfl

theorem length_ledgerPosts_logExecution (env : Env) (taskRecordId agentUsed : String)
    (executionData : ExecutionData) (h : Trace) :
    (ledgerPosts (logExecution env taskRecordId agentUsed executionData h)).length = 1 := by
  simp [ledgerPosts, logExecution, List.filterMap_cons]

theorem ledgerPosts_updateTaskStatus (env : Env) (recordId status : String)
    (additionalFields : Fields) (h : Trace) :
    ledgerPosts (updateTaskStatus env recordId status additionalFields h).2 = [] := by
  cases hp : env.patch h recordId (buildUpdateData status additionalFields) with
  | none => rw [updateTaskStatus_of_accept env recordId status additionalFields h hp]; rfl
  | some error =>
    by_cases hs : error.responseStatus = some 422
    · rw [updateTaskStatus_of_retry env recordId status additionalFields h error hp hs]; rfl
    · rw [updateTaskStatus_of_reject env recordId status additionalFields h error hp hs]; rfl

theorem ledgerPosts_of_updateTaskStatus {env : Env} {recordId status : String}
    {additionalFields : Fields} {h : Trace} {res : Except JsError Unit} {w : Trace}
    (hU : updateTaskStatus env recordId status additionalFields h = (res, w)) :
    ledgerPosts w = [] := by
  have := ledgerPosts_updateTaskStatus env recordId status additionalFields h
  rw [hU] at this
  exact this

theorem ledgerPosts_routeToSuperChase (env : Env) (taskId : String) (payload : Json)
    (systemTarget agent : String) (h : Trace) :
    ledgerPosts (routeToSuperChase env taskId payload systemTarget agent h).2 = [] := by
  unfold routeToSuperChase
  split
  · rfl
  · simp only
    split <;> simp [ledgerPosts, List.filterMap_cons]

theorem ledgerPosts_of_routeToSuperChase {env : Env} {taskId : String} {payload : Json}
    {systemTarget agent : String} {h : Trace} {res : Except JsError RouteResult} {r : Trace}
    (hR : routeToSuperChase env taskId payload systemTarget agent h = (res, r)) :
    ledgerPosts r = [] := by
  have := ledgerPosts_routeToSuperChase env taskId payload systemTarget agent h
  rw [hR] at this
  exact this

theorem failed_write_of_error {env : Env} {recordId status : String}
    {additionalFields : Fields} {h : Trace} {error : JsError} {w : Trace}
    (hU : updateTaskStatus env recordId status additionalFields h = (.error error, w)) :
    (some (FieldValue.str status), false) ∈ statusWrites w := by
  have hst := getField_buildUpdateData_status status additionalFields
  cases hp : env.patch h recordId (buildUpdateData status additionalFields) with
  | none =>
    rw [updateTaskStatus_of_accept env recordId status additionalFields h hp] at hU
    simp at hU
  | some e =>
    by_cases hs : e.responseStatus = some 422
    · rw [updateTaskStatus_of_retry env recordId status additionalFields h e hp hs] at hU
      simp only [Prod.mk.injEq] at hU
      rw [← hU.2]
      simp [statusWrites, firstWrite, hp, hst]
    · rw [updateTaskStatus_of_reject env recordId status additionalFields h e hp hs] at hU
      simp only [Prod.mk.injEq] at hU
      rw [← hU.2]
      simp [statusWrites, firstWrite, hp, hst]

theorem ledgerPosts_routeTaskTry (env : Env) (taskRecord : TaskRecord)
    (systemTarget assignedAgent : String) (startTime : ℤ) (h : Trace) :
    (∀ t, routeTaskTry env taskRecord systemTarget assignedAgent startTime h = (.ok (), t) →
      (ledgerPosts t).length = 1) ∧
    (∀ error t,
      routeTaskTry env taskRecord systemTarget assignedAgent startTime h = (.error error, t) →
      (ledgerPosts t).length = 0 ∨
        ((ledgerPosts t).length = 1 ∧
          (some (FieldValue.str "done"), false) ∈ statusWrites t)) := by
  simp only [routeTaskTry]
  split
  · rename_i error w hU
    refine ⟨?_, ?_⟩
    · intro t ht
      simp at ht
    · rintro e t ⟨⟩
      left
      simp only [ledgerPosts_append, ledgerPosts_clock, ledgerPosts_of_updateTaskStatus hU,
        List.nil_append, List.length_nil]
  · rename_i w hU
    have hw := ledgerPosts_of_updateTaskStatus hU
    split
    · rename_i error r hR
      refine ⟨?_, ?_⟩
      · intro t ht
        simp at ht
      · rintro e t ⟨⟩
        left
        simp only [ledgerPosts_append, ledgerPosts_clock, hw,
          ledgerPosts_of_routeToSuperChase hR, List.nil_append, List.length_nil]
    · rename_i result r hR
      have hr := ledgerPosts_of_routeToSuperChase hR
      split
      · rename_i error d hD
        refine ⟨?_, ?_⟩
        · intro t ht
          simp at ht
        · rintro e t ⟨⟩
          right
          constructor
          · simp only [ledgerPosts_append, ledgerPosts_clock, hw, hr,
              ledgerPosts_of_updateTaskStatus hD, List.nil_append, List.append_nil,
              length_ledgerPosts_logExecution]
          · simp only [statusWrites_append, List.mem_append]
            right
            exact failed_write_of_error hD
      · rename_i d hD
        refine ⟨?_, ?_⟩
        · rintro t ⟨⟩
          simp only [ledgerPosts_append, ledgerPosts_clock, hw, hr,
            ledgerPosts_of_updateTaskStatus hD, List.nil_append, List.append_nil,
            length_ledgerPosts_logExecution]
        · intro e t ht
          simp at ht

theorem ledgerPosts_routeTaskCatch (env : Env) (taskRecord : TaskRecord)
    (assignedAgent : String) (startTime : ℤ) (error : JsError) (h : Trace) :
    (∀ c, routeTaskCatch env taskRecord assignedAgent startTime error h = (.ok (), c) →
      (ledgerPosts c).length = 1) ∧
    (∀ raised c,
      routeTaskCatch env taskRecord assignedAgent startTime error h = (.error raised, c) →
      (ledgerPosts c).length = 0) := by
  simp only [routeTaskCatch]
  split
  · rename_i raised w hU
    refine ⟨?_, ?_⟩
    · intro c hc
      simp at hc
    · rintro e c ⟨⟩
      simp only [ledgerPosts_append, ledgerPosts_clock, ledgerPosts_of_updateTaskStatus hU,
        List.nil_append, List.length_nil]
  · rename_i w hU
    refine ⟨?_, ?_⟩
    · rintro c ⟨⟩
      simp only [ledgerPosts_append, ledgerPosts_clock, ledgerPosts_of_updateTaskStatus hU,
        List.nil_append, length_ledgerPosts_logExecution]
    · intro e c hc
      simp at hc

/-- C20, as the code behaves: in every execution of `routeTask` that returns normally,
for all outcomes of the collaborators, one or two execution records are handed to the
ledger; there are two only when a write of status `done` was rejected, that is when
the record of the successful attempt had already been logged in the `try` block and
the `catch` block logged the attempt again. -/
theorem routeTask_ledger_records (env : Env) (taskRecord : TaskRecord) (h : Trace)
    (hdone : (routeTask env taskRecord h).1 = .ok ()) :
    ((ledgerPosts (routeTask env taskRecord h).2).length = 1 ∨
      (ledgerPosts (routeTask env taskRecord h).2).length = 2) ∧
    ((ledgerPosts (routeTask env taskRecord h).2).length = 2 →
      (some (FieldValue.str "done"), false) ∈ statusWrites (routeTask env taskRecord h).2) := by
  revert hdone
  simp only [routeTask]
  split
  · rename_i t hT
    intro _
    have h1 := (ledgerPosts_routeTaskTry _ _ _ _ _ _).1 _ hT
    simp only [ledgerPosts_append, ledgerPosts_clock, List.nil_append, h1]
    simp
  · rename_i error t hT
    have htry := (ledgerPosts_routeTaskTry _ _ _ _ _ _).2 _ _ hT
    rcases hC : routeTaskCatch env taskRecord (resolveAssignment taskRecord.fields).2 (env.now h)
      error (h ++ [Event.clock (env.now h)] ++ t) with ⟨res, c⟩
    cases res with
    | error raised =>
      intro hd
      simp at hd
    | ok u =>
      cases u
      intro _
      have hc := (ledgerPosts_routeTaskCatch _ _ _ _ _ _).1 _ hC
      simp only [ledgerPosts_append, ledgerPosts_clock, List.nil_append, List.length_append, hc,
        statusWrites_append, List.mem_append]
      rcases htry with h0 | ⟨h1, hmem⟩
      · rw [h0]; simp
      · rw [h1]; simp [hmem]

/-- C20 as amended, at a run in which every collaborator accepts. -/
theorem routeTask_ledger_records_witness :
    ((ledgerPosts (routeTask acceptingEnv urgentTask []).2).length = 1 ∨
      (ledgerPosts (routeTask acceptingEnv urgentTask []).2).length = 2) ∧
    ((ledgerPosts (routeTask acceptingEnv urgentTask []).2).length = 2 →
      (some (FieldValue.str "done"), false) ∈
        statusWrites (routeTask acceptingEnv urgentTask []).2) :=
  routeTask_ledger_records acceptingEnv urgentTask [] rfl

/-- C20 refuted as stated: when the executor succeeds and the store answers 500 to the
`done` write and accepts the rest, `routeTask` returns normally after one executor call
and the ledger has accepted two execution records for the attempt, the first being the
success record. -/
theorem routeTask_logs_attempt_twice :
    (routeTask rejectDoneEnv urgentTask []).1 = .ok () ∧
    statusWrites (routeTask rejectDoneEnv urgentTask []).2 =
      [(some (.str "in_progress"), true), (some (.str "done"), false),
        (some (.str "error"), true)] ∧
    (execCalls (routeTask rejectDoneEnv urgentTask []).2).length = 1 ∧
    (ledgerAppends (routeTask rejectDoneEnv urgentTask []).2).length = 2 ∧
    ((ledgerAppends (routeTask rejectDoneEnv urgentTask []).2).map
        (fun record => record.output_summary)).head? =
      some "claude via superchase: completed" := by
  refine ⟨rfl, by decide, by decide, by decide, by decide⟩

end Poller

namespace Poller

/-! ### The shape of a run of `routeTask` -/

/-- The events of a call of `updateTaskStatus`, by the answers of the store. -/
theorem updateTaskStatus_shape {env : Env} {recordId status : String}
    {additionalFields : Fields} {h : Trace} {res : Except JsError Unit} {w : Trace}
    (hU : updateTaskStatus env recordId status additionalFields h = (res, w)) :
    (res = .ok () ∧
      w = [Event.patch recordId (buildUpdateData status additionalFields) none]) ∨
    (∃ e, e.responseStatus = some 422 ∧ res = .ok () ∧
      w = [Event.patch recordId (buildUpdateData status additionalFields) (some e),
        Event.patch recordId [("status", FieldValue.str status)] none]) ∨
    (∃ e e2, e.responseStatus = some 422 ∧ res = .error e2 ∧
      w = [Event.patch recordId (buildUpdateData status additionalFields) (some e),
        Event.patch recordId [("status", FieldValue.str status)] (some e2)]) ∨
    (∃ e, e.responseStatus ≠ some 422 ∧ res = .error e ∧
      w = [Event.patch recordId (buildUpdateData status additionalFields) (some e)]) := by
  cases hp : env.patch h recordId (buildUpdateData status additionalFields) with
  | none =>
    rw [updateTaskStatus_of_accept env recordId status additionalFields h hp] at hU
    simp only [Prod.mk.injEq] at hU
    left
    exact ⟨hU.1.symm, by rw [← hU.2, firstWrite, hp]⟩
  | some e =>
    by_cases hs : e.responseStatus = some 422
    · rw [updateTaskStatus_of_retry env recordId status additionalFields h e hp hs] at hU
      simp only [Prod.mk.injEq] at hU
      cases hp2 : env.patch (h ++ [firstWrite env recordId status additionalFields h]) recordId
          [("status", FieldValue.str status)] with
      | none =>
        right; left
        refine ⟨e, hs, ?_, ?_⟩
        · rw [← hU.1, hp2]; rfl
        · rw [← hU.2, retryWrite, hp2, firstWrite, hp]
      | some e2 =>
        right; right; left
        refine ⟨e, e2, hs, ?_, ?_⟩
        · rw [← hU.1, hp2]; rfl
        · rw [← hU.2, retryWrite, hp2, firstWrite, hp]
    · rw [updateTaskStatus_of_reject env recordId status additionalFields h e hp hs] at hU
      simp only [Prod.mk.injEq] at hU
      right; right; right
      exact ⟨e, hs, hU.1.symm, by rw [← hU.2, firstWrite, hp]⟩

/-- The events of `routeToSuperChase`, by the way the call went. -/
theorem routeToSuperChase_shape {env : Env} {taskId : String} {payload : Json}
    {systemTarget agent : String} {h : Trace} {res : Except JsError RouteResult} {r : Trace}
    (hR : routeToSuperChase env taskId payload systemTarget agent h = (res, r)) :
    (buildTaskData taskId payload systemTarget agent = none ∧
      res = .error nullPayloadError ∧ r = []) ∨
    (∃ goal taskData start error,
      buildTaskData taskId payload systemTarget agent = some (goal, taskData) ∧
      res = .error error ∧
      r = [Event.clock start] ++ [Event.exec taskData (.error error)]) ∨
    (∃ goal taskData start answer finished result,
      buildTaskData taskId payload systemTarget agent = some (goal, taskData) ∧
      res = .ok result ∧ result.tokensUsed = estimateTokenUsage goal agent ∧
      r = [Event.clock start] ++ [Event.exec taskData (.ok answer)] ++
        [Event.clock finished]) := by
  revert hR
  unfold routeToSuperChase
  split
  · rename_i hb
    intro hR
    simp only [Prod.mk.injEq] at hR
    exact Or.inl ⟨hb, hR.1.symm, hR.2.symm⟩
  · rename_i goal taskData hb
    simp only
    split
    · intro hR
      simp only [Prod.mk.injEq] at hR
      exact Or.inr (Or.inl ⟨goal, taskData, _, _, hb, hR.1.symm, hR.2.symm⟩)
    · intro hR
      simp only [Prod.mk.injEq] at hR
      refine Or.inr (Or.inr ⟨goal, taskData, _, _, _, _, hb, hR.1.symm, ?_, hR.2.symm⟩)
      rfl

/-- The events of the `try` block of `routeTask`, by the way the run went: the
`in_progress` update raised; or it returned and `routeToSuperChase` raised; or both
returned, the execution was logged and the `done` update decided the outcome. -/
theorem routeTaskTry_shape (env : Env) (taskRecord : TaskRecord)
    (systemTarget assignedAgent : String) (startTime : ℤ) (h : Trace) :
    ∃ (t1 t2 : ℤ) (h1 : Trace) (r1 : Except JsError Unit) (w : Trace),
      updateTaskStatus env taskRecord.id "in_progress"
        (inProgressFields (env.toISOString t1) (env.toISOString t2) systemTarget assignedAgent)
        h1 = (r1, w) ∧
      ((∃ e, r1 = .error e ∧
        routeTaskTry env taskRecord systemTarget assignedAgent startTime h =
          (.error e, [Event.clock t1] ++ [Event.clock t2] ++ w)) ∨
      (r1 = .ok () ∧ ∃ (h2 : Trace) (r2 : Except JsError RouteResult) (r : Trace),
        routeToSuperChase env taskRecord.fields.task_id
          (parsePayload env (strOr taskRecord.fields.routing_payload ""))
          systemTarget assignedAgent h2 = (r2, r) ∧
        ((∃ e, r2 = .error e ∧
          routeTaskTry env taskRecord systemTarget assignedAgent startTime h =
            (.error e, [Event.clock t1] ++ [Event.clock t2] ++ w ++ r)) ∨
        (∃ (result : RouteResult) (h3 h4 : Trace) (t3 t4 : ℤ) (r3 : Except JsError Unit)
            (d : Trace),
          r2 = .ok result ∧
          updateTaskStatus env taskRecord.id "done"
            (doneFields (env.toISOString t4)
              (calculateCost assignedAgent (elapsedSeconds startTime t3) result.tokensUsed))
            h4 = (r3, d) ∧
          routeTaskTry env taskRecord systemTarget assignedAgent startTime h =
            (r3, [Event.clock t1] ++ [Event.clock t2] ++ w ++ r ++
              logExecution env taskRecord.id assignedAgent
                (successData taskRecord.fields.task_id systemTarget result) h3 ++
              [Event.clock t3] ++ [Event.clock t4] ++ d))))) := by
  simp only [routeTaskTry]
  split
  · rename_i error w hU
    exact ⟨_, _, _, _, _, hU, Or.inl ⟨_, rfl, rfl⟩⟩
  · rename_i w hU
    refine ⟨_, _, _, _, _, hU, Or.inr ⟨rfl, ?_⟩⟩
    split
    · rename_i error r hR
      exact ⟨_, _, _, hR, Or.inl ⟨_, rfl, rfl⟩⟩
    · rename_i result r hR
      refine ⟨_, _, _, hR, Or.inr ?_⟩
      split
      · rename_i error d hD
        exact ⟨result, _, _, _, _, _, _, rfl, hD, rfl⟩
      · rename_i d hD
        exact ⟨result, _, _, _, _, _, _, rfl, hD, rfl⟩

/-- The events of the `catch` block of `routeTask`: the `error` update, and the failure
record when that update returned. -/
theorem routeTaskCatch_shape (env : Env) (taskRecord : TaskRecord) (assignedAgent : String)
    (startTime : ℤ) (error : JsError) (h : Trace) :
    ∃ (t1 t2 : ℤ) (h1 : Trace) (r1 : Except JsError Unit) (w : Trace),
      updateTaskStatus env taskRecord.id "error"
        (errorFields error.message (env.toISOString t2)) h1 = (r1, w) ∧
      ((∃ e, r1 = .error e ∧
        routeTaskCatch env taskRecord assignedAgent startTime error h =
          (.error e, [Event.clock t1] ++ [Event.clock t2] ++ w)) ∨
      (r1 = .ok () ∧ ∃ h2 : Trace,
        routeTaskCatch env taskRecord assignedAgent startTime error h =
          (.ok (), [Event.clock t1] ++ [Event.clock t2] ++ w ++
            logExecution env taskRecord.id assignedAgent
              (failureData (elapsedSeconds startTime t1) error.message) h2))) := by
  simp only [routeTaskCatch]
  split
  · rename_i raised w hU
    exact ⟨_, _, _, _, _, hU, Or.inl ⟨_, rfl, rfl⟩⟩
  · rename_i w hU
    exact ⟨_, _, _, _, _, hU, Or.inr ⟨rfl, _, rfl⟩⟩

/-- The events of `routeTask`: the clock read, the events of the `try` block and, when
that block raised, the events of the `catch` block. -/
theorem routeTask_shape (env : Env) (taskRecord : TaskRecord) (h : Trace) :
    ∃ (t0 : ℤ) (h1 : Trace) (r1 : Except JsError Unit) (t : Trace),
      routeTaskTry env taskRecord (resolveAssignment taskRecord.fields).1
        (resolveAssignment taskRecord.fields).2 t0 h1 = (r1, t) ∧
      ((r1 = .ok () ∧ routeTask env taskRecord h = (.ok (), [Event.clock t0] ++ t)) ∨
      (∃ (error : JsError) (h2 : Trace) (r2 : Except JsError Unit) (c : Trace),
        r1 = .error error ∧
        routeTaskCatch env taskRecord (resolveAssignment taskRecord.fields).2 t0 error h2 =
          (r2, c) ∧
        routeTask env taskRecord h = (r2, [Event.clock t0] ++ t ++ c))) := by
  simp only [routeTask]
  split
  · rename_i t hT
    exact ⟨_, _, _, _, hT, Or.inl ⟨rfl, rfl⟩⟩
  · rename_i error t hT
    exact ⟨_, _, _, _, hT, Or.inr ⟨error, _, _, _, rfl, rfl, rfl⟩⟩

end Poller

namespace Poller

/-! ### A failing ledger write -/

theorem execSucceeded_append (a b : Trace) :
    execSucceeded (a ++ b) = (execSucceeded a || execSucceeded b) := by
  simp [execSucceeded, List.any_append]

theorem execSucceeded_clock (ms : ℤ) : execSucceeded [Event.clock ms] = false := rfl

theorem execSucceeded_logExecution (env : Env) (taskRecordId agentUsed : String)
    (executionData : ExecutionData) (h : Trace) :
    execSucceeded (logExecution env taskRecordId agentUsed executionData h) = false := by
  simp [execSucceeded, logExecution]

theorem execSucceeded_of_updateTaskStatus {env : Env} {recordId status : String}
    {additionalFields : Fields} {h : Trace} {res : Except JsError Unit} {w : Trace}
    (hU : updateTaskStatus env recordId status additionalFields h = (res, w)) :
    execSucceeded w = false := by
  rcases updateTaskStatus_shape hU with ⟨-, rfl⟩ | ⟨e, -, -, rfl⟩ | ⟨e, e2, -, -, rfl⟩ |
    ⟨e, -, -, rfl⟩ <;> rfl

theorem execSucceeded_of_routeToSuperChase {env : Env} {taskId : String} {payload : Json}
    {systemTarget agent : String} {h : Trace} {error : JsError} {r : Trace}
    (hR : routeToSuperChase env taskId payload systemTarget agent h = (.error error, r)) :
    execSucceeded r = false := by
  rcases routeToSuperChase_shape hR with ⟨-, -, rfl⟩ | ⟨_, _, _, _, -, -, rfl⟩ |
    ⟨_, _, _, _, _, _, -, hres, -⟩
  · rfl
  · rfl
  · simp at hres

theorem execSucceeded_routeTaskCatch (env : Env) (taskRecord : TaskRecord)
    (assignedAgent : String) (startTime : ℤ) (error : JsError) (h : Trace) :
    execSucceeded (routeTaskCatch env taskRecord assignedAgent startTime error h).2 = false := by
  obtain ⟨t1, t2, h1, r1, w, hU, hc⟩ :=
    routeTaskCatch_shape env taskRecord assignedAgent startTime error h
  have hw := execSucceeded_of_updateTaskStatus hU
  rcases hc with ⟨e, -, hc⟩ | ⟨-, h2, hc⟩ <;> rw [hc] <;>
    simp only [execSucceeded_append, execSucceeded_clock, execSucceeded_logExecution, hw,
      Bool.or_self]

theorem Attempts.mem_accepted {s : String} {l : List (Option FieldValue × Bool)}
    (hl : Attempts s true l) : (some (FieldValue.str s), true) ∈ l := by
  obtain ⟨n, rfl⟩ := hl
  simp

/-- After a successful executor call the `try` block of `routeTask` logs the execution
and issues the `done` update, whose outcome is the outcome of the block. -/
theorem statusWrites_routeTaskTry_of_exec {env : Env} {taskRecord : TaskRecord}
    {systemTarget assignedAgent : String} {startTime : ℤ} {h : Trace}
    {res : Except JsError Unit} {t : Trace}
    (hT : routeTaskTry env taskRecord systemTarget assignedAgent startTime h = (res, t))
    (hexec : execSucceeded t = true) :
    ∃ a d, statusWrites t = a ++ d ∧ Attempts "in_progress" true a ∧
      ((res = .ok () ∧ Attempts "done" true d) ∨
        ((∃ e, res = .error e) ∧ Attempts "done" false d ∧
          (some (FieldValue.str "done"), false) ∈ d)) := by
  obtain ⟨t1, t2, h1, r1, w, hU, htry⟩ :=
    routeTaskTry_shape env taskRecord systemTarget assignedAgent startTime h
  rw [hT] at htry
  have hw := execSucceeded_of_updateTaskStatus hU
  rcases htry with ⟨e, -, heq⟩ | ⟨rfl, h2, r2, r, hR, hrest⟩
  · exfalso
    simp only [Prod.mk.injEq] at heq
    rw [heq.2] at hexec
    simp only [execSucceeded_append, execSucceeded_clock, hw, Bool.or_self] at hexec
    exact Bool.noConfusion hexec
  · have hA := (statusWrites_updateTaskStatus _ _ _ _ _).1 _ hU
    rcases hrest with ⟨e, rfl, heq⟩ | ⟨result, h3, h4, t3, t4, r3, d, rfl, hD, heq⟩
    · exfalso
      simp only [Prod.mk.injEq] at heq
      rw [heq.2] at hexec
      simp only [execSucceeded_append, execSucceeded_clock, hw,
        execSucceeded_of_routeToSuperChase hR, Bool.or_self] at hexec
      exact Bool.noConfusion hexec
    · simp only [Prod.mk.injEq] at heq
      obtain ⟨rfl, rfl⟩ := heq
      refine ⟨_, statusWrites d, ?_, hA, ?_⟩
      · simp only [statusWrites_append, statusWrites_clock, statusWrites_logExecution,
          statusWrites_of_routeToSuperChase hR, List.nil_append, List.append_nil]
      · cases res with
        | ok u =>
          cases u
          exact Or.inl ⟨rfl, (statusWrites_updateTaskStatus _ _ _ _ _).1 _ hD⟩
        | error e =>
          exact Or.inr ⟨⟨e, rfl⟩, (statusWrites_updateTaskStatus _ _ _ _ _).2 _ _ hD,
            failed_write_of_error hD⟩

/-- C21: `logExecution` runs to its end for every answer of the ledger store: it reads
the clock, posts one record and returns, whatever the answer to the post is.  So in
every execution of `routeTask` in which an executor call succeeded, for every answer
of the ledger (a failure included), a write of status `done` is issued; and when the
store accepts that write, `routeTask` returns normally and issues no write of status
`error`, so a write of status `error` is only issued when the store rejected the
`done` update itself. -/
theorem routeTask_ledger_failure_not_fatal (env : Env) (taskRecord : TaskRecord) (h : Trace)
    (hexec : execSucceeded (routeTask env taskRecord h).2 = true) :
    (∀ (taskRecordId agentUsed : String) (executionData : ExecutionData) (h0 : Trace),
      ∃ logData, logExecution env taskRecordId agentUsed executionData h0 =
        [Event.clock (env.now h0),
          Event.post logData (env.post (h0 ++ [Event.clock (env.now h0)]) logData)]) ∧
    (∃ b, (some (FieldValue.str "done"), b) ∈ statusWrites (routeTask env taskRecord h).2) ∧
    ((some (FieldValue.str "done"), true) ∈ statusWrites (routeTask env taskRecord h).2 →
      (routeTask env taskRecord h).1 = .ok () ∧
      ∀ b, (some (FieldValue.str "error"), b) ∉
        statusWrites (routeTask env taskRecord h).2) := by
  refine ⟨fun _ _ _ _ => ⟨_, rfl⟩, ?_⟩
  obtain ⟨t0, h1, r1, t, hT, hcase⟩ := routeTask_shape env taskRecord h
  rcases hcase with ⟨rfl, heq⟩ | ⟨error, h2, r2, c, rfl, hC, heq⟩
  · rw [heq] at hexec ⊢
    simp only [execSucceeded_append, execSucceeded_clock, Bool.false_or] at hexec
    obtain ⟨a, d, had, ha, hd⟩ := statusWrites_routeTaskTry_of_exec hT hexec
    rcases hd with ⟨-, hd⟩ | ⟨⟨e, he⟩, -, -⟩
    · simp only [statusWrites_append, statusWrites_clock, List.nil_append, had]
      refine ⟨⟨true, List.mem_append_right _ hd.mem_accepted⟩, fun _ => ⟨by trivial, ?_⟩⟩
      intro b hb
      rcases List.mem_append.1 hb with hb | hb
      · have := ha.status_eq _ hb
        simp at this
      · have := hd.status_eq _ hb
        simp at this
    · simp at he
  · have hc := execSucceeded_routeTaskCatch env taskRecord
      (resolveAssignment taskRecord.fields).2 t0 error h2
    obtain ⟨b, hcw⟩ := statusWrites_routeTaskCatch env taskRecord
      (resolveAssignment taskRecord.fields).2 t0 error h2
    rw [hC] at hc hcw
    rw [heq] at hexec ⊢
    simp only [execSucceeded_append, execSucceeded_clock, Bool.false_or, hc,
      Bool.or_false] at hexec
    obtain ⟨a, d, had, ha, hd⟩ := statusWrites_routeTaskTry_of_exec hT hexec
    rcases hd with ⟨he, -⟩ | ⟨-, hd, hmem⟩
    · simp at he
    · simp only [statusWrites_append, statusWrites_clock, List.nil_append, had]
      refine ⟨⟨false, List.mem_append_left _ (List.mem_append_right _ hmem)⟩, ?_⟩
      intro hdone
      exfalso
      rcases List.mem_append.1 hdone with hx | hx
      · rcases List.mem_append.1 hx with hx | hx
        · have := ha.status_eq _ hx
          simp at this
        · have := hd.not_accepted _ hx
          simp at this
      · have := hcw.status_eq _ hx
        simp at this

/-- C21 at a concrete run: the ledger answers 500 to every create, store and executor
succeed. -/
theorem routeTask_ledger_failure_not_fatal_witness :
    execSucceeded (routeTask failingLedgerEnv urgentTask []).2 = true ∧
    ((∀ (taskRecordId agentUsed : String) (executionData : ExecutionData) (h0 : Trace),
      ∃ logData, logExecution failingLedgerEnv taskRecordId agentUsed executionData h0 =
        [Event.clock (failingLedgerEnv.now h0),
          Event.post logData
            (failingLedgerEnv.post (h0 ++ [Event.clock (failingLedgerEnv.now h0)]) logData)]) ∧
    (∃ b, (some (FieldValue.str "done"), b) ∈
      statusWrites (routeTask failingLedgerEnv urgentTask []).2) ∧
    ((some (FieldValue.str "done"), true) ∈
        statusWrites (routeTask failingLedgerEnv urgentTask []).2 →
      (routeTask failingLedgerEnv urgentTask []).1 = .ok () ∧
      ∀ b, (some (FieldValue.str "error"), b) ∉
        statusWrites (routeTask failingLedgerEnv urgentTask []).2)) :=
  ⟨by decide, routeTask_ledger_failure_not_fatal failingLedgerEnv urgentTask [] (by decide)⟩

/-- The run with a ledger that rejects every record, in full: the status
writes are the accepted `in_progress` and `done` writes, and nothing is appended to the
ledger. -/
theorem routeTask_failing_ledger_run :
    (routeTask failingLedgerEnv urgentTask []).1 = .ok () ∧
    statusWrites (routeTask failingLedgerEnv urgentTask []).2 =
      [(some (.str "in_progress"), true), (some (.str "done"), true)] ∧
    (ledgerPosts (routeTask failingLedgerEnv urgentTask []).2).length = 1 ∧
    ledgerAppends (routeTask failingLedgerEnv urgentTask []).2 = [] := by
  refine ⟨rfl, by decide, by decide, by decide⟩

end Poller

namespace Poller

/-! ### A routing payload that parses to `null` -/

theorem buildTaskData_null (taskId systemTarget agent : String) :
    buildTaskData taskId Json.null systemTarget agent = none := rfl

theorem parsePayload_of_parsed (env : Env) (p : String) (v : Json) (hne : p ≠ "")
    (hparse : env.parse p = some v) : parsePayload env p = v := by
  simp [parsePayload, hne, hparse]

theorem issued_of_updateTaskStatus {env : Env} {recordId status : String}
    {additionalFields : Fields} {h : Trace} {res : Except JsError Unit} {w : Trace}
    (hU : updateTaskStatus env recordId status additionalFields h = (res, w)) :
    ∃ b, (some (FieldValue.str status), b) ∈ statusWrites w := by
  cases res with
  | ok u =>
    cases u
    exact ⟨true, ((statusWrites_updateTaskStatus _ _ _ _ _).1 _ hU).mem_accepted⟩
  | error e => exact ⟨false, failed_write_of_error hU⟩

theorem ledgerPosts_logExecution_failure (env : Env) (taskRecordId agentUsed : String)
    (seconds : ℤ) (message : String) (h : Trace) :
    ∃ record, ledgerPosts (logExecution env taskRecordId agentUsed
        (failureData seconds message) h) = [record] ∧
      record.cost_usd = 0 ∧
      record.output_summary = "Error after " ++ toString seconds ++ "s: " ++ message := by
  refine ⟨_, rfl, ?_, ?_⟩
  · simp [failureData, numOr]
  · exact strOr_some_of_ne _ "Task processed by SuperChase" (errorSummary_ne _ _)

/-- The `catch` block of `routeTask`: a write of status `error` is issued, no other
status is written, and when the store accepts the `error` write one failure record is
handed to the ledger. -/
theorem routeTaskCatch_writes {env : Env} {taskRecord : TaskRecord} {assignedAgent : String}
    {startTime : ℤ} {error : JsError} {h : Trace} {res : Except JsError Unit} {c : Trace}
    (hC : routeTaskCatch env taskRecord assignedAgent startTime error h = (res, c)) :
    (∃ b, (some (FieldValue.str "error"), b) ∈ statusWrites c) ∧
    (∀ x ∈ statusWrites c, x.1 = some (FieldValue.str "error")) ∧
    ((some (FieldValue.str "error"), true) ∈ statusWrites c →
      ∃ (record : LogData) (seconds : ℤ), ledgerPosts c = [record] ∧ record.cost_usd = 0 ∧
        record.output_summary =
          "Error after " ++ toString seconds ++ "s: " ++ error.message) := by
  obtain ⟨t1, t2, h1, r1, w, hU, hc⟩ :=
    routeTaskCatch_shape env taskRecord assignedAgent startTime error h
  rw [hC] at hc
  obtain ⟨b, hb⟩ := issued_of_updateTaskStatus hU
  rcases hc with ⟨e, rfl, heq⟩ | ⟨rfl, h2, heq⟩
  · simp only [Prod.mk.injEq] at heq
    obtain ⟨-, rfl⟩ := heq
    have hA := (statusWrites_updateTaskStatus _ _ _ _ _).2 _ _ hU
    simp only [statusWrites_append, statusWrites_clock, List.nil_append]
    refine ⟨⟨b, hb⟩, hA.status_eq, ?_⟩
    intro hacc
    have := hA.not_accepted _ hacc
    simp at this
  · simp only [Prod.mk.injEq] at heq
    obtain ⟨-, rfl⟩ := heq
    have hA := (statusWrites_updateTaskStatus _ _ _ _ _).1 _ hU
    simp only [statusWrites_append, statusWrites_clock, statusWrites_logExecution,
      List.nil_append, List.append_nil, ledgerPosts_append, ledgerPosts_clock,
      ledgerPosts_of_updateTaskStatus hU]
    refine ⟨⟨b, hb⟩, hA.status_eq, fun _ => ?_⟩
    obtain ⟨record, hrec, hcost, hsum⟩ := ledgerPosts_logExecution_failure env taskRecord.id
      assignedAgent (elapsedSeconds startTime t1) error.message h2
    exact ⟨record, _, hrec, hcost, hsum⟩

/-- C29: for every work item whose routing payload is a non-empty text that
`JSON.parse` reads as `null`, for every behaviour of the store, the executor and the
ledger: the parse does not throw, so the payload is `null` and no warning is logged;
building the task descriptor fails; `routeTask` never calls the executor; a write of
status `error` is issued and no write of status `done`; and when the store accepts the
`error` write, exactly one execution record is handed to the ledger, a failure record
with cost 0 and the summary `Error after <n>s: <message>`, the message being that of
the `TypeError` of the property read on `null` whenever the `in_progress` write had
been accepted. -/
theorem routeTask_null_payload (env : Env) (taskRecord : TaskRecord) (h : Trace) (p : String)
    (hpayload : taskRecord.fields.routing_payload = some p) (hne : p ≠ "")
    (hparse : env.parse p = some Json.null) :
    parsePayload env (strOr taskRecord.fields.routing_payload "") = Json.null ∧
    descriptorOf env taskRecord = none ∧
    execCalls (routeTask env taskRecord h).2 = [] ∧
    (∃ b, (some (FieldValue.str "error"), b) ∈ statusWrites (routeTask env taskRecord h).2) ∧
    (∀ b, (some (FieldValue.str "done"), b) ∉ statusWrites (routeTask env taskRecord h).2) ∧
    ((some (FieldValue.str "error"), true) ∈ statusWrites (routeTask env taskRecord h).2 →
      ∃ (record : LogData) (seconds : ℤ) (message : String),
        ledgerPosts (routeTask env taskRecord h).2 = [record] ∧ record.cost_usd = 0 ∧
        record.output_summary = "Error after " ++ toString seconds ++ "s: " ++ message ∧
        ((some (FieldValue.str "in_progress"), true) ∈
            statusWrites (routeTask env taskRecord h).2 →
          message = "Cannot read properties of null (reading 'goal')")) := by
  have hpp : parsePayload env (strOr taskRecord.fields.routing_payload "") = Json.null := by
    rw [hpayload, strOr_some_of_ne p "" hne]
    exact parsePayload_of_parsed env p _ hne hparse
  have hdesc : descriptorOf env taskRecord = none := by
    unfold descriptorOf
    rw [hpp, buildTaskData_null]
    rfl
  refine ⟨hpp, hdesc, ?_⟩
  obtain ⟨t0, h1, r1, t, hT, hcase⟩ := routeTask_shape env taskRecord h
  obtain ⟨t1, t2, g1, u1, w, hU, htry⟩ := routeTaskTry_shape env taskRecord
    (resolveAssignment taskRecord.fields).1 (resolveAssignment taskRecord.fields).2 t0 h1
  rw [hT] at htry
  -- the `try` block raises before the executor call
  have hraise : ∃ error, r1 = .error error ∧ execCalls t = [] ∧ ledgerPosts t = [] ∧
      (∀ x ∈ statusWrites t, x.1 = some (FieldValue.str "in_progress")) ∧
      ((some (FieldValue.str "in_progress"), true) ∈ statusWrites t →
        error.message = "Cannot read properties of null (reading 'goal')") := by
    rcases htry with ⟨e, rfl, heq⟩ | ⟨rfl, h2, r2, r, hR, hrest⟩
    · simp only [Prod.mk.injEq] at heq
      obtain ⟨rfl, rfl⟩ := heq
      have hA := (statusWrites_updateTaskStatus _ _ _ _ _).2 _ _ hU
      refine ⟨e, rfl, ?_, ?_, ?_, ?_⟩
      · simp only [execCalls_append, execCalls_clock, execCalls_of_updateTaskStatus hU,
          List.nil_append]
      · simp only [ledgerPosts_append, ledgerPosts_clock, ledgerPosts_of_updateTaskStatus hU,
          List.nil_append]
      · simpa only [statusWrites_append, statusWrites_clock, List.nil_append] using
          hA.status_eq
      · intro hacc
        simp only [statusWrites_append, statusWrites_clock, List.nil_append] at hacc
        have := hA.not_accepted _ hacc
        simp at this
    · have hA := (statusWrites_updateTaskStatus _ _ _ _ _).1 _ hU
      rw [hpp] at hR
      have hr : r2 = .error nullPayloadError ∧ r = [] := by
        rcases routeToSuperChase_shape hR with ⟨-, hres, hr⟩ |
          ⟨_, _, _, _, hb, -, -⟩ | ⟨_, _, _, _, _, _, hb, -, -⟩
        · exact ⟨hres, hr⟩
        · rw [buildTaskData_null] at hb
          simp at hb
        · rw [buildTaskData_null] at hb
          simp at hb
      obtain ⟨rfl, rfl⟩ := hr
      rcases hrest with ⟨e, he, heq⟩ | ⟨result, _, _, _, _, _, _, hres, -, -⟩
      · simp only [Prod.mk.injEq] at heq
        obtain ⟨rfl, rfl⟩ := heq
        simp only [Except.error.injEq] at he
        subst he
        refine ⟨nullPayloadError, rfl, ?_, ?_, ?_, fun _ => rfl⟩
        · simp only [execCalls_append, execCalls_clock, execCalls_of_updateTaskStatus hU,
            List.nil_append, List.append_nil]
        · simp only [ledgerPosts_append, ledgerPosts_clock,
            ledgerPosts_of_updateTaskStatus hU, List.nil_append, List.append_nil]
        · simpa only [statusWrites_append, statusWrites_clock, List.nil_append,
            List.append_nil] using hA.status_eq
      · simp at hres
  obtain ⟨error, rfl, hex, hled, hst, hmsg⟩ := hraise
  rcases hcase with ⟨hok, -⟩ | ⟨error2, h2, r2, c, herr, hC, heq⟩
  · simp at hok
  · simp only [Except.error.injEq] at herr
    subst herr
    obtain ⟨⟨b, hb⟩, hcst, hcled⟩ := routeTaskCatch_writes hC
    have hcex := execCalls_routeTaskCatch env taskRecord
      (resolveAssignment taskRecord.fields).2 t0 error h2
    rw [hC] at hcex
    rw [heq]
    simp only [execCalls_append, execCalls_clock, hex, hcex, List.nil_append,
      statusWrites_append, statusWrites_clock, ledgerPosts_append, ledgerPosts_clock, hled,
      List.mem_append, List.append_nil, true_and]
    refine ⟨⟨b, Or.inr hb⟩, ?_, ?_⟩
    · rintro b2 (hx | hx)
      · have := hst _ hx
        simp at this
      · have := hcst _ hx
        simp at this
    · rintro (hx | hx)
      · have := hst _ hx
        simp at this
      · obtain ⟨record, seconds, hrec, hcost, hsum⟩ := hcled hx
        refine ⟨record, seconds, error.message, hrec, hcost, hsum, ?_⟩
        rintro (hy | hy)
        · exact hmsg hy
        · have := hcst _ hy
          simp at this

/-- C29 at a concrete record with the payload text `null`. -/
theorem routeTask_null_payload_witness :
    parsePayload nullParsingEnv (strOr nullPayloadTask.fields.routing_payload "") =
      Json.null ∧
    descriptorOf nullParsingEnv nullPayloadTask = none ∧
    execCalls (routeTask nullParsingEnv nullPayloadTask []).2 = [] ∧
    (∃ b, (some (FieldValue.str "error"), b) ∈
      statusWrites (routeTask nullParsingEnv nullPayloadTask []).2) ∧
    (∀ b, (some (FieldValue.str "done"), b) ∉
      statusWrites (routeTask nullParsingEnv nullPayloadTask []).2) ∧
    ((some (FieldValue.str "error"), true) ∈
        statusWrites (routeTask nullParsingEnv nullPayloadTask []).2 →
      ∃ (record : LogData) (seconds : ℤ) (message : String),
        ledgerPosts (routeTask nullParsingEnv nullPayloadTask []).2 = [record] ∧
        record.cost_usd = 0 ∧
        record.output_summary = "Error after " ++ toString seconds ++ "s: " ++ message ∧
        ((some (FieldValue.str "in_progress"), true) ∈
            statusWrites (routeTask nullParsingEnv nullPayloadTask []).2 →
          message = "Cannot read properties of null (reading 'goal')")) :=
  routeTask_null_payload nullParsingEnv nullPayloadTask [] "null" rfl (by decide) rfl

/-- The run on the payload text `null` with collaborators that all succeed, in full:
the status writes are the accepted `in_progress` and `error` writes, the `error` write
carries the message of the `TypeError`, and one failure record is appended. -/
theorem null_payload_run :
    (routeTask nullParsingEnv nullPayloadTask []).1 = .ok () ∧
    statusWrites (routeTask nullParsingEnv nullPayloadTask []).2 =
      [(some (.str "in_progress"), true), (some (.str "error"), true)] ∧
    (patchPayloads (routeTask nullParsingEnv nullPayloadTask []).2).map
        (fun payload => getField payload "last_error") =
      [none, some (.str "Cannot read properties of null (reading 'goal')")] ∧
    (ledgerAppends (routeTask nullParsingEnv nullPayloadTask []).2).length = 1 := by
  refine ⟨rfl, by decide, by decide, by decide⟩

end Poller

namespace Poller

/-! ### One write rejected for an unknown field -/

theorem rejections_append (a b : Trace) :
    rejections (a ++ b) = rejections a ++ rejections b := by
  simp [rejections, List.filterMap_append]

theorem rejections_clock (ms : ℤ) : rejections [Event.clock ms] = [] := rfl

theorem rejections_logExecution (env : Env) (taskRecordId agentUsed : String)
    (executionData : ExecutionData) (h : Trace) :
    rejections (logExecution env taskRecordId agentUsed executionData h) = [] := by
  simp [rejections, logExecution, List.filterMap_cons]

theorem rejections_of_routeToSuperChase {env : Env} {taskId : String} {payload : Json}
    {systemTarget agent : String} {h : Trace} {res : Except JsError RouteResult} {r : Trace}
    (hR : routeToSuperChase env taskId payload systemTarget agent h = (res, r)) :
    rejections r = [] := by
  rcases routeToSuperChase_shape hR with ⟨-, -, rfl⟩ | ⟨_, _, _, _, -, -, rfl⟩ |
    ⟨_, _, _, _, _, _, -, -, -, rfl⟩ <;> rfl

theorem storedFields_clock (recordId : String) (stored : Fields) (ms : ℤ) :
    storedFields recordId stored [Event.clock ms] = stored := rfl

theorem storedFields_logExecution (env : Env) (recordId : String) (stored : Fields)
    (taskRecordId agentUsed : String) (executionData : ExecutionData) (h : Trace) :
    storedFields recordId stored (logExecution env taskRecordId agentUsed executionData h) =
      stored := rfl

theorem storedFields_of_routeToSuperChase {env : Env} {taskId : String} {payload : Json}
    {systemTarget agent : String} {h : Trace} {res : Except JsError RouteResult} {r : Trace}
    (hR : routeToSuperChase env taskId payload systemTarget agent h = (res, r))
    (recordId : String) (stored : Fields) :
    storedFields recordId stored r = stored := by
  rcases routeToSuperChase_shape hR with ⟨-, -, rfl⟩ | ⟨_, _, _, _, -, -, rfl⟩ |
    ⟨_, _, _, _, _, _, -, -, -, rfl⟩ <;> rfl

theorem not_rejectedOnce_of_two (l1 l2 : List JsError) (a b : JsError) :
    ¬ RejectedOnce (l1 ++ [a, b] ++ l2) := by
  rintro ⟨e, he, -⟩
  have := congrArg List.length he
  simp at this
  omega

theorem not_rejectedOnce_of_other (l1 l2 : List JsError) (a : JsError)
    (ha : a.responseStatus ≠ some 422) : ¬ RejectedOnce (l1 ++ [a] ++ l2) := by
  rintro ⟨e, he, h422⟩
  have hmem : a ∈ l1 ++ [a] ++ l2 := by simp
  rw [he, List.mem_singleton] at hmem
  rw [hmem] at ha
  exact ha h422

/-- What a call of `updateTaskStatus` leaves in the store: when it returns, either the
full payload was merged and nothing was rejected, or one write was rejected with 422
and the status alone was merged; when it raises, its rejections rule out that the run
has a single rejection with status 422. -/
theorem updateTaskStatus_effect {env : Env} {recordId status : String}
    {additionalFields : Fields} {h : Trace} {res : Except JsError Unit} {w : Trace}
    (hU : updateTaskStatus env recordId status additionalFields h = (res, w))
    (stored : Fields) :
    (res = .ok () ∧
      ((rejections w = [] ∧
          storedFields recordId stored w =
            mergeFields stored (buildUpdateData status additionalFields) ∧
          statusWrites w = [(some (FieldValue.str status), true)]) ∨
        (∃ e, e.responseStatus = some 422 ∧ rejections w = [e] ∧
          storedFields recordId stored w =
            mergeFields stored [("status", FieldValue.str status)] ∧
          statusWrites w =
            [(some (FieldValue.str status), false), (some (FieldValue.str status), true)]))) ∨
    ((∃ e, res = .error e) ∧ ∀ l1 l2, ¬ RejectedOnce (l1 ++ rejections w ++ l2)) := by
  have hst := getField_buildUpdateData_status status additionalFields
  rcases updateTaskStatus_shape hU with ⟨rfl, rfl⟩ | ⟨e, he, rfl, rfl⟩ | ⟨e, e2, -, rfl, rfl⟩ |
    ⟨e, he, rfl, rfl⟩
  · left
    refine ⟨rfl, Or.inl ⟨rfl, ?_, ?_⟩⟩
    · simp [storedFields]
    · simp [statusWrites, hst]
  · left
    refine ⟨rfl, Or.inr ⟨e, he, rfl, ?_, ?_⟩⟩
    · simp [storedFields]
    · have hso : getField [("status", FieldValue.str status)] "status" =
          some (FieldValue.str status) := rfl
      simp [statusWrites, hst, hso]
  · right
    exact ⟨⟨e2, rfl⟩, fun l1 l2 => not_rejectedOnce_of_two l1 l2 e e2⟩
  · right
    exact ⟨⟨e, rfl⟩, fun l1 l2 => not_rejectedOnce_of_other l1 l2 e he⟩

theorem getField_status_only (stored : Fields) (status k : String) :
    getField (mergeFields stored [("status", FieldValue.str status)]) k =
      if k = "status" then some (FieldValue.str status) else getField stored k := by
  simp [mergeFields, getField_setField]

theorem getField_inProgress_completed (stored : Fields) (a b c d : String) :
    getField (mergeFields stored (buildUpdateData "in_progress" (inProgressFields a b c d)))
      "completed_at" = getField stored "completed_at" := by
  apply getField_mergeFields_of_not_key
  have : buildUpdateData "in_progress" (inProgressFields a b c d) =
      [("status", .str "in_progress"), ("started_at", .str a), ("routed_at", .str b),
        ("system_target", .str c), ("assigned_agent", .str d)] := by
    simp [buildUpdateData, inProgressFields, safeFields, setField]
  rw [this]
  simp

theorem getField_done_completed (stored : Fields) (stamp : String) (cost : JsNum) :
    getField (mergeFields stored (buildUpdateData "done" (doneFields stamp cost)))
      "completed_at" = some (.str stamp) := by
  apply getField_mergeFields_of_written _ _ _ _ (nodup_keys_buildUpdateData _ _)
  simp [buildUpdateData, doneFields, safeFields, setField, getField, List.lookup]

theorem getField_error_completed (stored : Fields) (message stamp : String) :
    getField (mergeFields stored (buildUpdateData "error" (errorFields message stamp)))
      "completed_at" = some (.str stamp) := by
  apply getField_mergeFields_of_written _ _ _ _ (nodup_keys_buildUpdateData _ _)
  simp [buildUpdateData, errorFields, safeFields, setField, getField, List.lookup]

end Poller

namespace Poller

theorem not_rejectedOnce_nil : ¬ RejectedOnce [] := by
  rintro ⟨e, he, -⟩
  simp at he

theorem getField_status_only_status (stored : Fields) (status : String) :
    getField (mergeFields stored [("status", FieldValue.str status)]) "status" =
      some (FieldValue.str status) := by
  rw [getField_status_only, if_pos rfl]

theorem getField_status_only_completed (stored : Fields) (status : String) :
    getField (mergeFields stored [("status", FieldValue.str status)]) "completed_at" =
      getField stored "completed_at" := by
  rw [getField_status_only, if_neg (by decide)]

/-- C24, as the code behaves: in every execution of `routeTask` in which the store
rejects exactly one status write and rejects it with HTTP status 422, whatever the
other collaborators do, the status-only retry is accepted, `routeTask` returns
normally, the accepted writes are `in_progress` followed by `done` or by `error`, and
the stored status of the item is terminal.  The field `completed_at` is written only
when the rejected write was the `in_progress` write; when the rejected write is the
`done` or the `error` write, the retry carries the status alone, so `completed_at`
keeps the value it had before the run. -/
theorem routeTask_single_rejection (env : Env) (taskRecord : TaskRecord) (h : Trace)
    (stored : Fields)
    (hone : ∃ e, rejections (routeTask env taskRecord h).2 = [e] ∧
      e.responseStatus = some 422) :
    (routeTask env taskRecord h).1 = .ok () ∧
    (acceptedStatuses (routeTask env taskRecord h).2 =
        [some (.str "in_progress"), some (.str "done")] ∨
      acceptedStatuses (routeTask env taskRecord h).2 =
        [some (.str "in_progress"), some (.str "error")]) ∧
    isTerminal (getField
      (storedFields taskRecord.id stored (routeTask env taskRecord h).2) "status") = true ∧
    ((some (FieldValue.str "in_progress"), false) ∈
        statusWrites (routeTask env taskRecord h).2 →
      ∃ stamp, getField (storedFields taskRecord.id stored (routeTask env taskRecord h).2)
        "completed_at" = some (.str stamp)) ∧
    ((some (FieldValue.str "in_progress"), false) ∉
        statusWrites (routeTask env taskRecord h).2 →
      getField (storedFields taskRecord.id stored (routeTask env taskRecord h).2)
        "completed_at" = getField stored "completed_at") := by
  have hone : RejectedOnce (rejections (routeTask env taskRecord h).2) := hone
  obtain ⟨t0, h1, r1, t, hT, hcase⟩ := routeTask_shape env taskRecord h
  obtain ⟨t1, t2, g1, u1, w, hU, htry⟩ := routeTaskTry_shape env taskRecord
    (resolveAssignment taskRecord.fields).1 (resolveAssignment taskRecord.fields).2 t0 h1
  rw [hT] at htry
  rcases htry with ⟨e, rfl, heq⟩ | ⟨rfl, h2, r2, r, hR, hrest⟩
  · -- the `in_progress` update raised
    exfalso
    simp only [Prod.mk.injEq] at heq
    obtain ⟨rfl, rfl⟩ := heq
    rcases updateTaskStatus_effect hU stored with ⟨hok, -⟩ | ⟨-, hno⟩
    · simp at hok
    · rcases hcase with ⟨hok, -⟩ | ⟨error, h2, r2, c, -, hC, heq2⟩
      · simp at hok
      · rw [heq2] at hone
        simp only [rejections_append, rejections_clock, List.nil_append] at hone
        exact hno [] (rejections c) (by simpa only [List.nil_append] using hone)
  · have hrr := rejections_of_routeToSuperChase hR
    have hrs := statusWrites_of_routeToSuperChase hR
    have hrf := fun s => storedFields_of_routeToSuperChase hR taskRecord.id s
    rcases updateTaskStatus_effect hU stored with ⟨-, hip⟩ | ⟨⟨e, he⟩, -⟩
    swap
    · simp at he
    rcases hrest with ⟨e, rfl, heq⟩ | ⟨result, h3, h4, t3, t4, r3, d, rfl, hD, heq⟩
    · -- `routeToSuperChase` raised: the `catch` block writes the status `error`
      simp only [Prod.mk.injEq] at heq
      obtain ⟨rfl, rfl⟩ := heq
      rcases hcase with ⟨hok, -⟩ | ⟨error, h5, r5, c, herr, hC, heq2⟩
      · simp at hok
      · simp only [Except.error.injEq] at herr
        subst herr
        obtain ⟨c1, c2, g2, u2, x, hE, hc⟩ := routeTaskCatch_shape env taskRecord
          (resolveAssignment taskRecord.fields).2 t0 e h5
        rw [hC] at hc
        have hcproj : rejections c = rejections x ∧ statusWrites c = statusWrites x ∧
            (∀ s, storedFields taskRecord.id s c = storedFields taskRecord.id s x) ∧
            r5 = u2 := by
          rcases hc with ⟨e2, rfl, hc⟩ | ⟨rfl, g3, hc⟩
          · simp only [Prod.mk.injEq] at hc
            obtain ⟨hr5, rfl⟩ := hc
            refine ⟨?_, ?_, fun s => ?_, hr5⟩
            · simp only [rejections_append, rejections_clock, List.nil_append]
            · simp only [statusWrites_append, statusWrites_clock, List.nil_append]
            · simp only [storedFields_append, storedFields_clock]
          · simp only [Prod.mk.injEq] at hc
            obtain ⟨hr5, rfl⟩ := hc
            refine ⟨?_, ?_, fun s => ?_, hr5⟩
            · simp only [rejections_append, rejections_clock, rejections_logExecution,
                List.nil_append, List.append_nil]
            · simp only [statusWrites_append, statusWrites_clock, statusWrites_logExecution,
                List.nil_append, List.append_nil]
            · simp only [storedFields_append, storedFields_clock, storedFields_logExecution]
        obtain ⟨hcr, hcs, hcf, rfl⟩ := hcproj
        rw [heq2] at hone ⊢
        simp only [rejections_append, rejections_clock, hrr, hcr, List.nil_append,
          List.append_nil] at hone
        simp only [acceptedStatuses, statusWrites_append, statusWrites_clock, hrs, hcs,
          storedFields_append, storedFields_clock, hrf, hcf, List.nil_append, List.append_nil]
        rcases updateTaskStatus_effect hE (storedFields taskRecord.id stored w) with
          ⟨rfl, herrw⟩ | ⟨-, hno⟩
        swap
        · exact absurd hone (by simpa only [List.append_nil] using hno (rejections w) [])
        rcases hip with ⟨hr1, hf1, hs1⟩ | ⟨e1, he1, hr1, hf1, hs1⟩ <;>
          rcases herrw with ⟨hr2, hf2, hs2⟩ | ⟨e2, he2, hr2, hf2, hs2⟩ <;>
          rw [hr1, hr2] at hone
        · exact absurd hone not_rejectedOnce_nil
        · rw [hf2, hf1, hs1, hs2]
          refine ⟨rfl, Or.inr (by decide), ?_, fun hmem => ?_, fun _ => ?_⟩
          · rw [getField_status_only_status]; rfl
          · simp at hmem
          · rw [getField_status_only_completed, getField_inProgress_completed]
        · rw [hf2, hf1, hs1, hs2]
          refine ⟨rfl, Or.inr (by decide), ?_, fun _ => ?_, fun hmem => ?_⟩
          · rw [getField_mergeFields_status]; rfl
          · exact ⟨_, getField_error_completed _ _ _⟩
          · simp at hmem
        · exact absurd hone (not_rejectedOnce_of_two [] [] e1 e2)
    · -- the executor call returned: the `done` update decides
      simp only [Prod.mk.injEq] at heq
      obtain ⟨rfl, rfl⟩ := heq
      rcases updateTaskStatus_effect hD (storedFields taskRecord.id stored w) with
        ⟨rfl, hdone⟩ | ⟨-, hno⟩
      · rcases hcase with ⟨-, heq2⟩ | ⟨error, h5, r5, c, herr, -, -⟩
        swap
        · simp at herr
        rw [heq2] at hone ⊢
        simp only [rejections_append, rejections_clock, rejections_logExecution, hrr,
          List.nil_append, List.append_nil] at hone
        simp only [acceptedStatuses, statusWrites_append, statusWrites_clock,
          statusWrites_logExecution, hrs, storedFields_append, storedFields_clock,
          storedFields_logExecution, hrf, List.nil_append, List.append_nil]
        rcases hip with ⟨hr1, hf1, hs1⟩ | ⟨e1, he1, hr1, hf1, hs1⟩ <;>
          rcases hdone with ⟨hr2, hf2, hs2⟩ | ⟨e2, he2, hr2, hf2, hs2⟩ <;>
          rw [hr1, hr2] at hone
        · exact absurd hone not_rejectedOnce_nil
        · rw [hf2, hf1, hs1, hs2]
          refine ⟨trivial, Or.inl (by decide), ?_, fun hmem => ?_, fun _ => ?_⟩
          · rw [getField_status_only_status]; rfl
          · simp at hmem
          · rw [getField_status_only_completed, getField_inProgress_completed]
        · rw [hf2, hf1, hs1, hs2]
          refine ⟨trivial, Or.inl (by decide), ?_, fun _ => ?_, fun hmem => ?_⟩
          · rw [getField_mergeFields_status]; rfl
          · exact ⟨_, getField_done_completed _ _ _⟩
          · simp at hmem
        · exact absurd hone (not_rejectedOnce_of_two [] [] e1 e2)
      · exfalso
        rcases hcase with ⟨-, heq2⟩ | ⟨error, h5, r5, c, -, -, heq2⟩ <;>
          rw [heq2] at hone <;>
          simp only [rejections_append, rejections_clock, rejections_logExecution, hrr,
            List.nil_append, List.append_nil] at hone
        · exact hno (rejections w) [] (by simpa only [List.append_nil] using hone)
        · exact hno (rejections w) (rejections c) hone

/-- C24 as amended, at a run in which the table of the store has no field
`routed_at`: the `in_progress` write is rejected once, and the item ends with status
`done` and a `completed_at` stamp. -/
theorem routeTask_single_rejection_witness :
    (∃ e, rejections (routeTask unknownRoutedFieldEnv urgentTask []).2 = [e] ∧
      e.responseStatus = some 422) ∧
    ((routeTask unknownRoutedFieldEnv urgentTask []).1 = .ok () ∧
    (acceptedStatuses (routeTask unknownRoutedFieldEnv urgentTask []).2 =
        [some (.str "in_progress"), some (.str "done")] ∨
      acceptedStatuses (routeTask unknownRoutedFieldEnv urgentTask []).2 =
        [some (.str "in_progress"), some (.str "error")]) ∧
    isTerminal (getField (storedFields urgentTask.id [("status", .str "new")]
      (routeTask unknownRoutedFieldEnv urgentTask []).2) "status") = true ∧
    ((some (FieldValue.str "in_progress"), false) ∈
        statusWrites (routeTask unknownRoutedFieldEnv urgentTask []).2 →
      ∃ stamp, getField (storedFields urgentTask.id [("status", .str "new")]
        (routeTask unknownRoutedFieldEnv urgentTask []).2) "completed_at" =
          some (.str stamp)) ∧
    ((some (FieldValue.str "in_progress"), false) ∉
        statusWrites (routeTask unknownRoutedFieldEnv urgentTask []).2 →
      getField (storedFields urgentTask.id [("status", .str "new")]
        (routeTask unknownRoutedFieldEnv urgentTask []).2) "completed_at" =
        getField [("status", .str "new")] "completed_at")) :=
  ⟨⟨{ message := "Request failed with status code 422", responseStatus := some 422 },
      by decide, rfl⟩,
    routeTask_single_rejection unknownRoutedFieldEnv urgentTask [] [("status", .str "new")]
      ⟨{ message := "Request failed with status code 422", responseStatus := some 422 },
        by decide, rfl⟩⟩

/-- C24 refuted as stated: the table of the store has no field `cost_actual`, every
other collaborator call succeeds.  The `done` write is the one write that is rejected,
once and with status 422; its status-only retry is accepted and `routeTask` returns
normally; the item ends with the stored status `done`, and `completed_at` is not set
in the store, because the retry carries the status alone. -/
theorem routeTask_done_retry_drops_completed_at :
    rejections (routeTask unknownCostFieldEnv urgentTask []).2 =
      [{ message := "Request failed with status code 422", responseStatus := some 422 }] ∧
    (routeTask unknownCostFieldEnv urgentTask []).1 = .ok () ∧
    statusWrites (routeTask unknownCostFieldEnv urgentTask []).2 =
      [(some (.str "in_progress"), true), (some (.str "done"), false),
        (some (.str "done"), true)] ∧
    (execCalls (routeTask unknownCostFieldEnv urgentTask []).2).length = 1 ∧
    (ledgerAppends (routeTask unknownCostFieldEnv urgentTask []).2).length = 1 ∧
    getField (storedFields urgentTask.id [("status", .str "new")]
      (routeTask unknownCostFieldEnv urgentTask []).2) "status" = some (.str "done") ∧
    getField (storedFields urgentTask.id [("status", .str "new")]
      (routeTask unknownCostFieldEnv urgentTask []).2) "completed_at" = none := by
  refine ⟨by decide, rfl, by decide, by decide, by decide, by decide, by decide⟩

end Poller

namespace Poller

/-! ### The cost in the execution record and in the `done` update -/

theorem agentMultiplier_of_known (agent : String) (hagent : agent ∈ knownAgents) :
    ∃ multiplier, agentMultiplier agent = some multiplier ∧ 0 ≤ multiplier := by
  simp only [knownAgents, List.mem_cons, List.mem_singleton, List.not_mem_nil, or_false]
    at hagent
  rcases hagent with rfl | rfl | rfl | rfl
  · exact ⟨_, rfl, fl_nonneg _ (by norm_num)⟩
  · exact ⟨_, rfl, fl_nonneg _ (by norm_num)⟩
  · exact ⟨_, rfl, fl_nonneg _ (by norm_num)⟩
  · exact ⟨_, rfl, fl_nonneg _ (by norm_num)⟩

/-- For a goal that is a string or an array and an agent of the table the token
estimate is a whole number that is not negative. -/
theorem estimateTokenUsage_of_length (goal : Json) (agent : String)
    (hgoal : (∃ s, goal = Json.str s) ∨ (∃ xs, goal = Json.arr xs))
    (hagent : agent ∈ knownAgents) :
    ∃ tokens : ℤ, estimateTokenUsage goal agent = some (tokens : ℚ) ∧ 0 ≤ tokens := by
  obtain ⟨multiplier, hm, hm0⟩ := agentMultiplier_of_known agent hagent
  obtain ⟨len, hlen⟩ : ∃ len : ℕ, jsLength goal = some (len : ℚ) := by
    rcases hgoal with ⟨s, rfl⟩ | ⟨xs, rfl⟩
    · exact ⟨utf16Length s, rfl⟩
    · exact ⟨xs.length, rfl⟩
  unfold estimateTokenUsage
  rw [hlen, hm]
  exact ⟨_, rfl, mathRound_nonneg _
    (fl_nonneg _ (mul_nonneg (fl_nonneg _ (by positivity)) hm0))⟩

/-- For a goal that is a number or a truth value the read `goal.length` finds nothing
and the token estimate is `NaN`. -/
theorem estimateTokenUsage_of_no_length (goal : Json) (agent : String)
    (hgoal : (∃ n, goal = Json.num n) ∨ (∃ b, goal = Json.bool b)) :
    estimateTokenUsage goal agent = none := by
  rcases hgoal with ⟨n, rfl⟩ | ⟨b, rfl⟩ <;>
    · unfold estimateTokenUsage jsLength
      cases agentMultiplier agent <;> rfl

theorem calculateCost_of_no_tokens (agent : String) (seconds : ℚ) :
    calculateCost agent seconds none = none := by
  unfold calculateCost
  cases baseCost agent <;> rfl

theorem calculateCost_of_unknown (agent : String) (hagent : agent ∉ knownAgents)
    (seconds : ℚ) (tokensUsed : JsNum) : calculateCost agent seconds tokensUsed = none := by
  have hb : baseCost agent = none := by
    unfold baseCost
    split
    · exact absurd (by decide) hagent
    · exact absurd (by decide) hagent
    · exact absurd (by decide) hagent
    · exact absurd (by decide) hagent
    · rfl
  unfold calculateCost
  rw [hb]

theorem baseCost_of_known (agent : String) (hagent : agent ∈ knownAgents) :
    ∃ base, baseCost agent = some (fl base) ∧ (1 : ℚ) / 125 ≤ base := by
  simp only [knownAgents, List.mem_cons, List.mem_singleton, List.not_mem_nil, or_false]
    at hagent
  rcases hagent with rfl | rfl | rfl | rfl
  · exact ⟨0.015, rfl, by norm_num⟩
  · exact ⟨0.03, rfl, by norm_num⟩
  · exact ⟨0.008, rfl, by norm_num⟩
  · exact ⟨0.05, rfl, by norm_num⟩

theorem calculateCost_isSome (agent : String) (hagent : agent ∈ knownAgents) (seconds : ℚ)
    (tokensUsed : JsNum) :
    (calculateCost agent seconds tokensUsed).isSome = tokensUsed.isSome := by
  obtain ⟨base, hb, -⟩ := baseCost_of_known agent hagent
  unfold calculateCost
  rw [hb]
  cases tokensUsed <;> rfl

theorem fl_one_cent : fl 0.01 = 5764607523034235 * (2 : ℚ) ^ (-59 : ℤ) := by
  have := fl_eq_of_near_pos 0.01 (-59) 5764607523034235 (by norm_num) (by norm_num)
    (by norm_num) (by norm_num) (by norm_num)
  exact_mod_cast this

theorem intCast_zero_or_one_le (n : ℤ) (hn : 0 ≤ n) : (n : ℚ) = 0 ∨ (1 : ℚ) ≤ n := by
  rcases eq_or_lt_of_le hn with h | h
  · left; exact_mod_cast h.symm
  · right; exact_mod_cast h

/-- For a known agent, non-negative whole elapsed seconds and a non-negative whole token
count the cost is a defined amount of at least one cent: it is not below the double
`0.01`, which is not below the exact hundredth. -/
theorem calculateCost_ge (agent : String) (hagent : agent ∈ knownAgents) (seconds tokens : ℤ)
    (hs : 0 ≤ seconds) (ht : 0 ≤ tokens) :
    ∃ cost, calculateCost agent seconds (some (tokens : ℚ)) = some cost ∧
      fl 0.01 ≤ cost ∧ (1 : ℚ) / 100 ≤ cost := by
  obtain ⟨base, hb, hbase⟩ := baseCost_of_known agent hagent
  have hW := cents_within base (by linarith) seconds tokens
    (intCast_zero_or_one_le seconds hs) (intCast_zero_or_one_le tokens ht)
  have hs0 : (0 : ℚ) ≤ seconds := by exact_mod_cast hs
  have ht0 : (0 : ℚ) ≤ tokens := by exact_mod_cast ht
  have hx : (4 : ℚ) / 5 ≤ (base + tokens * 0.000002 + seconds * 0.001) * 100 := by
    nlinarith
  have hhalf := abs_sub_le_of_within_five hW (by linarith)
  rw [abs_le] at hhalf
  unfold calculateCost
  rw [hb]
  refine ⟨_, rfl, ?_⟩
  generalize fl (fl (fl (fl base + fl ((tokens : ℚ) * fl 0.000002)) +
    fl ((seconds : ℚ) * fl 0.001)) * 100) = X at hhalf
  have h1 : (1 : ℤ) ≤ mathRound X := by
    unfold mathRound
    rw [Int.le_floor]
    push_cast
    have := hhalf.1
    norm_num at this ⊢
    linarith
  have hcent : (1 : ℚ) / 100 ≤ fl 0.01 := by
    rw [fl_one_cent]
    norm_num
  have hge : fl 0.01 ≤ fl ((mathRound X : ℚ) / 100) := by
    rcases eq_or_lt_of_le h1 with h | h
    · rw [← h]
      norm_num
    · have h2 : (2 : ℚ) ≤ (mathRound X : ℚ) := by exact_mod_cast h
      have h3 := (fl_bounds ((mathRound X : ℚ) / 100)
        (Or.inr (le_trans smallest_normal_le (by linarith)))).1
      rw [fl_one_cent]
      have h4 : (5764607523034235 : ℚ) * 2 ^ (-59 : ℤ) ≤ 2 / 100 * (1 - 1 / 2 ^ 53) := by
        norm_num
      have h5 : (2 : ℚ) / 100 * (1 - 1 / 2 ^ 53) ≤
          (mathRound X : ℚ) / 100 * (1 - 1 / 2 ^ 53) := by
        apply mul_le_mul_of_nonneg_right _ (by norm_num)
        linarith
      linarith
  exact ⟨hge, le_trans hcent hge⟩

/-- A goal object with an entry `length` of its own, here 5: the token estimate for
claude is 30, and the cost after no elapsed second is the double `0.02`. -/
theorem calculateCost_of_own_length :
    estimateTokenUsage (Json.obj [("length", Json.num 5)]) "claude" = some 30 ∧
    calculateCost "claude" 0 (some 30) = some (fl 0.02) := by
  constructor
  · have h1 : fl ((5 : ℚ) * 4) = 20 := by
      have := fl_intCast 20 (by norm_num)
      norm_num at this ⊢
      exact this
    have h2 : fl (1.5 : ℚ) = 3 / 2 := by
      have := fl_intCast_mul_zpow 3 (-1) (by norm_num) (by norm_num)
      norm_num at this ⊢
      exact this
    have h3 : fl ((20 : ℚ) * (3 / 2)) = 30 := by
      have := fl_intCast 30 (by norm_num)
      norm_num at this ⊢
      exact this
    have h4 : mathRound (30 : ℚ) = 30 := by exact_mod_cast mathRound_intCast 30
    have hlen : jsLength (Json.obj [("length", Json.num 5)]) = some 5 := by rfl
    have hmul : agentMultiplier "claude" = some (fl 1.5) := by rfl
    unfold estimateTokenUsage
    rw [hlen, hmul]
    simp only [h1, h2, h3, h4]
    norm_num
  · obtain ⟨m, hm, hnear, -⟩ := calculateCost_of_base "claude" 0.015 (by rfl) (by norm_num) 0 30
    have hm2 : m = 2 := by
      rw [abs_le] at hnear
      have h1 : (1 : ℚ) < m := by norm_num at hnear ⊢; linarith [hnear.1]
      have h2 : (m : ℚ) < 3 := by norm_num at hnear ⊢; linarith [hnear.2]
      have h3 : (1 : ℤ) < m := by exact_mod_cast h1
      have h4 : m < (3 : ℤ) := by exact_mod_cast h2
      omega
    subst hm2
    have h0 : ((0 : ℕ) : ℚ) = 0 := by norm_num
    have h30 : ((30 : ℕ) : ℚ) = 30 := by norm_num
    rw [h0, h30] at hm
    rw [hm]
    norm_num

theorem analyzeTaskForAgent_known (taskId routingPayload : String) :
    (analyzeTaskForAgent taskId routingPayload).agent ∈ knownAgents := by
  rw [analyzeTaskForAgent_agent]
  split_ifs <;> decide

end Poller

namespace Poller

/-- The success path of the `try` block of `routeTask`: when an executor call returned,
the `in_progress` update and `routeToSuperChase` returned, the execution was logged
and the `done` update was issued with the cost computed by `calculateCost`. -/
theorem routeTaskTry_success_path {env : Env} {taskRecord : TaskRecord}
    {systemTarget assignedAgent : String} {startTime : ℤ} {h : Trace}
    {res : Except JsError Unit} {t : Trace}
    (hT : routeTaskTry env taskRecord systemTarget assignedAgent startTime h = (res, t))
    (hexec : execSucceeded t = true) :
    ∃ (t1 t2 t3 t4 : ℤ) (g1 g2 g3 g4 w r d : Trace) (result : RouteResult),
      updateTaskStatus env taskRecord.id "in_progress"
        (inProgressFields (env.toISOString t1) (env.toISOString t2) systemTarget assignedAgent)
        g1 = (.ok (), w) ∧
      routeToSuperChase env taskRecord.fields.task_id
        (parsePayload env (strOr taskRecord.fields.routing_payload ""))
        systemTarget assignedAgent g2 = (.ok result, r) ∧
      updateTaskStatus env taskRecord.id "done"
        (doneFields (env.toISOString t4)
          (calculateCost assignedAgent (elapsedSeconds startTime t3) result.tokensUsed))
        g4 = (res, d) ∧
      t = [Event.clock t1] ++ [Event.clock t2] ++ w ++ r ++
        logExecution env taskRecord.id assignedAgent
          (successData taskRecord.fields.task_id systemTarget result) g3 ++
        [Event.clock t3] ++ [Event.clock t4] ++ d := by
  obtain ⟨t1, t2, h1, r1, w, hU, htry⟩ :=
    routeTaskTry_shape env taskRecord systemTarget assignedAgent startTime h
  rw [hT] at htry
  have hw := execSucceeded_of_updateTaskStatus hU
  rcases htry with ⟨e, -, heq⟩ | ⟨rfl, h2, r2, r, hR, hrest⟩
  · exfalso
    simp only [Prod.mk.injEq] at heq
    rw [heq.2] at hexec
    simp only [execSucceeded_append, execSucceeded_clock, hw, Bool.or_self] at hexec
    exact Bool.noConfusion hexec
  · rcases hrest with ⟨e, rfl, heq⟩ | ⟨result, h3, h4, t3, t4, r3, d, rfl, hD, heq⟩
    · exfalso
      simp only [Prod.mk.injEq] at heq
      rw [heq.2] at hexec
      simp only [execSucceeded_append, execSucceeded_clock, hw,
        execSucceeded_of_routeToSuperChase hR, Bool.or_self] at hexec
      exact Bool.noConfusion hexec
    · simp only [Prod.mk.injEq] at heq
      obtain ⟨rfl, rfl⟩ := heq
      exact ⟨t1, t2, t3, t4, h1, h2, h3, h4, w, r, d, result, hU, hR, hD, rfl⟩

theorem execSucceeded_routeTask {env : Env} {taskRecord : TaskRecord} {h : Trace}
    (hexec : execSucceeded (routeTask env taskRecord h).2 = true) :
    ∃ (t0 : ℤ) (h1 : Trace) (res : Except JsError Unit) (t c : Trace),
      routeTaskTry env taskRecord (resolveAssignment taskRecord.fields).1
        (resolveAssignment taskRecord.fields).2 t0 h1 = (res, t) ∧
      execSucceeded t = true ∧
      (routeTask env taskRecord h).2 = [Event.clock t0] ++ t ++ c ∧
      (c = [] ∨ ∃ error h2 r2, routeTaskCatch env taskRecord
        (resolveAssignment taskRecord.fields).2 t0 error h2 = (r2, c)) := by
  obtain ⟨t0, h1, r1, t, hT, hcase⟩ := routeTask_shape env taskRecord h
  rcases hcase with ⟨rfl, heq⟩ | ⟨error, h2, r2, c, rfl, hC, heq⟩
  · rw [heq] at hexec
    simp only [execSucceeded_append, execSucceeded_clock, Bool.false_or] at hexec
    exact ⟨t0, h1, _, t, [], hT, hexec, by rw [heq, List.append_nil], Or.inl rfl⟩
  · have hc := execSucceeded_routeTaskCatch env taskRecord
      (resolveAssignment taskRecord.fields).2 t0 error h2
    rw [hC] at hc
    rw [heq] at hexec
    simp only [execSucceeded_append, execSucceeded_clock, Bool.false_or, hc,
      Bool.or_false] at hexec
    exact ⟨t0, h1, _, t, c, hT, hexec, by rw [heq], Or.inr ⟨error, h2, r2, hC⟩⟩

theorem cost_ledgerPosts_logExecution (env : Env) (taskRecordId agentUsed : String)
    (executionData : ExecutionData) (h : Trace) :
    ∃ record, ledgerPosts (logExecution env taskRecordId agentUsed executionData h) =
      [record] ∧ record.cost_usd = numOr executionData.cost 0 :=
  ⟨_, rfl, rfl⟩

theorem cost_ledgerPosts_routeTaskCatch {env : Env} {taskRecord : TaskRecord}
    {assignedAgent : String} {startTime : ℤ} {error : JsError} {h : Trace}
    {res : Except JsError Unit} {c : Trace}
    (hC : routeTaskCatch env taskRecord assignedAgent startTime error h = (res, c)) :
    ∀ record ∈ ledgerPosts c, record.cost_usd = 0 := by
  obtain ⟨t1, t2, h1, r1, w, hU, hc⟩ :=
    routeTaskCatch_shape env taskRecord assignedAgent startTime error h
  rw [hC] at hc
  rcases hc with ⟨e, -, heq⟩ | ⟨-, h2, heq⟩
  · simp only [Prod.mk.injEq] at heq
    rw [heq.2]
    simp only [ledgerPosts_append, ledgerPosts_clock, ledgerPosts_of_updateTaskStatus hU,
      List.nil_append]
    intro record hrec
    simp at hrec
  · simp only [Prod.mk.injEq] at heq
    rw [heq.2]
    obtain ⟨record, hrec, hcost⟩ := cost_ledgerPosts_logExecution env taskRecord.id
      assignedAgent (failureData (elapsedSeconds startTime t1) error.message) h2
    simp only [ledgerPosts_append, ledgerPosts_clock, ledgerPosts_of_updateTaskStatus hU,
      List.nil_append, hrec, List.mem_singleton]
    rintro x rfl
    rw [hcost]
    rfl

theorem getField_done_cost (stamp : String) (cost : JsNum) :
    getField (buildUpdateData "done" (doneFields stamp cost)) "status" =
        some (.str "done") ∧
      getField (buildUpdateData "done" (doneFields stamp cost)) "cost_actual" =
        some (.num cost) := by
  constructor
  · exact getField_buildUpdateData_status _ _
  · simp [buildUpdateData, doneFields, safeFields, setField, getField, List.lookup]

/-- C26, as the code behaves: in every execution of `routeTask` in which an executor
call returned, every execution record handed to the ledger has cost 0, the first of
them being the record of the success; and a write of status `done` is issued whose
`cost_actual`, for a goal that is not an object, is `calculateCost` of the resolved
agent, the elapsed seconds and the token estimate of the goal.  That amount is a defined
number of at least 0.01 for each of the four known agents when the elapsed seconds are
not negative and the goal is a string or an array; when the goal is a number or a truth
value read from the payload, the read `goal.length` finds nothing and the token
estimate and with it `cost_actual` is `NaN`. -/
theorem routeTask_cost_record (env : Env) (taskRecord : TaskRecord) (h : Trace)
    (hexec : execSucceeded (routeTask env taskRecord h).2 = true) :
    (∃ record, (ledgerPosts (routeTask env taskRecord h).2).head? = some record) ∧
    (∀ record ∈ ledgerPosts (routeTask env taskRecord h).2, record.cost_usd = 0) ∧
    (∃ payload ∈ patchPayloads (routeTask env taskRecord h).2,
      ∃ (seconds : ℤ) (goal : Json) (taskData : TaskData),
        getField payload "status" = some (.str "done") ∧
        buildTaskData taskRecord.fields.task_id
          (parsePayload env (strOr taskRecord.fields.routing_payload ""))
          (resolveAssignment taskRecord.fields).1 (resolveAssignment taskRecord.fields).2 =
            some (goal, taskData) ∧
        ((∀ entries, goal ≠ Json.obj entries) →
          getField payload "cost_actual" =
            some (.num (calculateCost (resolveAssignment taskRecord.fields).2 seconds
              (estimateTokenUsage goal (resolveAssignment taskRecord.fields).2))))) ∧
    (∀ agent ∈ knownAgents, ∀ (seconds : ℤ) (goal : Json), 0 ≤ seconds →
      ((∃ s, goal = Json.str s) ∨ (∃ xs, goal = Json.arr xs)) →
      ∃ cost, calculateCost agent seconds (estimateTokenUsage goal agent) = some cost ∧
        fl 0.01 ≤ cost ∧ (1 : ℚ) / 100 ≤ cost) ∧
    (∀ (agent : String) (seconds : ℤ) (goal : Json),
      ((∃ n, goal = Json.num n) ∨ (∃ b, goal = Json.bool b)) →
      calculateCost agent seconds (estimateTokenUsage goal agent) = none) := by
  obtain ⟨t0, h1, res, t, c, hT, hex, hrun, hc⟩ := execSucceeded_routeTask hexec
  obtain ⟨t1, t2, t3, t4, g1, g2, g3, g4, w, r, d, result, hU, hR, hD, rfl⟩ :=
    routeTaskTry_success_path hT hex
  obtain ⟨record, hrec, hcost⟩ := cost_ledgerPosts_logExecution env taskRecord.id
    (resolveAssignment taskRecord.fields).2
    (successData taskRecord.fields.task_id (resolveAssignment taskRecord.fields).1 result) g3
  have hposts : ledgerPosts (routeTask env taskRecord h).2 = record :: ledgerPosts c := by
    rw [hrun]
    simp only [ledgerPosts_append, ledgerPosts_clock, ledgerPosts_of_updateTaskStatus hU,
      ledgerPosts_of_routeToSuperChase hR, ledgerPosts_of_updateTaskStatus hD, hrec,
      List.nil_append, List.append_nil]
    rfl
  refine ⟨⟨record, by rw [hposts]; rfl⟩, ?_, ?_, ?_, ?_⟩
  · rw [hposts]
    intro x hx
    rcases List.mem_cons.1 hx with rfl | hx
    · rw [hcost]; rfl
    · rcases hc with rfl | ⟨error, h2, r2, hC⟩
      · simp [ledgerPosts] at hx
      · exact cost_ledgerPosts_routeTaskCatch hC x hx
  · obtain ⟨rest, hrest⟩ := patchPayloads_of_updateTaskStatus hD
    have hgoal : ∃ goal taskData, buildTaskData taskRecord.fields.task_id
        (parsePayload env (strOr taskRecord.fields.routing_payload ""))
        (resolveAssignment taskRecord.fields).1 (resolveAssignment taskRecord.fields).2 =
          some (goal, taskData) ∧
        result.tokensUsed = estimateTokenUsage goal (resolveAssignment taskRecord.fields).2 := by
      rcases routeToSuperChase_shape hR with ⟨-, hres, -⟩ | ⟨_, _, _, _, -, hres, -⟩ |
        ⟨goal, taskData, _, _, _, result2, hb, hres, htok, -⟩
      · simp at hres
      · simp at hres
      · simp only [Except.ok.injEq] at hres
        subst hres
        exact ⟨goal, taskData, hb, htok⟩
    obtain ⟨goal, taskData, hb, htok⟩ := hgoal
    refine ⟨buildUpdateData "done" (doneFields (env.toISOString t4)
      (calculateCost (resolveAssignment taskRecord.fields).2 (elapsedSeconds t0 t3)
        result.tokensUsed)), ?_, elapsedSeconds t0 t3, goal, taskData,
      (getField_done_cost _ _).1, hb, ?_⟩
    · have hmem : buildUpdateData "done" (doneFields (env.toISOString t4)
          (calculateCost (resolveAssignment taskRecord.fields).2 (elapsedSeconds t0 t3)
            result.tokensUsed)) ∈ patchPayloads d := by
        rw [hrest]
        exact List.mem_cons_self _ _
      rw [hrun]
      simp only [patchPayloads_append, List.mem_append]
      exact Or.inl (Or.inr (Or.inr hmem))
    · intro _
      rw [(getField_done_cost _ _).2, htok]
  · intro agent hagent seconds goal hs hgoal
    obtain ⟨tokens, htok, ht0⟩ := estimateTokenUsage_of_length goal agent hgoal hagent
    rw [htok]
    exact calculateCost_ge agent hagent seconds tokens hs ht0
  · intro agent seconds goal hgoal
    rw [estimateTokenUsage_of_no_length goal agent hgoal]
    exact calculateCost_of_no_tokens _ _

/-- C26 as amended, at a run in which every collaborator succeeds. -/
theorem routeTask_cost_record_witness :
    execSucceeded (routeTask acceptingEnv urgentTask []).2 = true ∧
    ((∃ record, (ledgerPosts (routeTask acceptingEnv urgentTask []).2).head? = some record) ∧
    (∀ record ∈ ledgerPosts (routeTask acceptingEnv urgentTask []).2, record.cost_usd = 0) ∧
    (∃ payload ∈ patchPayloads (routeTask acceptingEnv urgentTask []).2,
      ∃ (seconds : ℤ) (goal : Json) (taskData : TaskData),
        getField payload "status" = some (.str "done") ∧
        buildTaskData urgentTask.fields.task_id
          (parsePayload acceptingEnv (strOr urgentTask.fields.routing_payload ""))
          (resolveAssignment urgentTask.fields).1 (resolveAssignment urgentTask.fields).2 =
            some (goal, taskData) ∧
        ((∀ entries, goal ≠ Json.obj entries) →
          getField payload "cost_actual" =
            some (.num (calculateCost (resolveAssignment urgentTask.fields).2 seconds
              (estimateTokenUsage goal (resolveAssignment urgentTask.fields).2))))) ∧
    (∀ agent ∈ knownAgents, ∀ (seconds : ℤ) (goal : Json), 0 ≤ seconds →
      ((∃ s, goal = Json.str s) ∨ (∃ xs, goal = Json.arr xs)) →
      ∃ cost, calculateCost agent seconds (estimateTokenUsage goal agent) = some cost ∧
        fl 0.01 ≤ cost ∧ (1 : ℚ) / 100 ≤ cost) ∧
    (∀ (agent : String) (seconds : ℤ) (goal : Json),
      ((∃ n, goal = Json.num n) ∨ (∃ b, goal = Json.bool b)) →
      calculateCost agent seconds (estimateTokenUsage goal agent) = none)) :=
  ⟨by decide, routeTask_cost_record acceptingEnv urgentTask [] (by decide)⟩

/-- C26 refuted as stated: the item is assigned to copilot, one of the four known
agents, and its payload carries the goal `42`, which has no length.  Every collaborator
succeeds, the execution record has cost 0, and the `cost_actual` written with the
`done` update is `NaN`, not an amount of at least 0.01. -/
theorem routeTask_cost_actual_nan :
    (resolveAssignment assignedNumericGoalTask.fields).2 = "copilot" ∧
    statusWrites (routeTask numericGoalEnv assignedNumericGoalTask []).2 =
      [(some (.str "in_progress"), true), (some (.str "done"), true)] ∧
    (execCalls (routeTask numericGoalEnv assignedNumericGoalTask []).2).map
        (fun taskData => taskData.goal matches Json.num 42) = [true] ∧
    (patchPayloads (routeTask numericGoalEnv assignedNumericGoalTask []).2).map
        (fun payload => getField payload "cost_actual") = [none, some (.num none)] := by
  refine ⟨by decide, by decide, by decide, by decide⟩

end Poller

namespace Poller

/-! ### The cost of an item with an unknown or an auto-assigned agent -/

/-- C27, as the code behaves: for every agent name outside claude, gpt4, copilot and
multi_agent, all elapsed seconds and every token count, `calculateCost` yields `NaN`;
for every task id and routing payload the agent returned by `analyzeTaskForAgent` is
one of those four.  For such an agent the cost is a defined number exactly when the
token count is one; the token estimate is a defined number when the goal is a string or
an array, and it is `NaN` when the goal read from the payload is a number or a truth
value, so that the cost of such an auto-assigned item is `NaN`. -/
theorem calculateCost_defined_iff :
    (∀ (agent : String) (seconds : ℚ) (tokensUsed : JsNum), agent ∉ knownAgents →
      calculateCost agent seconds tokensUsed = none) ∧
    (∀ taskId routingPayload : String,
      (analyzeTaskForAgent taskId routingPayload).agent ∈ knownAgents) ∧
    (∀ (taskId routingPayload : String) (seconds : ℚ) (tokensUsed : JsNum),
      (calculateCost (analyzeTaskForAgent taskId routingPayload).agent seconds
        tokensUsed).isSome = tokensUsed.isSome) ∧
    (∀ (taskId routingPayload : String) (goal : Json),
      ((∃ s, goal = Json.str s) ∨ (∃ xs, goal = Json.arr xs)) →
      (estimateTokenUsage goal (analyzeTaskForAgent taskId routingPayload).agent).isSome =
        true) ∧
    (∀ (goal : Json) (agent : String),
      ((∃ n, goal = Json.num n) ∨ (∃ b, goal = Json.bool b)) →
      estimateTokenUsage goal agent = none) ∧
    calculateCost "nova" 30 (some 100) = none :=
  ⟨fun agent seconds tokensUsed hagent => calculateCost_of_unknown agent hagent seconds tokensUsed,
    analyzeTaskForAgent_known,
    fun taskId routingPayload seconds tokensUsed =>
      calculateCost_isSome _ (analyzeTaskForAgent_known taskId routingPayload) seconds tokensUsed,
    fun taskId routingPayload goal hgoal => by
      obtain ⟨tokens, htok, -⟩ := estimateTokenUsage_of_length goal _ hgoal
        (analyzeTaskForAgent_known taskId routingPayload)
      rw [htok]
      rfl,
    estimateTokenUsage_of_no_length, rfl⟩

/-- C27 refuted as stated: the item has no assignment and its payload carries the goal
`42`; `routeTask` assigns it to claude through `analyzeTaskForAgent`, every collaborator
succeeds, and the cost written with the `done` update is `NaN`, because the goal has no
length and the token estimate is `NaN`. -/
theorem routeTask_auto_assigned_cost_nan :
    strFalsy numericGoalTask.fields.assigned_agent = true ∧
    (resolveAssignment numericGoalTask.fields).2 =
      (analyzeTaskForAgent "TASK-3" "\x7b\"goal\": 42\x7d").agent ∧
    (resolveAssignment numericGoalTask.fields).2 = "claude" ∧
    estimateTokenUsage (Json.num 42) "claude" = none ∧
    statusWrites (routeTask numericGoalEnv numericGoalTask []).2 =
      [(some (.str "in_progress"), true), (some (.str "done"), true)] ∧
    (patchPayloads (routeTask numericGoalEnv numericGoalTask []).2).map
        (fun payload => getField payload "cost_actual") = [none, some (.num none)] := by
  refine ⟨rfl, by decide, by decide, rfl, by decide, by decide⟩

end Poller

namespace Poller

/-! ### `analyzeTaskForAgent` and the keyword scores -/

/-- Lower-casing turns the Kelvin sign into `k`: the text of the record `T-3` with the
payload `kelvinPayload` has the keyword `marketing`, and the record is assigned to
gpt4. -/
theorem analyzeTaskForAgent_kelvin_sign :
    toLowerCase ("T-3" ++ " " ++ kelvinPayload) = "t-3 marketing plan" ∧
    (analyzeTaskForAgent "T-3" kelvinPayload).agent = "gpt4" ∧
    (resolveAssignment
      { task_id := "T-3", routing_payload := some kelvinPayload, priority := none,
        system_target := none, assigned_agent := none }).2 = "gpt4" := by
  refine ⟨by decide, by decide, by decide⟩

theorem mentionsAny_iff_score (content : String) (terms : List String) :
    mentionsAny content terms = decide (0 < specCategoryScore content terms) := by
  unfold mentionsAny specCategoryScore
  induction terms with
  | nil => rfl
  | cons term rest ih =>
    rw [List.any_cons, ih, List.filter_cons]
    cases includes content term <;> simp

/-- C25, as the code behaves: `analyzeTaskForAgent` tests the categories in the order
claude, gpt4, multi_agent, copilot and returns the agent of the first category that has
a keyword in the lower-cased text `task_id routing_payload`, that is the first category
whose score is positive, and claude when no category has one.  The scores are not
compared with each other. -/
theorem analyzeTaskForAgent_first_match (taskId routingPayload : String) :
    (analyzeTaskForAgent taskId routingPayload).agent =
      ((categories.find? fun category =>
        decide (0 < specCategoryScore (toLowerCase (taskId ++ " " ++ routingPayload))
          category.2)).map Prod.fst).getD "claude" := by
  rw [analyzeTaskForAgent_agent]
  simp only [mentionsAny_iff_score, categories, List.find?_cons, List.find?_nil]
  by_cases h1 : 0 < specCategoryScore (toLowerCase (taskId ++ " " ++ routingPayload)) claudeTerms
  · simp [h1]
  · by_cases h2 : 0 < specCategoryScore (toLowerCase (taskId ++ " " ++ routingPayload)) gpt4Terms
    · simp [h1, h2]
    · by_cases h3 : 0 < specCategoryScore (toLowerCase (taskId ++ " " ++ routingPayload))
          multiAgentTerms
      · simp [h1, h2, h3]
      · by_cases h4 : 0 < specCategoryScore (toLowerCase (taskId ++ " " ++ routingPayload))
            copilotTerms
        · simp [h1, h2, h3, h4]
        · simp [h1, h2, h3, h4]

/-- C25 refuted as stated: for the task id `T-1` and the payload `design creative
content` the category of claude has score 1 and the category of gpt4 has score 2, and
`analyzeTaskForAgent` returns claude, whose score is not maximal. -/
theorem analyzeTaskForAgent_not_maximal :
    (analyzeTaskForAgent "T-1" "design creative content").agent = "claude" ∧
    specCategoryScore (toLowerCase ("T-1" ++ " " ++ "design creative content")) claudeTerms = 1 ∧
    specCategoryScore (toLowerCase ("T-1" ++ " " ++ "design creative content")) gpt4Terms = 2 := by
  refine ⟨by decide, by decide, by decide⟩

end Poller

namespace Server

/-! ### The divisor of the confidence -/

theorem splitSpaceChars_replicate (n : ℕ) :
    (splitSpaceChars (List.replicate n ' ')).length = n + 1 := by
  induction n with
  | zero => rfl
  | succ n ih => simp [List.replicate_succ, splitSpaceChars, ih]

/-- C28: for every string `description` the word count `description.split(' ').length`
is at least 1; it is 1 for the empty string and `n + 1` for the string of `n` spaces.
So the division in `analyzeTask` of `src/server.js` and of `src/coordinator.js` is
never by zero: the confidence times the word count is the maximal score (in
`src/server.js` when no override fires, the confidence being 0.9 otherwise), and the
confidence is a non-negative number. -/
theorem analyzeTask_word_count_pos (description : String) :
    1 ≤ (splitSpace description).length ∧
    (splitSpace "").length = 1 ∧
    (∀ n : ℕ, (splitSpace ⟨List.replicate n ' '⟩).length = n + 1) ∧
    (overrideFires description = false →
      (analyzeTask description).confidence * ((splitSpace description).length : ℚ) =
        ((((scores description).map Prod.snd).foldl max 0 : ℕ) : ℚ)) ∧
    (Coordinator.analyzeTask description).confidence * ((splitSpace description).length : ℚ) =
      ((((Coordinator.scores description).map Prod.snd).foldl max 0 : ℕ) : ℚ) ∧
    0 ≤ (analyzeTask description).confidence ∧
    0 ≤ (Coordinator.analyzeTask description).confidence := by
  have hpos := splitSpace_length_pos description
  have hne : ((splitSpace description).length : ℚ) ≠ 0 := by
    exact_mod_cast (Nat.pos_iff_ne_zero.1 hpos)
  have hge : (0 : ℚ) ≤ ((splitSpace description).length : ℚ) := Nat.cast_nonneg _
  have hcoord : (Coordinator.analyzeTask description).confidence =
      ((((Coordinator.scores description).map Prod.snd).foldl max 0 : ℕ) : ℚ) /
        ((splitSpace description).length : ℚ) := rfl
  refine ⟨hpos, rfl, ?_, ?_, ?_, ?_, ?_⟩
  · intro n
    simp [splitSpace, splitSpaceChars_replicate]
  · intro ho
    simp only [analyzeTask, ho, Bool.false_eq_true, if_false]
    exact div_mul_cancel₀ _ hne
  · rw [hcoord]
    exact div_mul_cancel₀ _ hne
  · cases ho : overrideFires description
    · simp only [analyzeTask, ho, Bool.false_eq_true, if_false]
      exact div_nonneg (Nat.cast_nonneg _) hge
    · simp only [analyzeTask, ho, if_true]
      norm_num
  · rw [hcoord]
    exact div_nonneg (Nat.cast_nonneg _) hge

end Server

namespace Poller

/-! ### Starting and stopping the poller -/

/-- C22: a call of `startPolling` on a poller whose `isPolling` is already true returns
at once, for every environment and every number of loop turns allowed: no event is
emitted (nothing is fetched, no item is processed) and the state is unchanged.
`stopPolling` sets `isPolling` to false and leaves every other field as it was. -/
theorem startPolling_idempotent (env : Env) (stop : Trace → Bool) (fuel : ℕ)
    (s : PollerState) (h : Trace) (hrun : s.isPolling = true) :
    startPolling env stop fuel s h = some (s, []) ∧
    (stopPolling s).isPolling = false ∧
    (stopPolling s).airtableToken = s.airtableToken ∧
    (stopPolling s).baseId = s.baseId ∧
    (stopPolling s).baseUrl = s.baseUrl ∧
    (stopPolling s).pollInterval = s.pollInterval := by
  refine ⟨?_, rfl, rfl, rfl, rfl, rfl⟩
  unfold startPolling
  rw [if_pos hrun]

/-- C22 at a running poller and an environment with two queued records. -/
theorem startPolling_idempotent_witness :
    ({ idlePoller with isPolling := true } : PollerState).isPolling = true ∧
    (startPolling twoTaskEnv neverStop 5 { idlePoller with isPolling := true } [] =
      some ({ idlePoller with isPolling := true }, []) ∧
    (stopPolling { idlePoller with isPolling := true }).isPolling = false ∧
    (stopPolling { idlePoller with isPolling := true }).airtableToken =
      ({ idlePoller with isPolling := true } : PollerState).airtableToken ∧
    (stopPolling { idlePoller with isPolling := true }).baseId =
      ({ idlePoller with isPolling := true } : PollerState).baseId ∧
    (stopPolling { idlePoller with isPolling := true }).baseUrl =
      ({ idlePoller with isPolling := true } : PollerState).baseUrl ∧
    (stopPolling { idlePoller with isPolling := true }).pollInterval =
      ({ idlePoller with isPolling := true } : PollerState).pollInterval) :=
  ⟨rfl, startPolling_idempotent twoTaskEnv neverStop 5 { idlePoller with isPolling := true } []
    rfl⟩

theorem pollLoop_of_stopped (env : Env) (stop : Trace → Bool) (fuel : ℕ) (s : PollerState)
    (h : Trace) (hidle : s.isPolling = false) :
    pollLoop env stop (fuel + 1) s h = some (s, []) := by
  simp [pollLoop, hidle]

theorem stopPolling_restart (s : PollerState) (hrun : s.isPolling = true) :
    ({ stopPolling s with isPolling := true } : PollerState) = s := by
  cases s
  simp only [stopPolling] at *
  subst hrun
  rfl

/-- C23, as the code behaves: the flag `isPolling` is read at the head of a turn of the
`while` loop only, not between the items of a batch.  When `stopPolling` is called at
any moment of a turn (while an item is in flight, for instance), the turn is carried
out to its end exactly as without the call: the fetch, every item that the batch loop
reaches, and the poll-interval wait; then the loop ends with `isPolling` false and
nothing more is fetched. -/
theorem stopPolling_takes_effect_after_turn (env : Env) (stop : Trace → Bool) (fuel : ℕ)
    (s : PollerState) (h : Trace) (hrun : s.isPolling = true)
    (hstop : stoppedDuring stop h (pollCycle env s.pollInterval h) = true) :
    pollLoop env stop (fuel + 2) s h =
      some (stopPolling s, pollCycle env s.pollInterval h) ∧
    startPolling env stop (fuel + 2) (stopPolling s) h =
      some (stopPolling s, pollCycle env s.pollInterval h) := by
  have hloop : pollLoop env stop (fuel + 2) s h =
      some (stopPolling s, pollCycle env s.pollInterval h) := by
    rw [pollLoop, if_pos hrun]
    simp only [afterEvents, hstop, if_true]
    rw [pollLoop_of_stopped env stop fuel (stopPolling s) _ rfl]
    simp
  refine ⟨hloop, ?_⟩
  unfold startPolling
  rw [if_neg (by simp [stopPolling]), stopPolling_restart s hrun]
  exact hloop

/-- C23 as amended, at a run with two queued records in which `stopPolling` is called
while the first one is in flight. -/
theorem stopPolling_takes_effect_after_turn_witness :
    ({ idlePoller with isPolling := true } : PollerState).isPolling = true ∧
    stoppedDuring stopDuringFirstItem []
      (pollCycle twoTaskEnv ({ idlePoller with isPolling := true } : PollerState).pollInterval
        []) = true ∧
    (pollLoop twoTaskEnv stopDuringFirstItem (0 + 2) { idlePoller with isPolling := true } [] =
      some (stopPolling { idlePoller with isPolling := true },
        pollCycle twoTaskEnv
          ({ idlePoller with isPolling := true } : PollerState).pollInterval []) ∧
    startPolling twoTaskEnv stopDuringFirstItem (0 + 2)
        (stopPolling { idlePoller with isPolling := true }) [] =
      some (stopPolling { idlePoller with isPolling := true },
        pollCycle twoTaskEnv
          ({ idlePoller with isPolling := true } : PollerState).pollInterval [])) :=
  ⟨rfl, by decide,
    stopPolling_takes_effect_after_turn twoTaskEnv stopDuringFirstItem 0
      { idlePoller with isPolling := true } [] rfl (by decide)⟩

/-- C23 refuted as stated: the batch is `[a, b]` and every collaborator succeeds;
`stopPolling` is called while item `a` is in flight, after its `in_progress` write
(the fifth event of the run) and before its executor call.  Item `a` is completed, and
item `b` is dispatched all the same: its executor call and its two status writes
follow, although the flag was already false.  Only then the loop ends. -/
theorem stopPolling_does_not_skip_later_items :
    (startPolling twoTaskEnv stopDuringFirstItem 2 idlePoller []).map
        (fun run => run.1.isPolling) = some false ∧
    (startPolling twoTaskEnv stopDuringFirstItem 2 idlePoller []).map
        (fun run => patchedIds (run.2.take 5)) = some ["a"] ∧
    (startPolling twoTaskEnv stopDuringFirstItem 2 idlePoller []).map
        (fun run => stoppedDuring stopDuringFirstItem [] (run.2.take 5)) = some true ∧
    (startPolling twoTaskEnv stopDuringFirstItem 2 idlePoller []).map
        (fun run => (execCalls (run.2.drop 5)).map (fun taskData => taskData.id)) =
      some ["a", "b"] ∧
    (startPolling twoTaskEnv stopDuringFirstItem 2 idlePoller []).map
        (fun run => patchedIds run.2) = some ["a", "a", "b", "b"] ∧
    (startPolling twoTaskEnv stopDuringFirstItem 2 idlePoller []).map
        (fun run => statusWrites run.2) =
      some [(some (.str "in_progress"), true), (some (.str "done"), true),
        (some (.str "in_progress"), true), (some (.str "done"), true)] := by
  refine ⟨by decide, by decide, by decide, by decide, by decide, by decide⟩

end Poller

namespace Tts

/-! ### The cache file of `getVoiceClip` -/

theorem utf8Encode_of_letter (c : Char) (hc : isAsciiLetter c = true) :
    utf8Encode c = [c.toNat] := by
  have hlt : c.toNat < 0x80 := by
    simp only [isAsciiLetter, Bool.or_eq_true, Bool.and_eq_true, decide_eq_true_eq] at hc
    omega
  simp [utf8Encode, hlt]

theorem bufferFromChars_letters (pre s : List Char)
    (hpre : ∀ c ∈ pre, isAsciiLetter c = true) :
    bufferFromChars (pre ++ s) = pre.map Char.toNat ++ bufferFromChars s := by
  induction pre with
  | nil => rfl
  | cons c cs ih =>
    have hc := hpre c (List.mem_cons_self _ _)
    have hcs : ∀ d ∈ cs, isAsciiLetter d = true := fun d hd => hpre d (List.mem_cons_of_mem _ hd)
    show utf8Encode c ++ bufferFromChars (cs ++ s) =
      c.toNat :: (cs.map Char.toNat ++ bufferFromChars s)
    rw [utf8Encode_of_letter c hc, ih hcs]
    rfl

theorem keptInHash_base64Digit : ∀ i, i < 62 → keptInHash (base64Digit i) = true := by
  decide

/-- The bytes of ASCII letters, three at a time, give four base64 digits each, none of
which is removed from the hash. -/
theorem base64_letter_bytes (k : ℕ) :
    ∀ bs : List ℕ, bs.length = 3 * k →
      (∀ b ∈ bs, (65 ≤ b ∧ b ≤ 90) ∨ (97 ≤ b ∧ b ≤ 122)) →
      (∀ rest, base64 (bs ++ rest) = base64 bs ++ base64 rest) ∧
      (base64 bs).length = 4 * k ∧ ∀ c ∈ base64 bs, keptInHash c = true := by
  induction k with
  | zero =>
    intro bs hlen _
    have : bs = [] := List.length_eq_zero.1 (by simpa using hlen)
    subst this
    exact ⟨fun _ => rfl, rfl, fun c hc => by simp [base64] at hc⟩
  | succ k ih =>
    intro bs hlen hbs
    match bs, hlen, hbs with
    | a :: b :: c :: bs1, hlen, hbs =>
      have hlen1 : bs1.length = 3 * k := by
        simp only [List.length_cons] at hlen
        omega
      have ha := hbs a (by simp)
      have hb := hbs b (by simp)
      have hc := hbs c (by simp)
      obtain ⟨happ, hl, hkept⟩ := ih bs1 hlen1 (fun x hx => hbs x (by simp [hx]))
      refine ⟨?_, ?_, ?_⟩
      · intro rest
        show base64Digit (a / 4) :: base64Digit (a % 4 * 16 + b / 16) ::
          base64Digit (b % 16 * 4 + c / 64) :: base64Digit (c % 64) :: base64 (bs1 ++ rest) = _
        rw [happ rest]
        rfl
      · simp only [base64, List.length_cons, hl]
        omega
      · intro x hx
        simp only [base64, List.mem_cons] at hx
        rcases hx with rfl | rfl | rfl | rfl | hx
        · exact keptInHash_base64Digit _ (by omega)
        · exact keptInHash_base64Digit _ (by omega)
        · exact keptInHash_base64Digit _ (by omega)
        · exact keptInHash_base64Digit _ (by omega)
        · exact hkept x hx
    | [], hlen, _ =>
      simp only [List.length_nil] at hlen
      omega
    | [_], hlen, _ =>
      simp only [List.length_cons, List.length_nil] at hlen
      omega
    | [_, _], hlen, _ =>
      simp only [List.length_cons, List.length_nil] at hlen
      omega

/-- The first 20 characters of the hash of a text that starts with 15 ASCII letters are
the base64 digits of these letters. -/
theorem textHash_take_of_letters (pre s : List Char) (hlen : pre.length = 15)
    (hpre : ∀ c ∈ pre, isAsciiLetter c = true) :
    (textHash ⟨pre ++ s⟩).take 20 = base64 (pre.map Char.toNat) := by
  have hbytes : ∀ b ∈ pre.map Char.toNat, (65 ≤ b ∧ b ≤ 90) ∨ (97 ≤ b ∧ b ≤ 122) := by
    intro b hb
    obtain ⟨c, hc, rfl⟩ := List.mem_map.1 hb
    have := hpre c hc
    simp only [isAsciiLetter, Bool.or_eq_true, Bool.and_eq_true, decide_eq_true_eq] at this
    exact this
  obtain ⟨happ, hl, hkept⟩ := base64_letter_bytes 5 (pre.map Char.toNat)
    (by rw [List.length_map, hlen]) hbytes
  unfold textHash bufferFrom
  rw [bufferFromChars_letters pre s hpre, happ, List.filter_append,
    List.filter_eq_self.2 hkept]
  exact List.take_left' hl

theorem getVoiceClip_after_ok {env : TtsEnv} {voiceType text : String} {options : Options}
    {files files1 : Files} {clip : Clip}
    (hG : getVoiceClip env voiceType text options files = (.ok clip, files1)) :
    (∃ voiceId, voiceMap env.voices (toLowerCase voiceType) = some voiceId ∧ voiceId ≠ "") ∧
    clip.url = "file://" ++ cacheFile env.cacheDir voiceType text ∧
    existsSync files1 (cacheFile env.cacheDir voiceType text) = true ∧
    (existsSync files (cacheFile env.cacheDir voiceType text) = true →
      clip.cached = true ∧ files1 = files) ∧
    (existsSync files (cacheFile env.cacheDir voiceType text) = false →
      clip.cached = false ∧
      ∃ voiceId audio, voiceMap env.voices (toLowerCase voiceType) = some voiceId ∧
        env.speech voiceId text options = .ok audio ∧
        files1.lookup (cacheFile env.cacheDir voiceType text) = some audio) := by
  revert hG
  unfold getVoiceClip
  split
  · intro hG
    simp at hG
  · rename_i voiceId hv
    split
    · intro hG
      simp at hG
    · rename_i hne
      simp only
      split
      · rename_i hex
        intro hG
        simp only [Prod.mk.injEq, Except.ok.injEq] at hG
        obtain ⟨rfl, rfl⟩ := hG
        refine ⟨⟨voiceId, hv, hne⟩, rfl, hex, fun _ => ⟨rfl, rfl⟩, fun hno => ?_⟩
        rw [hex] at hno
        exact Bool.noConfusion hno
      · rename_i hex
        split
        · intro hG
          simp at hG
        · rename_i audio hs
          intro hG
          simp only [Prod.mk.injEq, Except.ok.injEq] at hG
          obtain ⟨rfl, rfl⟩ := hG
          have hlook : (writeFileSync files (cacheFile env.cacheDir voiceType text)
              audio).lookup (cacheFile env.cacheDir voiceType text) = some audio := by
            simp [writeFileSync, List.lookup]
          refine ⟨⟨voiceId, hv, hne⟩, rfl, ?_, fun hyes => absurd hyes hex,
            fun _ => ⟨rfl, voiceId, audio, hv, hs, hlook⟩⟩
          simp [existsSync, hlook]

/-- C30: the name of the cache file is the voice type, an underscore, the first 20
characters of the base64 text of the request text with `/`, `+` and `=` removed, and
`.mp3`, so two texts with the same 20 characters have the same cache file for a voice
type.  Any two texts that share their first 15 characters, all ASCII letters, are such
texts, whatever follows.  When a request for the first text has returned a clip, a
request for the second text with the same voice type finds the file, requests no
audio and returns the same url with `cached` true; and when the first request had to
generate the audio, the file holds the audio of the first text.  The texts
`WelcomeToSuperChase` and `WelcomeToSuperChannel` are an instance. -/
theorem getVoiceClip_cache_collision :
    (∀ voiceType t1 t2 : String, (textHash t1).take 20 = (textHash t2).take 20 →
      cacheFileName voiceType t1 = cacheFileName voiceType t2) ∧
    (∀ (voiceType : String) (pre s1 s2 : List Char), pre.length = 15 →
      (∀ c ∈ pre, isAsciiLetter c = true) →
      cacheFileName voiceType ⟨pre ++ s1⟩ = cacheFileName voiceType ⟨pre ++ s2⟩) ∧
    (∀ (env : TtsEnv) (voiceType t1 t2 : String) (o1 o2 : Options) (files files1 : Files)
        (clip : Clip),
      cacheFileName voiceType t1 = cacheFileName voiceType t2 →
      getVoiceClip env voiceType t1 o1 files = (.ok clip, files1) →
      getVoiceClip env voiceType t2 o2 files1 =
          (.ok { url := clip.url, cached := true, voiceType := voiceType,
                 text := preview t2, sizeKB := none }, files1) ∧
        (existsSync files (cacheFile env.cacheDir voiceType t1) = false →
          ∃ voiceId audio, env.speech voiceId t1 o1 = .ok audio ∧
            files1.lookup (cacheFile env.cacheDir voiceType t2) = some audio)) ∧
    ("WelcomeToSuperChase" ≠ "WelcomeToSuperChannel" ∧
      cacheFileName "producer" "WelcomeToSuperChase" =
        cacheFileName "producer" "WelcomeToSuperChannel" ∧
      (getVoiceClip echoEnv "producer" "WelcomeToSuperChannel" noOptions
        (getVoiceClip echoEnv "producer" "WelcomeToSuperChase" noOptions []).2).1 =
        .ok { url := "file://audio-cache/producer_V2VsY29tZVRvU3VwZXJD.mp3", cached := true,
              voiceType := "producer", text := "WelcomeToSuperChannel", sizeKB := none } ∧
      (getVoiceClip echoEnv "producer" "WelcomeToSuperChase" noOptions []).2 =
        [("audio-cache/producer_V2VsY29tZVRvU3VwZXJD.mp3",
          bufferFrom "WelcomeToSuperChase")]) := by
  refine ⟨?_, ?_, ?_, by decide, by decide, by rfl, by decide⟩
  · intro voiceType t1 t2 h20
    unfold cacheFileName
    rw [h20]
  · intro voiceType pre s1 s2 hlen hpre
    unfold cacheFileName
    rw [textHash_take_of_letters pre s1 hlen hpre, textHash_take_of_letters pre s2 hlen hpre]
  · intro env voiceType t1 t2 o1 o2 files files1 clip hname hG
    obtain ⟨⟨voiceId, hv, hne⟩, hurl, hex, -, hfresh⟩ := getVoiceClip_after_ok hG
    have hpath : cacheFile env.cacheDir voiceType t2 = cacheFile env.cacheDir voiceType t1 := by
      unfold cacheFile
      rw [hname]
    constructor
    · unfold getVoiceClip
      rw [hv]
      simp only [hne, if_false, hpath, hex, if_true, hurl]
    · intro hno
      obtain ⟨-, voiceId2, audio, -, hs, hlook⟩ := hfresh hno
      exact ⟨voiceId2, audio, hs, by rw [hpath]; exact hlook⟩

end Tts
